import Mathlib

/-!
# mem-sql: tokenizer, parser and in-memory table engine

A shallow embedding of `lexer.go`, `parser.go`, `ast.go`, `backend.go` and `mem.go`.

Modelling conventions.

* A Go `string` / `[]byte` is a list of bytes, each byte a natural number (`Bytes`).
* `uint` cursors are natural numbers; the one place where the source relies on
  unsigned wrap-around (`tokens[cursor-1]` in `helpMessage`) is written with an
  explicit `% 2^64`.
* A Go function that can panic returns an `Outcome`: `ret v` when it returns `v`,
  `panic` when the Go runtime panics (explicit `panic(err)`, index or slice out of
  range), and `fuel` when a loop of the model was cut off by its iteration budget.
* Pointers that the source tests against `nil` are `Option`s; all other pointers
  are taken to be non-nil, as `Parse` builds them.
* Output written with `fmt.Println` / `fmt.Printf` is not modelled.
-/

namespace MemSql

/-! ## Basic types -/

/-- Byte strings: the model of Go `string` and `[]byte`. -/
abbrev Bytes := List Nat

/-- UTF-8 encoding of one code point. -/
def utf8EncodeRune (r : Nat) : Bytes :=
  if r < 0x80 then [r]
  else if r < 0x800 then [0xC0 + r / 64, 0x80 + r % 64]
  else if r < 0x10000 then [0xE0 + r / 4096, 0x80 + (r / 64) % 64, 0x80 + r % 64]
  else [0xF0 + r / 262144, 0x80 + (r / 4096) % 64, 0x80 + (r / 64) % 64, 0x80 + r % 64]

/-- The bytes of a string literal of the source language (UTF-8). -/
def str (s : String) : Bytes :=
  s.toList.flatMap (fun c => utf8EncodeRune c.toNat)

/-- Outcome of running a Go function. -/
inductive Outcome (α : Type) where
  | ret (a : α)
  | panic
  | fuel
deriving DecidableEq, Repr

namespace Outcome

/-- Sequencing: a panic (or an exhausted budget) of the first step is the outcome. -/
def bind {α β : Type} (x : Outcome α) (f : α → Outcome β) : Outcome β :=
  match x with
  | ret a => f a
  | panic => panic
  | fuel => fuel

instance : Monad Outcome where
  pure := ret
  bind := bind

end Outcome

/-- Location in the source, from `lexer.go` (struct `Location`). -/
structure Location where
  line : Nat
  column : Nat
deriving DecidableEq, Repr

/-- The constants of `TokenKind` in `lexer.go`. -/
inductive TokenKind where
  | keywordKind
  | symbolKind
  | identifierKind
  | textKind
  | integerKind
deriving DecidableEq, Repr

open TokenKind

/-- Struct `Token` of `lexer.go`. -/
structure Token where
  value : Bytes
  kind : TokenKind
  location : Location
deriving DecidableEq, Repr

/-- Struct `cursor` of `lexer.go`. -/
structure cursor where
  location : Location
  pointer : Nat
deriving DecidableEq, Repr

/-- Method `(t *Token) equals(ot *Token)`: value and kind, not location. -/
def Token.equals (t ot : Token) : Bool :=
  t.value == ot.value && t.kind == ot.kind

/-- The keyword constants of `lexer.go`, in the order `lexKeyword` lists them. -/
def keywords : List Bytes :=
  [str "create", str "select", str "from", str "table", str "insert",
   str "into", str "values", str "int", str "text"]

/-- The symbol constants of `lexer.go`, in the order `lexSymbol` lists them. -/
def symbols : List Bytes :=
  [str ",", str ";", str "*", str "(", str ")"]

/-! ## Tokenizer (`lexer.go`) -/

/-- A lexer result `(*Token, cursor, bool)`. -/
abbrev LexResult := Option Token × cursor × Bool

/-- Loop of `lexNumber`. The result is `none` when the function returns
`(nil, ic, false)` from inside the loop, and `some cur` when the loop ends
(condition false, or `break`) with cursor `cur`. -/
def lexNumberLoop (source : Bytes) (ic : cursor) :
    Nat → cursor → Bool → Bool → Outcome (Option cursor)
  | 0, _, _, _ => Outcome.fuel
  | n + 1, cur, periodFound, exponentFound =>
    if cur.pointer < source.length then
      match source[cur.pointer]? with
      | none => Outcome.panic
      | some c =>
        let cur1 : cursor :=
          { cur with location := { cur.location with column := cur.location.column + 1 } }
        let isDigit : Bool := decide (48 ≤ c) && decide (c ≤ 57)
        let isPeriod : Bool := decide (c = 46)
        let isExponent : Bool := decide (c = 101)
        if cur1.pointer = ic.pointer then
          if !isDigit && !isPeriod then Outcome.ret none
          else lexNumberLoop source ic n { cur1 with pointer := cur1.pointer + 1 }
                 isPeriod exponentFound
        else if isPeriod then
          if periodFound then Outcome.ret none
          else lexNumberLoop source ic n { cur1 with pointer := cur1.pointer + 1 }
                 true exponentFound
        else if isExponent then
          if exponentFound then Outcome.ret none
          -- `uint(len(source)-1)`; here `len(source) > 0`
          else if cur1.pointer = source.length - 1 then Outcome.ret none
          else
            match source[cur1.pointer + 1]? with
            | none => Outcome.panic
            | some cNext =>
              let cur2 : cursor :=
                if cNext = 45 ∨ cNext = 43 then
                  { location := { cur1.location with column := cur1.location.column + 1 },
                    pointer := cur1.pointer + 1 }
                else cur1
              lexNumberLoop source ic n { cur2 with pointer := cur2.pointer + 1 } true true
        else if !isDigit then Outcome.ret (some cur1)
        else lexNumberLoop source ic n { cur1 with pointer := cur1.pointer + 1 }
               periodFound exponentFound
    else Outcome.ret (some cur)

/-- Go slice expression `s[lo:hi]`; `none` when it is out of range. -/
def slice (s : Bytes) (lo hi : Nat) : Option Bytes :=
  if lo ≤ hi ∧ hi ≤ s.length then some ((s.take hi).drop lo) else none

/-- Function `lexNumber` of `lexer.go`. -/
def lexNumber (source : Bytes) (ic : cursor) : Outcome LexResult :=
  match lexNumberLoop source ic (source.length + 1) ic false false with
  | Outcome.ret none => Outcome.ret (none, ic, false)
  | Outcome.ret (some cur) =>
    if cur.pointer = ic.pointer then Outcome.ret (none, ic, false)
    else
      match slice source ic.pointer cur.pointer with
      | none => Outcome.panic
      | some v =>
        Outcome.ret (some { value := v, kind := integerKind, location := ic.location }, cur, true)
  | Outcome.panic => Outcome.panic
  | Outcome.fuel => Outcome.fuel

/-- Loop of `lexCharacterDelimited`; the state is the cursor and the collected value. -/
def lexCharacterDelimitedLoop (source : Bytes) (ic : cursor) (delimiter : Nat) :
    Nat → cursor → Bytes → Outcome LexResult
  | 0, _, _ => Outcome.fuel
  | n + 1, cur, value =>
    if cur.pointer < source.length then
      match source[cur.pointer]? with
      | none => Outcome.panic
      | some c =>
        if c = delimiter then
          if cur.pointer + 1 ≥ source.length ∨ source[cur.pointer + 1]? ≠ some delimiter then
            Outcome.ret
              (some { value := value, kind := textKind, location := ic.location },
               { location := { cur.location with column := cur.location.column + 1 },
                 pointer := cur.pointer + 1 },
               true)
          else
            -- the escaped delimiter is appended, the cursor steps over it, and the
            -- statements after the `if` run as well
            let value1 := value ++ [delimiter]
            let cur1 : cursor :=
              { location := { cur.location with column := cur.location.column + 1 },
                pointer := cur.pointer + 1 }
            lexCharacterDelimitedLoop source ic delimiter n
              { location := { cur1.location with column := cur1.location.column + 1 },
                pointer := cur1.pointer + 1 }
              (value1 ++ [c])
        else
          lexCharacterDelimitedLoop source ic delimiter n
            { location := { cur.location with column := cur.location.column + 1 },
              pointer := cur.pointer + 1 }
            (value ++ [c])
    else Outcome.ret (none, ic, false)

/-- Function `lexCharacterDelimited` of `lexer.go`. -/
def lexCharacterDelimited (source : Bytes) (ic : cursor) (delimiter : Nat) :
    Outcome LexResult :=
  -- `source[cursor.pointer:]` panics when the pointer is past the end
  if ic.pointer > source.length then Outcome.panic
  else if source.length - ic.pointer = 0 then Outcome.ret (none, ic, false)
  else
    match source[ic.pointer]? with
    | none => Outcome.panic
    | some c =>
      if c ≠ delimiter then Outcome.ret (none, ic, false)
      else
        lexCharacterDelimitedLoop source ic delimiter (source.length + 1)
          { location := { ic.location with column := ic.location.column + 1 },
            pointer := ic.pointer + 1 }
          []

/-- Function `lexString` of `lexer.go`: the delimiter is the single quote. -/
def lexString (source : Bytes) (ic : cursor) : Outcome LexResult :=
  lexCharacterDelimited source ic 39

/-- Rune-wise `unicode.ToLower` on the code points below 256. -/
def toLowerRune (r : Nat) : Nat :=
  if 65 ≤ r ∧ r ≤ 90 then r + 32
  else if 0xC0 ≤ r ∧ r ≤ 0xDE ∧ r ≠ 0xD7 then r + 32
  else r

/-- The expression `strings.ToLower(string(b))` for one byte `b`: the byte is
converted to the one-rune string of that code point and lower-cased. -/
def toLowerByteString (b : Nat) : Bytes :=
  utf8EncodeRune (toLowerRune b)

/-- Inner loop of `longestMatch` over `options` from index `i` on; the state is the
skip list and the current match. -/
def longestMatchInner (value : Bytes) (n : Nat) :
    List Bytes → Nat → List Nat → Bytes → Outcome (List Nat × Bytes)
  | [], _, skipList, mtch => Outcome.ret (skipList, mtch)
  | option :: rest, i, skipList, mtch =>
    if i ∈ skipList then longestMatchInner value n rest (i + 1) skipList mtch
    else if option = value then
      longestMatchInner value n rest (i + 1) (skipList ++ [i])
        (if option.length > mtch.length then option else mtch)
    else
      match slice option 0 n with
      | none => Outcome.panic
      | some pre =>
        let sharesPre : Bool := decide (value = pre)
        let tooLong : Bool := decide (value.length > option.length)
        if tooLong || !sharesPre then
          longestMatchInner value n rest (i + 1) (skipList ++ [i]) mtch
        else longestMatchInner value n rest (i + 1) skipList mtch

/-- Outer loop of `longestMatch`. -/
def longestMatchLoop (source : Bytes) (ic : cursor) (options : List Bytes) :
    Nat → Nat → Bytes → List Nat → Bytes → Outcome Bytes
  | 0, _, _, _, _ => Outcome.fuel
  | n + 1, pointer, value, skipList, mtch =>
    if pointer < source.length then
      match source[pointer]? with
      | none => Outcome.panic
      | some b =>
        let value1 := value ++ toLowerByteString b
        let pointer1 := pointer + 1
        match longestMatchInner value1 (pointer1 - ic.pointer) options 0 skipList mtch with
        | Outcome.ret (skipList1, mtch1) =>
          if skipList1.length = options.length then Outcome.ret mtch1
          else longestMatchLoop source ic options n pointer1 value1 skipList1 mtch1
        | Outcome.panic => Outcome.panic
        | Outcome.fuel => Outcome.fuel
    else Outcome.ret mtch

/-- Function `longestMatch` of `lexer.go`. -/
def longestMatch (source : Bytes) (ic : cursor) (options : List Bytes) : Outcome Bytes :=
  longestMatchLoop source ic options (source.length + 1) ic.pointer [] [] []

/-- Function `lexSymbol` of `lexer.go`. -/
def lexSymbol (source : Bytes) (ic : cursor) : Outcome LexResult :=
  match source[ic.pointer]? with
  | none => Outcome.panic
  | some c =>
    let cur : cursor :=
      { location := { ic.location with column := ic.location.column + 1 },
        pointer := ic.pointer + 1 }
    if c = 10 then
      Outcome.ret (none, { cur with location := { line := cur.location.line + 1, column := 0 } },
        true)
    else if c = 9 ∨ c = 32 then Outcome.ret (none, cur, true)
    else
      match longestMatch source ic symbols with
      | Outcome.ret mtch =>
        if mtch = [] then Outcome.ret (none, ic, false)
        else
          Outcome.ret
            (some { value := mtch, kind := symbolKind, location := ic.location },
             { location := { cur.location with column := ic.location.column + mtch.length },
               pointer := ic.pointer + mtch.length },
             true)
      | Outcome.panic => Outcome.panic
      | Outcome.fuel => Outcome.fuel

/-- Function `lexKeyword` of `lexer.go`. -/
def lexKeyword (source : Bytes) (ic : cursor) : Outcome LexResult :=
  match longestMatch source ic keywords with
  | Outcome.ret mtch =>
    if mtch = [] then Outcome.ret (none, ic, false)
    else
      Outcome.ret
        (some { value := mtch, kind := keywordKind, location := ic.location },
         { location := { ic.location with column := ic.location.column + mtch.length },
           pointer := ic.pointer + mtch.length },
         true)
  | Outcome.panic => Outcome.panic
  | Outcome.fuel => Outcome.fuel

/-- Predicate `isAlpha` of `lexIdentifier`. -/
def isAlpha (c : Nat) : Bool :=
  (decide (65 ≤ c) && decide (c ≤ 90)) || (decide (97 ≤ c) && decide (c ≤ 122))

/-- Continuation loop of `lexIdentifier`. -/
def lexIdentifierLoop (source : Bytes) : Nat → cursor → Bytes → Outcome (cursor × Bytes)
  | 0, _, _ => Outcome.fuel
  | n + 1, cur, value =>
    if cur.pointer < source.length then
      match source[cur.pointer]? with
      | none => Outcome.panic
      | some c =>
        let isNumber : Bool := decide (48 ≤ c) && decide (c ≤ 57)
        if isAlpha c || isNumber || decide (c = 95) || decide (c = 36) then
          lexIdentifierLoop source n
            { location := { cur.location with column := cur.location.column + 1 },
              pointer := cur.pointer + 1 }
            (value ++ [c])
        else Outcome.ret (cur, value)
    else Outcome.ret (cur, value)

/-- Function `strings.ToLower` on a byte string all of whose bytes are ASCII. -/
def asciiToLower (s : Bytes) : Bytes :=
  s.map (fun b => if 65 ≤ b ∧ b ≤ 90 then b + 32 else b)

/-- Function `lexIdentifier` of `lexer.go`. -/
def lexIdentifier (source : Bytes) (ic : cursor) : Outcome LexResult :=
  match lexCharacterDelimited source ic 34 with
  | Outcome.panic => Outcome.panic
  | Outcome.fuel => Outcome.fuel
  | Outcome.ret (some token, newCursor, true) =>
    Outcome.ret (some { token with kind := identifierKind }, newCursor, true)
  | Outcome.ret (none, _, true) => Outcome.panic
  | Outcome.ret (_, _, false) =>
    match source[ic.pointer]? with
    | none => Outcome.panic
    | some c =>
      if !isAlpha c then Outcome.ret (none, ic, false)
      else
        match lexIdentifierLoop source (source.length + 1)
            { location := { ic.location with column := ic.location.column + 1 },
              pointer := ic.pointer + 1 }
            [c] with
        | Outcome.ret (cur, value) =>
          Outcome.ret
            (some { value := asciiToLower value, kind := identifierKind,
                    location := ic.location },
             cur, true)
        | Outcome.panic => Outcome.panic
        | Outcome.fuel => Outcome.fuel

/-- Errors returned by `lex` and `Parse`. -/
inductive ParseError where
  /-- `fmt.Errorf("unable to lex tokens%s, at %d:%d", hint, line, column)`, the hint
  being `some v` for `" after " + v` and `none` for the empty string. -/
  | unableToLex (hint : Option Bytes) (line column : Nat)
  /-- `errors.New("Failed to parse, expected statement")` -/
  | expectedStatement
  /-- `errors.New("Missing semicolon between statements")` -/
  | missingSemicolon
deriving DecidableEq, Repr

/-- The list `lexers` of `lex`, in order. -/
def lexers : List (Bytes → cursor → Outcome LexResult) :=
  [lexKeyword, lexSymbol, lexString, lexNumber, lexIdentifier]

/-- The loop `for _, l := range lexers` of `lex`: the first lexer that matches. The
result is `none` when no lexer matches. -/
def lexFirst (source : Bytes) (cur : cursor) :
    List (Bytes → cursor → Outcome LexResult) → Outcome (Option (Option Token × cursor))
  | [] => Outcome.ret none
  | l :: rest =>
    match l source cur with
    | Outcome.ret (t, newCursor, true) => Outcome.ret (some (t, newCursor))
    | Outcome.ret (_, _, false) => lexFirst source cur rest
    | Outcome.panic => Outcome.panic
    | Outcome.fuel => Outcome.fuel

/-- The labelled loop `lex:` of `lex`. -/
def lexLoop (source : Bytes) :
    Nat → cursor → List Token → Outcome (Except ParseError (List Token))
  | 0, _, _ => Outcome.fuel
  | n + 1, cur, tokens =>
    if cur.pointer < source.length then
      match lexFirst source cur lexers with
      | Outcome.ret (some (some t, newCursor)) => lexLoop source n newCursor (tokens ++ [t])
      | Outcome.ret (some (none, newCursor)) => lexLoop source n newCursor tokens
      | Outcome.ret none =>
        Outcome.ret (Except.error
          (ParseError.unableToLex (tokens.getLast?.map (fun t => t.value))
            cur.location.line cur.location.column))
      | Outcome.panic => Outcome.panic
      | Outcome.fuel => Outcome.fuel
    else Outcome.ret (Except.ok tokens)

/-- Function `lex` of `lexer.go`. -/
def lex (source : Bytes) : Outcome (Except ParseError (List Token)) :=
  lexLoop source (source.length + 1) { location := { line := 0, column := 0 }, pointer := 0 } []

/-! ## Syntax tree (`ast.go`) -/

/-- The constants of `AstKind`. -/
inductive AstKind where
  | SelectKind
  | CreateTableKind
  | InsertKind
deriving DecidableEq, Repr

/-- Type `ExpressionKind` is a `uint` with the single constant `LiteralKind`; the
engine tests `Kind != LiteralKind`, so the other values are kept. -/
abbrev ExpressionKind := Nat

/-- Constant `LiteralKind`. -/
abbrev LiteralKind : ExpressionKind := 0

/-- Struct `Expression`. -/
structure Expression where
  Literal : Token
  Kind : ExpressionKind
deriving DecidableEq, Repr

/-- Struct `InsertStatement`; `Values` is a pointer to a slice. -/
structure InsertStatement where
  Table : Token
  Values : Option (List Expression)
deriving DecidableEq, Repr

/-- Struct `ColumnDefinition`. -/
structure ColumnDefinition where
  Name : Token
  Datatype : Token
deriving DecidableEq, Repr

/-- Struct `CreateTableStatement`; `Columns` is a pointer to a slice. -/
structure CreateTableStatement where
  Name : Token
  Columns : Option (List ColumnDefinition)
deriving DecidableEq, Repr

/-- Struct `SelectStatement`. -/
structure SelectStatement where
  Item : List Expression
  From : Token
deriving DecidableEq, Repr

/-- Struct `Statement`: three pointers, one of them set, and the kind. -/
structure Statement where
  SelectStatement : Option SelectStatement
  CreateTableStatement : Option CreateTableStatement
  InsertStatement : Option InsertStatement
  Kind : AstKind
deriving DecidableEq, Repr

/-- Struct `Ast`. -/
structure Ast where
  Statements : List Statement
deriving DecidableEq, Repr

/-! ## Parser (`parser.go`) -/

/-- The zero value of `Token`. -/
def zeroToken : Token :=
  { value := [], kind := keywordKind, location := { line := 0, column := 0 } }

/-- Function `tokenFromKeyword`. -/
def tokenFromKeyword (k : Bytes) : Token :=
  { zeroToken with value := k, kind := keywordKind }

/-- Function `tokenFromSymbol`. -/
def tokenFromSymbol (s : Bytes) : Token :=
  { zeroToken with value := s, kind := symbolKind }

/-- Function `expectToken`. -/
def expectToken (tokens : List Token) (cur : Nat) (t : Token) : Bool :=
  if cur ≥ tokens.length then false
  else
    match tokens[cur]? with
    | some p => t.equals p
    | none => false -- not reached: `cur < len(tokens)`

/-- Function `helpMessage`: it only prints, but its token lookup can panic. The
index `cursor-1` is computed in `uint`. -/
def helpMessage (tokens : List Token) (cur : Nat) (_msg : String) : Outcome Unit :=
  if cur < tokens.length then
    match tokens[cur]? with
    | some _ => Outcome.ret ()
    | none => Outcome.panic
  else
    match tokens[(cur + 2 ^ 64 - 1) % 2 ^ 64]? with
    | some _ => Outcome.ret ()
    | none => Outcome.panic

/-- Function `parseToken`. -/
def parseToken (tokens : List Token) (ic : Nat) (kind : TokenKind) : Option Token × Nat × Bool :=
  if ic ≥ tokens.length then (none, ic, false)
  else
    match tokens[ic]? with
    | some cur => if cur.kind = kind then (some cur, ic + 1, true) else (none, ic, false)
    | none => (none, ic, false) -- not reached: `ic < len(tokens)`

/-- Function `parseTokenAnother`. -/
def parseTokenAnother (tokens : List Token) (initialCursor : Nat) (t : Token) :
    Option Token × Nat × Bool :=
  if initialCursor ≥ tokens.length then (none, initialCursor, false)
  else
    match tokens[initialCursor]? with
    | some p =>
      if t.equals p then (some p, initialCursor + 1, true) else (none, initialCursor, false)
    | none => (none, initialCursor, false) -- not reached

/-- The loop over `kinds` in `parseExpression`. -/
def parseExpressionKinds (tokens : List Token) (ic : Nat) :
    List TokenKind → Option Expression × Nat × Bool
  | [] => (none, ic, false)
  | kind :: rest =>
    match parseToken tokens ic kind with
    | (some t, newCursor, true) => (some { Literal := t, Kind := LiteralKind }, newCursor, true)
    | _ => parseExpressionKinds tokens ic rest

/-- Function `parseExpression`. -/
def parseExpression (tokens : List Token) (ic : Nat) (_t : Token) :
    Option Expression × Nat × Bool :=
  parseExpressionKinds tokens ic [identifierKind, textKind, integerKind]

/-- The loop `outer:` of `parseExpressions`. -/
def parseExpressionsLoop (tokens : List Token) (ic : Nat) (delimiters : List Token) :
    Nat → Nat → List Expression → Outcome (Option (List Expression) × Nat × Bool)
  | 0, _, _ => Outcome.fuel
  | n + 1, cur, exps =>
    if cur ≥ tokens.length then Outcome.ret (none, ic, false)
    else
      match tokens[cur]? with
      | none => Outcome.panic
      | some c =>
        if delimiters.any (fun d => d.equals c) then Outcome.ret (some exps, cur, true)
        else if exps.length > 0 ∧ expectToken tokens cur (tokenFromSymbol (str ",")) = false then
          (helpMessage tokens cur "Expected comma").bind
            (fun _ => Outcome.ret (none, ic, false))
        else
          let cur1 := if exps.length > 0 then cur + 1 else cur
          match parseExpression tokens cur1 (tokenFromSymbol (str ",")) with
          | (some exp, newCursor, true) =>
            parseExpressionsLoop tokens ic delimiters n newCursor (exps ++ [exp])
          | _ =>
            (helpMessage tokens cur1 "Expected expression").bind
              (fun _ => Outcome.ret (none, ic, false))

/-- Function `parseExpressions`. -/
def parseExpressions (tokens : List Token) (ic : Nat) (delimiters : List Token) :
    Outcome (Option (List Expression) × Nat × Bool) :=
  parseExpressionsLoop tokens ic delimiters (tokens.length + 1) ic []

/-- Function `parseSelectStatement`. -/
def parseSelectStatement (tokens : List Token) (ic : Nat) (delimiter : Token) :
    Outcome (Option SelectStatement × Nat × Bool) :=
  if expectToken tokens ic (tokenFromKeyword (str "select")) = false then
    Outcome.ret (none, ic, false)
  else
    match parseExpressions tokens (ic + 1) [tokenFromKeyword (str "from"), delimiter] with
    | Outcome.panic => Outcome.panic
    | Outcome.fuel => Outcome.fuel
    | Outcome.ret (some exps, newCursor, true) =>
      if expectToken tokens newCursor (tokenFromKeyword (str "from")) then
        match parseToken tokens (newCursor + 1) identifierKind with
        | (some fr, newCurs, true) =>
          Outcome.ret (some { Item := exps, From := fr }, newCurs, true)
        | _ =>
          (helpMessage tokens (newCursor + 1) "Expected FROM token").bind
            (fun _ => Outcome.ret (none, ic, false))
      else Outcome.ret (some { Item := exps, From := zeroToken }, newCursor, true)
    | Outcome.ret _ => Outcome.ret (none, ic, false)

/-- Function `parseInsertStatement`. -/
def parseInsertStatement (tokens : List Token) (ic : Nat) (_delimiter : Token) :
    Outcome (Option InsertStatement × Nat × Bool) :=
  if expectToken tokens ic (tokenFromKeyword (str "insert")) = false then
    Outcome.ret (none, ic, false)
  else if expectToken tokens (ic + 1) (tokenFromKeyword (str "into")) = false then
    (helpMessage tokens (ic + 1) "Expected keyword INTO").bind
      (fun _ => Outcome.ret (none, ic, false))
  else
    match parseToken tokens (ic + 2) identifierKind with
    | (some table, cur, true) =>
      if expectToken tokens cur (tokenFromKeyword (str "values")) = false then
        (helpMessage tokens cur "Expected keyword VALUES").bind
          (fun _ => Outcome.ret (none, ic, false))
      else if expectToken tokens (cur + 1) (tokenFromSymbol (str "(")) = false then
        (helpMessage tokens (cur + 1) "Expected (").bind
          (fun _ => Outcome.ret (none, ic, false))
      else
        match parseExpressions tokens (cur + 2) [tokenFromSymbol (str ")")] with
        | Outcome.panic => Outcome.panic
        | Outcome.fuel => Outcome.fuel
        | Outcome.ret (some values, newCursor, true) =>
          if expectToken tokens newCursor (tokenFromSymbol (str ")")) = false then
            (helpMessage tokens newCursor "Expected )").bind
              (fun _ => Outcome.ret (none, ic, false))
          else
            Outcome.ret (some { Table := table, Values := some values }, newCursor + 1, true)
        | Outcome.ret _ => Outcome.ret (none, ic, false)
    | _ =>
      (helpMessage tokens (ic + 2) "Expected table name").bind
        (fun _ => Outcome.ret (none, ic, false))

/-- The loop of `parseColumnDefinitions`. -/
def parseColumnDefinitionsLoop (tokens : List Token) (ic : Nat) (delimiter : Token) :
    Nat → Nat → List ColumnDefinition →
      Outcome (Option (List ColumnDefinition) × Nat × Bool)
  | 0, _, _ => Outcome.fuel
  | n + 1, cur, cds =>
    if cur ≥ tokens.length then Outcome.ret (none, ic, false)
    else
      match tokens[cur]? with
      | none => Outcome.panic
      | some c =>
        if delimiter.equals c then Outcome.ret (some cds, cur, true)
        else
          -- `_, cursor, ok = parseTokenAnother(...)` inside `if len(cds) > 0`
          let comma : Option Token × Nat × Bool :=
            if cds.length > 0 then parseTokenAnother tokens cur (tokenFromSymbol (str ","))
            else (none, cur, true)
          if comma.2.2 = false then
            (helpMessage tokens comma.2.1 "Expected comma").bind
              (fun _ => Outcome.ret (none, ic, false))
          else
            match parseToken tokens comma.2.1 identifierKind with
            | (some id, cur2, true) =>
              match parseToken tokens cur2 keywordKind with
              | (some t, cur3, true) =>
                parseColumnDefinitionsLoop tokens ic delimiter n cur3
                  (cds ++ [{ Name := id, Datatype := t }])
              | _ =>
                (helpMessage tokens cur2 "Expected column type").bind
                  (fun _ => Outcome.ret (none, ic, false))
            | _ =>
              (helpMessage tokens comma.2.1 "Expected column name").bind
                (fun _ => Outcome.ret (none, ic, false))

/-- Function `parseColumnDefinitions`. The result is `&cds`: a non-nil pointer also
when `cds` has no entry. -/
def parseColumnDefinitions (tokens : List Token) (ic : Nat) (delimiter : Token) :
    Outcome (Option (List ColumnDefinition) × Nat × Bool) :=
  parseColumnDefinitionsLoop tokens ic delimiter (tokens.length + 1) ic []

/-- Function `parseCreateTableStatement`. -/
def parseCreateTableStatement (tokens : List Token) (ic : Nat) (_t : Token) :
    Outcome (Option CreateTableStatement × Nat × Bool) :=
  match parseTokenAnother tokens ic (tokenFromKeyword (str "create")) with
  | (_, _, false) => Outcome.ret (none, ic, false)
  | (_, cur1, true) =>
    match parseTokenAnother tokens cur1 (tokenFromKeyword (str "table")) with
    | (_, _, false) => Outcome.ret (none, ic, false)
    | (_, cur2, true) =>
      match parseToken tokens cur2 identifierKind with
      | (some table, cur3, true) =>
        match parseTokenAnother tokens cur3 (tokenFromSymbol (str "(")) with
        | (_, cur4, false) =>
          (helpMessage tokens cur4 "Expected (").bind
            (fun _ => Outcome.ret (none, ic, false))
        | (_, cur4, true) =>
          match parseColumnDefinitions tokens cur4 (tokenFromSymbol (str ")")) with
          | Outcome.panic => Outcome.panic
          | Outcome.fuel => Outcome.fuel
          | Outcome.ret (some cols, cur5, true) =>
            match parseTokenAnother tokens cur5 (tokenFromSymbol (str ")")) with
            | (_, cur6, false) =>
              (helpMessage tokens cur6 "Expected )").bind
                (fun _ => Outcome.ret (none, ic, false))
            | (_, cur6, true) =>
              Outcome.ret (some { Name := table, Columns := some cols }, cur6, true)
          | Outcome.ret _ => Outcome.ret (none, ic, false)
      | _ =>
        (helpMessage tokens cur2 "Expected table name").bind
          (fun _ => Outcome.ret (none, ic, false))

/-- Function `parseStatement`: SELECT, then INSERT, then CREATE. -/
def parseStatement (tokens : List Token) (ic : Nat) (_t : Token) :
    Outcome (Option Statement × Nat × Bool) :=
  let semicolonToken := tokenFromSymbol (str ";")
  match parseSelectStatement tokens ic semicolonToken with
  | Outcome.panic => Outcome.panic
  | Outcome.fuel => Outcome.fuel
  | Outcome.ret (some slct, newCursor, true) =>
    Outcome.ret
      (some { SelectStatement := some slct, CreateTableStatement := none,
              InsertStatement := none, Kind := AstKind.SelectKind },
       newCursor, true)
  | Outcome.ret _ =>
    match parseInsertStatement tokens ic semicolonToken with
    | Outcome.panic => Outcome.panic
    | Outcome.fuel => Outcome.fuel
    | Outcome.ret (some inst, newCursor, true) =>
      Outcome.ret
        (some { SelectStatement := none, CreateTableStatement := none,
                InsertStatement := some inst, Kind := AstKind.InsertKind },
         newCursor, true)
    | Outcome.ret _ =>
      match parseCreateTableStatement tokens ic semicolonToken with
      | Outcome.panic => Outcome.panic
      | Outcome.fuel => Outcome.fuel
      | Outcome.ret (some ctstmt, newCursor, true) =>
        Outcome.ret
          (some { SelectStatement := none, CreateTableStatement := some ctstmt,
                  InsertStatement := none, Kind := AstKind.CreateTableKind },
           newCursor, true)
      | Outcome.ret _ => Outcome.ret (none, ic, false)

/-- The inner loop of `Parse` that consumes `;` tokens; the result is the cursor
after them and `atLeastOneSemicolon`. -/
def parseSemicolons (tokens : List Token) : Nat → Nat → Bool → Outcome (Nat × Bool)
  | 0, _, _ => Outcome.fuel
  | n + 1, cur, atLeastOneSemicolon =>
    match parseTokenAnother tokens cur (tokenFromSymbol (str ";")) with
    | (_, cur1, true) => parseSemicolons tokens n cur1 true
    | (_, cur1, false) => Outcome.ret (cur1, atLeastOneSemicolon)

/-- The statement loop of `Parse`. -/
def parseLoop (tokens : List Token) :
    Nat → Nat → List Statement → Outcome (Except ParseError Ast)
  | 0, _, _ => Outcome.fuel
  | n + 1, cur, stmts =>
    if cur < tokens.length then
      match parseStatement tokens cur (tokenFromSymbol (str ";")) with
      | Outcome.panic => Outcome.panic
      | Outcome.fuel => Outcome.fuel
      | Outcome.ret (some stmt, newCursor, true) =>
        match parseSemicolons tokens (tokens.length + 1) newCursor false with
        | Outcome.panic => Outcome.panic
        | Outcome.fuel => Outcome.fuel
        | Outcome.ret (cur1, true) => parseLoop tokens n cur1 (stmts ++ [stmt])
        | Outcome.ret (cur1, false) =>
          (helpMessage tokens cur1 "Expected semicolon between statements").bind
            (fun _ => Outcome.ret (Except.error ParseError.missingSemicolon))
      | Outcome.ret _ =>
        (helpMessage tokens cur "Expected statement").bind
          (fun _ => Outcome.ret (Except.error ParseError.expectedStatement))
    else Outcome.ret (Except.ok { Statements := stmts })

/-- Function `Parse`. -/
def Parse (source : Bytes) : Outcome (Except ParseError Ast) :=
  match lex source with
  | Outcome.panic => Outcome.panic
  | Outcome.fuel => Outcome.fuel
  | Outcome.ret (Except.error err) => Outcome.ret (Except.error err)
  | Outcome.ret (Except.ok tokens) =>
    let semicolonToken := tokenFromSymbol (str ";")
    let tokens1 :=
      match tokens.getLast? with
      | some last => if last.equals semicolonToken then tokens else tokens ++ [semicolonToken]
      | none => tokens
    parseLoop tokens1 (tokens1.length + 1) 0 []

/-! ## Table engine (`backend.go`, `mem.go`) -/

/-- The constants of `ColumnType` in `backend.go`. -/
inductive ColumnType where
  | TextType
  | IntType
deriving DecidableEq, Repr

/-- The error values of `backend.go`. -/
inductive EngineError where
  | ErrTableDoesNotExists
  | ErrColumnDoesNotExists
  | ErrInvalidSelectItem
  | ErrInvalidDatatype
  | ErrMissingValues
deriving DecidableEq, Repr

open ColumnType EngineError

deriving instance DecidableEq for Except

/-- Type `MemoryCell` is `[]byte`; the nil cell is the empty list. -/
abbrev MemoryCell := Bytes

/-- One entry of `Results.Columns` (the field `Type` is written `Typ`). -/
structure ResultColumn where
  Typ : ColumnType
  Name : Bytes
deriving DecidableEq, Repr

/-- Struct `Results` of `backend.go`. -/
structure Results where
  Columns : List ResultColumn
  Rows : List (List MemoryCell)
deriving DecidableEq, Repr

/-- Struct `Table` of `mem.go`. -/
structure Table where
  columns : List Bytes
  columnTypes : List ColumnType
  rows : List (List MemoryCell)
deriving DecidableEq, Repr

/-- Struct `MemoryBackend`: the Go map `tables` is an association list read at
the first entry of a key. -/
structure MemoryBackend where
  tables : List (Bytes × Table)
deriving DecidableEq, Repr

/-- Map read `mb.tables[name]`, with the `ok` flag as `Option`. -/
def MemoryBackend.get (mb : MemoryBackend) (name : Bytes) : Option Table :=
  (mb.tables.find? (fun e => e.1 = name)).map (fun e => e.2)

/-- Association-list update: replaces the first entry of the key, or adds one. -/
def setEntry (name : Bytes) (t : Table) : List (Bytes × Table) → List (Bytes × Table)
  | [] => [(name, t)]
  | e :: rest => if e.1 = name then (name, t) :: rest else e :: setEntry name t rest

/-- Map write `mb.tables[name] = t`. -/
def MemoryBackend.set (mb : MemoryBackend) (name : Bytes) (t : Table) : MemoryBackend :=
  { tables := setEntry name t mb.tables }

/-- Function `NewMemoryBackend`. -/
def NewMemoryBackend : MemoryBackend := { tables := [] }

/-- The conversion `int32(i)`: the low 32 bits, read as a signed number. -/
def toInt32 (i : Int) : Int :=
  (i + 2 ^ 31) % 2 ^ 32 - 2 ^ 31

/-- The four bytes `binary.Write(buf, binary.BigEndian, v)` writes for an `int32`. -/
def bigEndianInt32 (v : Int) : Bytes :=
  let u := (v % 2 ^ 32).toNat
  [u / 2 ^ 24, (u / 2 ^ 16) % 256, (u / 2 ^ 8) % 256, u % 256]

/-- Method `MemoryCell.AsInt32`: `binary.Read` of an `int32` takes the first four
bytes and fails, hence the method panics, when there are fewer. -/
def AsInt32 (mc : MemoryCell) : Outcome Int :=
  match mc with
  | b0 :: b1 :: b2 :: b3 :: _ =>
    Outcome.ret (toInt32 (Int.ofNat (b0 * 2 ^ 24 + b1 * 2 ^ 16 + b2 * 2 ^ 8 + b3)))
  | _ => Outcome.panic

/-- Method `MemoryCell.AsText`. -/
def AsText (mc : MemoryCell) : Bytes := mc

/-- Value of a string of decimal digits read left to right from accumulator `acc`;
`none` when a byte is not a digit. -/
def digitsValue : Bytes → Nat → Option Nat
  | [], acc => some acc
  | c :: rest, acc => if 48 ≤ c ∧ c ≤ 57 then digitsValue rest (acc * 10 + (c - 48)) else none

/-- Library function `strconv.Atoi` with a 64-bit `int`: an optional sign, then one
or more decimal digits; `none` stands for a returned error (syntax or range). -/
def Atoi (s : Bytes) : Option Int :=
  let neg : Bool := decide (s.head? = some 45)
  let ds : Bytes := if s.head? = some 45 ∨ s.head? = some 43 then s.tail else s
  if ds = [] then none
  else
    match digitsValue ds 0 with
    | none => none
    | some n =>
      if neg then (if n ≤ 2 ^ 63 then some (-(Int.ofNat n)) else none)
      else (if n < 2 ^ 63 then some (Int.ofNat n) else none)

/-- Method `tokenToCell` of `mem.go`. -/
def tokenToCell (token : Token) : Outcome MemoryCell :=
  if token.kind = integerKind then
    match Atoi token.value with
    | none => Outcome.panic
    | some i => Outcome.ret (bigEndianInt32 (toInt32 i))
  else if token.kind = textKind then Outcome.ret token.value
  else Outcome.ret []

/-- The loop over the column definitions in `CreateTable`; the table is the local
`t`, which the store already points to. -/
def createTableLoop : List ColumnDefinition → Table → Table × Option EngineError
  | [], t => (t, none)
  | cols :: rest, t =>
    let t1 : Table := { t with columns := t.columns ++ [cols.Name.value] }
    if cols.Datatype.value = str "int" then
      createTableLoop rest { t1 with columnTypes := t1.columnTypes ++ [IntType] }
    else if cols.Datatype.value = str "text" then
      createTableLoop rest { t1 with columnTypes := t1.columnTypes ++ [TextType] }
    else (t1, some ErrInvalidDatatype)

/-- Method `CreateTable` of `mem.go`. The store entry is the address of the local
table, so the entry holds whatever the local table is when the method returns. -/
def CreateTable (mb : MemoryBackend) (cts : CreateTableStatement) :
    MemoryBackend × Option EngineError :=
  let t : Table := { columns := [], columnTypes := [], rows := [] }
  match cts.Columns with
  | none => (mb.set cts.Name.value t, some ErrMissingValues)
  | some columns =>
    let r := createTableLoop columns t
    (mb.set cts.Name.value r.1, r.2)

/-- The loop over the values in `Insert`. -/
def insertLoop : List Expression → List MemoryCell → Outcome (List MemoryCell)
  | [], row => Outcome.ret row
  | value :: rest, row =>
    if value.Kind ≠ LiteralKind then insertLoop rest row
    else
      match tokenToCell value.Literal with
      | Outcome.ret cell => insertLoop rest (row ++ [cell])
      | Outcome.panic => Outcome.panic
      | Outcome.fuel => Outcome.fuel

/-- Method `Insert` of `mem.go`. -/
def Insert (mb : MemoryBackend) (ins : InsertStatement) :
    Outcome (MemoryBackend × Option EngineError) :=
  match mb.get ins.Table.value with
  | none => Outcome.ret (mb, some ErrTableDoesNotExists)
  | some table =>
    match ins.Values with
    | none => Outcome.ret (mb, none)
    | some values =>
      if values.length ≠ table.columns.length then Outcome.ret (mb, some ErrMissingValues)
      else
        match insertLoop values [] with
        | Outcome.ret row =>
          Outcome.ret (mb.set ins.Table.value { table with rows := table.rows ++ [row] }, none)
        | Outcome.panic => Outcome.panic
        | Outcome.fuel => Outcome.fuel

/-- The loop `for i, tableCol := range table.columns` of `Select`: the first index
whose column name is `name`, counted from `i`. -/
def findColumn (name : Bytes) : List Bytes → Nat → Option Nat
  | [], _ => none
  | tableCol :: rest, i => if tableCol = name then some i else findColumn name rest (i + 1)

/-- The loop over the select items for one row in `Select`; the state is the
column list `cols` and the output row `result`. -/
def selectItems (table : Table) (row : List MemoryCell) (isFirstRow : Bool) :
    List Expression → List ResultColumn → List MemoryCell →
      Outcome (Except EngineError (List ResultColumn × List MemoryCell))
  | [], cols, result => Outcome.ret (Except.ok (cols, result))
  | exp :: rest, cols, result =>
    if exp.Kind ≠ LiteralKind then selectItems table row isFirstRow rest cols result
    else if exp.Literal.kind = identifierKind then
      match findColumn exp.Literal.value table.columns 0 with
      | none => Outcome.ret (Except.error ErrColumnDoesNotExists)
      | some i =>
        -- `table.columnTypes[i]` is read on the first row only; `none` is the
        -- index-out-of-range panic
        let cols1 : Option (List ResultColumn) :=
          if isFirstRow then
            (table.columnTypes[i]?).map
              (fun ty => cols ++ [{ Typ := ty, Name := exp.Literal.value }])
          else some cols
        match cols1 with
        | none => Outcome.panic
        | some cs =>
          match row[i]? with
          | none => Outcome.panic
          | some cell => selectItems table row isFirstRow rest cs (result ++ [cell])
    else Outcome.ret (Except.error ErrColumnDoesNotExists)

/-- The loop `for i, row := range table.rows` of `Select`. -/
def selectRows (table : Table) (items : List Expression) :
    List (List MemoryCell) → Nat → List ResultColumn → List (List MemoryCell) →
      Outcome (Except EngineError Results)
  | [], _, cols, results => Outcome.ret (Except.ok { Columns := cols, Rows := results })
  | row :: rest, i, cols, results =>
    match selectItems table row (decide (i = 0)) items cols [] with
    | Outcome.ret (Except.ok (cols1, result)) =>
      selectRows table items rest (i + 1) cols1 (results ++ [result])
    | Outcome.ret (Except.error e) => Outcome.ret (Except.error e)
    | Outcome.panic => Outcome.panic
    | Outcome.fuel => Outcome.fuel

/-- Method `Select` of `mem.go`; an error is returned with a nil result. -/
def Select (mb : MemoryBackend) (ss : SelectStatement) : Outcome (Except EngineError Results) :=
  match mb.get ss.From.value with
  | none => Outcome.ret (Except.error ErrTableDoesNotExists)
  | some table => selectRows table ss.Item table.rows 0 [] []

/-! ## Vocabulary of the specification -/

/-- The column type a datatype keyword declares: `int` is `IntType`, `text` is
`TextType`, anything else declares none. -/
def columnTypeOf (datatype : Bytes) : Option ColumnType :=
  if datatype = str "int" then some IntType
  else if datatype = str "text" then some TextType
  else none

/-- Stores reachable from the empty store by `CreateTable` and `Insert` calls whose
insert statements satisfy `okInsert`. A call may fail: the store it leaves is
reachable all the same. -/
inductive Reach (okInsert : InsertStatement → Prop) : MemoryBackend → Prop where
  | empty : Reach okInsert NewMemoryBackend
  | create (mb : MemoryBackend) (cts : CreateTableStatement) :
      Reach okInsert mb → Reach okInsert (CreateTable mb cts).1
  | insert (mb mb1 : MemoryBackend) (ins : InsertStatement) (err : Option EngineError) :
      Reach okInsert mb → okInsert ins → Insert mb ins = Outcome.ret (mb1, err) →
      Reach okInsert mb1

/-- Every value of the insert statement is a literal-kind expression. -/
def literalValues (ins : InsertStatement) : Prop :=
  ∀ values, ins.Values = some values → ∀ v ∈ values, v.Kind = LiteralKind

/-- No condition on the insert statement. -/
def anyInsert (_ins : InsertStatement) : Prop := True

/-- The result-schema entry of select item `e`: the declared type of the first
column named by the item, with the item's name; `none` when there is none. -/
def selectedColumn (table : Table) (e : Expression) : Option ResultColumn :=
  (findColumn e.Literal.value table.columns 0).bind
    (fun i => table.columnTypes[i]?.map (fun ty => { Typ := ty, Name := e.Literal.value }))

/-- The cell of `row` at the first column named by select item `e`. -/
def selectedCell (table : Table) (row : List MemoryCell) (e : Expression) : Option MemoryCell :=
  (findColumn e.Literal.value table.columns 0).bind (fun i => row[i]?)

/-- Histories of one table: `InsertTrace name mb0 mb log` says that the store `mb` is
reached from `mb0` by `Insert` calls and by `CreateTable` calls on other names, and
that `log` lists, in order, the value lists of the successful inserts into the
table `name`, each a present list of literal-kind expressions. -/
inductive InsertTrace (name : Bytes) (mb0 : MemoryBackend) :
    MemoryBackend → List (List Expression) → Prop where
  | start : InsertTrace name mb0 mb0 []
  | insert (mb mb1 : MemoryBackend) (log : List (List Expression)) (ins : InsertStatement)
      (values : List Expression) :
      InsertTrace name mb0 mb log → ins.Table.value = name → ins.Values = some values →
      (∀ v ∈ values, v.Kind = LiteralKind) → Insert mb ins = Outcome.ret (mb1, none) →
      InsertTrace name mb0 mb1 (log ++ [values])
  | insertFailed (mb mb1 : MemoryBackend) (log : List (List Expression))
      (ins : InsertStatement) (err : EngineError) :
      InsertTrace name mb0 mb log → Insert mb ins = Outcome.ret (mb1, some err) →
      InsertTrace name mb0 mb1 log
  | insertOther (mb mb1 : MemoryBackend) (log : List (List Expression))
      (ins : InsertStatement) (err : Option EngineError) :
      InsertTrace name mb0 mb log → ins.Table.value ≠ name →
      Insert mb ins = Outcome.ret (mb1, err) → InsertTrace name mb0 mb1 log
  | createOther (mb : MemoryBackend) (log : List (List Expression))
      (cts : CreateTableStatement) :
      InsertTrace name mb0 mb log → cts.Name.value ≠ name →
      InsertTrace name mb0 (CreateTable mb cts).1 log

/-! ## Sample statements and stores -/

/-- A token on line 0. -/
def tk (v : String) (k : TokenKind) (column : Nat) : Token :=
  { value := str v, kind := k, location := { line := 0, column := column } }

/-- A literal-kind expression. -/
def lit (t : Token) : Expression := { Literal := t, Kind := LiteralKind }

/-- A statement that is a `CreateTableStatement`. -/
def createStatement (cts : CreateTableStatement) : Statement :=
  { SelectStatement := none, CreateTableStatement := some cts, InsertStatement := none,
    Kind := AstKind.CreateTableKind }

/-- A statement that is an `InsertStatement`. -/
def insertStatement (ins : InsertStatement) : Statement :=
  { SelectStatement := none, CreateTableStatement := none, InsertStatement := some ins,
    Kind := AstKind.InsertKind }

/-- A statement that is a `SelectStatement`. -/
def selectStatement (ss : SelectStatement) : Statement :=
  { SelectStatement := some ss, CreateTableStatement := none, InsertStatement := none,
    Kind := AstKind.SelectKind }

/-- The statement of `CREATE TABLE users (id INT, name TEXT);`. -/
def usersCreate : CreateTableStatement :=
  { Name := tk "users" identifierKind 13,
    Columns := some [{ Name := tk "id" identifierKind 20, Datatype := tk "int" keywordKind 23 },
                     { Name := tk "name" identifierKind 28, Datatype := tk "text" keywordKind 33 }] }

/-- The statement of `INSERT INTO users VALUES (1, 'Alice');`. -/
def usersInsert : InsertStatement :=
  { Table := tk "users" identifierKind 12,
    Values := some [lit (tk "1" integerKind 26), lit (tk "Alice" textKind 30)] }

/-- The statement of `SELECT name, id FROM users;`. -/
def usersSelect : SelectStatement :=
  { Item := [lit (tk "name" identifierKind 7), lit (tk "id" identifierKind 13)],
    From := tk "users" identifierKind 21 }

/-- The table `users` with no row. -/
def usersEmptyTable : Table :=
  { columns := [str "id", str "name"], columnTypes := [IntType, TextType], rows := [] }

/-- The table `users` after the insert. -/
def usersTable : Table :=
  { usersEmptyTable with rows := [[[0, 0, 0, 1], str "Alice"]] }

/-- The store after `usersCreate` and `usersInsert`. -/
def usersStore : MemoryBackend := { tables := [(str "users", usersTable)] }

/-- The statement of `CREATE TABLE t (a int)`. -/
def tCreate : CreateTableStatement :=
  { Name := tk "t" identifierKind 13,
    Columns := some [{ Name := tk "a" identifierKind 16, Datatype := tk "int" keywordKind 18 }] }

/-- The store holding the one-column table `t` with no row. -/
def tStore : MemoryBackend :=
  { tables := [(str "t", { columns := [str "a"], columnTypes := [IntType], rows := [] })] }

/-- The statement of `CREATE TABLE t ()`. -/
def tCreateNoColumns : CreateTableStatement :=
  { Name := tk "t" identifierKind 13, Columns := some [] }

/-- The statement of `CREATE TABLE t (a table)`. -/
def tCreateBadType : CreateTableStatement :=
  { Name := tk "t" identifierKind 13,
    Columns := some [{ Name := tk "a" identifierKind 16, Datatype := tk "table" keywordKind 18 }] }

/-- The statement of `INSERT INTO t VALUES (1.5)`. -/
def tInsertDecimal : InsertStatement :=
  { Table := tk "t" identifierKind 12, Values := some [lit (tk "1.5" integerKind 22)] }

/-- The statement of `INSERT INTO t VALUES (1)`. -/
def tInsertOne : InsertStatement :=
  { Table := tk "t" identifierKind 12, Values := some [lit (tk "1" integerKind 22)] }

/-- The statement of `SELECT a FROM t`. -/
def tSelectA : SelectStatement :=
  { Item := [lit (tk "a" identifierKind 7)], From := tk "t" identifierKind 14 }

/-- The statement of `SELECT b FROM t`. -/
def tSelectB : SelectStatement :=
  { Item := [lit (tk "b" identifierKind 7)], From := tk "t" identifierKind 14 }

/-- The select `name, id` of `usersSelect` with its second item of a kind other
than `LiteralKind`. -/
def usersSelectNonLiteral : SelectStatement :=
  { Item := [lit (tk "name" identifierKind 7),
             { Literal := tk "id" identifierKind 13, Kind := 1 }],
    From := tk "users" identifierKind 21 }

/-- The statement of `INSERT INTO users VALUES (1)`. -/
def usersInsertShort : InsertStatement :=
  { Table := tk "users" identifierKind 12, Values := some [lit (tk "1" integerKind 26)] }

/-- The result set of `usersSelect` on `usersStore`. -/
def usersResult : Results :=
  { Columns := [{ Typ := TextType, Name := str "name" }, { Typ := IntType, Name := str "id" }],
    Rows := [[str "Alice", [0, 0, 0, 1]]] }

/-- The table a failed `tCreateBadType` leaves in the store. -/
def tMisaligned : Table := { columns := [str "a"], columnTypes := [], rows := [] }

/-! ## Vocabulary of the specification: tokenizer -/

/-- The accumulated `value` is a proper start of `option`: the option is still a
candidate of `longestMatch`. -/
def properPre (value option : Bytes) : Prop := value <+: option ∧ value ≠ option

/-- The bytes that continue an unquoted identifier: letters, digits, `_` and `$`. -/
def isIdentByte (c : Nat) : Bool :=
  isAlpha c || (decide (48 ≤ c) && decide (c ≤ 57)) || decide (c = 95) || decide (c = 36)

/-- A bare word `[A-Za-z][A-Za-z0-9_$]*`. -/
def isBareWord (source : Bytes) : Prop :=
  ∃ c rest, source = c :: rest ∧ isAlpha c = true ∧ ∀ b ∈ rest, isIdentByte b = true

/-- The cursor `lex` starts from. -/
def startCursor : cursor := { location := { line := 0, column := 0 }, pointer := 0 }

/-! ## Vocabulary of the specification: parser and typed cells -/

/-- The terminator token `;` that `Parse` compares with. -/
def semicolonToken : Token := tokenFromSymbol (str ";")

/-- The token list `Parse` works on: the tokens of the source, with a terminator
appended when the list is not empty and does not end with one. -/
def withTerminator (tokens : List Token) : List Token :=
  match tokens.getLast? with
  | some last => if last.equals semicolonToken then tokens else tokens ++ [semicolonToken]
  | none => tokens

/-- The number of consecutive `;` tokens from position `cur` on. -/
def semicolonsFrom (tokens : List Token) (cur : Nat) : Nat :=
  ((tokens.drop cur).takeWhile (fun t => semicolonToken.equals t)).length

/-- States of the statement loop of `Parse` on `tokens`: `ParseLoopState tokens n cur
stmts` says that the loop, started with budget `len(tokens) + 1` at cursor 0, comes to
the head of an iteration with budget `n`, cursor `cur` and the statements `stmts`
parsed so far. -/
inductive ParseLoopState (tokens : List Token) : Nat → Nat → List Statement → Prop where
  | start : ParseLoopState tokens (tokens.length + 1) 0 []
  | next (n cur newCursor cur1 : Nat) (stmts : List Statement) (stmt : Statement) :
      ParseLoopState tokens (n + 1) cur stmts → cur < tokens.length →
      parseStatement tokens cur semicolonToken = Outcome.ret (some stmt, newCursor, true) →
      parseSemicolons tokens (tokens.length + 1) newCursor false = Outcome.ret (cur1, true) →
      ParseLoopState tokens n cur1 (stmts ++ [stmt])

/-- A literal expression wrapping an identifier, text or integer token. -/
def isLiteralExpression (e : Expression) : Prop :=
  e.Kind = LiteralKind ∧
    (e.Literal.kind = identifierKind ∨ e.Literal.kind = textKind ∨ e.Literal.kind = integerKind)

/-- The expression lists of a statement hold literal expressions only, and the value
list of an insert statement is present. -/
def literalLists (stmt : Statement) : Prop :=
  (∀ ss, stmt.SelectStatement = some ss → ∀ e ∈ ss.Item, isLiteralExpression e) ∧
  (∀ ins, stmt.InsertStatement = some ins →
    ∃ values, ins.Values = some values ∧ ∀ e ∈ values, isLiteralExpression e)

/-- The values of the insert statement are literal-kind expressions and, at the
position of every column of the target table declared `int`, integer-kind tokens. -/
def intValuesTyped (mb : MemoryBackend) (ins : InsertStatement) : Prop :=
  ∀ table values, mb.get ins.Table.value = some table → ins.Values = some values →
    (∀ v ∈ values, v.Kind = LiteralKind) ∧
    ∀ (i : Nat) (v : Expression), table.columnTypes[i]? = some IntType → values[i]? = some v →
      v.Literal.kind = integerKind

/-- Stores reachable from the empty store by successful `CreateTable` calls and
successful `Insert` calls whose values are typed as `intValuesTyped` says. -/
inductive ReachTyped : MemoryBackend → Prop where
  | empty : ReachTyped NewMemoryBackend
  | create (mb : MemoryBackend) (cts : CreateTableStatement) :
      ReachTyped mb → (CreateTable mb cts).2 = none → ReachTyped (CreateTable mb cts).1
  | insert (mb mb1 : MemoryBackend) (ins : InsertStatement) :
      ReachTyped mb → intValuesTyped mb ins → Insert mb ins = Outcome.ret (mb1, none) →
      ReachTyped mb1

/-- Every cell at the position of a column declared `int` has four bytes. -/
def intCellsEncoded (mb : MemoryBackend) : Prop :=
  ∀ name t, mb.get name = some t → ∀ row ∈ t.rows, ∀ (i : Nat) (cell : MemoryCell),
    t.columnTypes[i]? = some IntType → row[i]? = some cell → cell.length = 4

/-- The select items that `Select` does not skip. -/
def literalItems (items : List Expression) : List Expression :=
  items.filter (fun e => decide (e.Kind = LiteralKind))

/-! ## More sample statements -/

/-- The statement of `INSERT INTO t VALUES ('ab')`. -/
def tInsertText : InsertStatement :=
  { Table := tk "t" identifierKind 12, Values := some [lit (tk "ab" textKind 22)] }

/-- The store holding the table `t`, column `a` declared `int`, with the row of
`tInsertText`. -/
def tStoreText : MemoryBackend :=
  { tables := [(str "t", { columns := [str "a"], columnTypes := [IntType], rows := [[str "ab"]] })] }

/-- The store holding the table `t`, column `a` declared `int`, with the row of
`tInsertOne`. -/
def tStoreOne : MemoryBackend :=
  { tables := [(str "t", { columns := [str "a"], columnTypes := [IntType],
                           rows := [[[0, 0, 0, 1]]] })] }

/-- The statement of `SELECT FROM t`. -/
def tSelectNoItems : SelectStatement :=
  { Item := [], From := tk "t" identifierKind 12 }

/-- The statement of `INSERT INTO t VALUES ()`. -/
def tInsertNoValues : InsertStatement :=
  { Table := tk "t" identifierKind 12, Values := some [] }

/-- The tokens of `; INSERT INTO t x`. -/
def brokenInsertTokens : List Token :=
  [tk ";" symbolKind 0, tk "insert" keywordKind 2, tk "into" keywordKind 9,
   tk "t" identifierKind 14, tk "x" identifierKind 16]

/-- The tokens of `SELECT a FROM t SELECT b FROM t;`. -/
def twoSelectTokens : List Token :=
  [tk "select" keywordKind 0, tk "a" identifierKind 7, tk "from" keywordKind 9,
   tk "t" identifierKind 14, tk "select" keywordKind 16, tk "b" identifierKind 23,
   tk "from" keywordKind 25, tk "t" identifierKind 30, tk ";" symbolKind 31]

/-- The tokens of `SELECT a FROM t;;`. -/
def selectTwiceTerminated : List Token :=
  [tk "select" keywordKind 0, tk "a" identifierKind 7, tk "from" keywordKind 9,
   tk "t" identifierKind 14, tk ";" symbolKind 15, tk ";" symbolKind 16]

/-! ## Vocabulary of the specification: termination and safety of the tokenizer -/

/-- A sub-lexer outcome at the cursor `ic`: the sub-lexer returns, and it either reports
a match with a cursor strictly further on and not past the end of the source, or
reports no match and gives back `ic`. -/
def Advances (source : Bytes) (ic : cursor) (r : Outcome LexResult) : Prop :=
  ∃ t c ok, r = Outcome.ret (t, c, ok) ∧
    (ok = true → ic.pointer < c.pointer ∧ c.pointer ≤ source.length) ∧
    (ok = false → c = ic)

/-- One evaluation of the prefix comparison
`string(value) == option[:cursor.pointer-ic.pointer]` of `longestMatch`: the option,
the slice bound and the accumulated value. -/
structure Comparison where
  option : Bytes
  bound : Nat
  value : Bytes
deriving DecidableEq, Repr

/-- The test `tooLong := len(value) > len(option)` at a comparison. -/
def Comparison.tooLong (e : Comparison) : Bool :=
  decide (e.value.length > e.option.length)

/-- The prefix comparisons that one pass of the inner loop of `longestMatch` evaluates,
in order. The control flow is that of `longestMatchInner`; the list ends with the
comparison whose slice is out of range, if there is one. -/
def longestMatchInnerComparisons (value : Bytes) (n : Nat) :
    List Bytes → Nat → List Nat → List Comparison
  | [], _, _ => []
  | option :: rest, i, skipList =>
    if i ∈ skipList then longestMatchInnerComparisons value n rest (i + 1) skipList
    else if option = value then
      longestMatchInnerComparisons value n rest (i + 1) (skipList ++ [i])
    else
      { option := option, bound := n, value := value } ::
        match slice option 0 n with
        | none => []
        | some pre =>
          let sharesPre : Bool := decide (value = pre)
          let tooLong : Bool := decide (value.length > option.length)
          if tooLong || !sharesPre then
            longestMatchInnerComparisons value n rest (i + 1) (skipList ++ [i])
          else longestMatchInnerComparisons value n rest (i + 1) skipList

/-- The prefix comparisons that `longestMatch` evaluates from a state of its outer loop
on, in order. The control flow is that of `longestMatchLoop`. -/
def longestMatchLoopComparisons (source : Bytes) (ic : cursor) (options : List Bytes) :
    Nat → Nat → Bytes → List Nat → Bytes → List Comparison
  | 0, _, _, _, _ => []
  | n + 1, pointer, value, skipList, mtch =>
    if pointer < source.length then
      match source[pointer]? with
      | none => []
      | some b =>
        let value1 := value ++ toLowerByteString b
        let pointer1 := pointer + 1
        longestMatchInnerComparisons value1 (pointer1 - ic.pointer) options 0 skipList ++
          match longestMatchInner value1 (pointer1 - ic.pointer) options 0 skipList mtch with
          | Outcome.ret (skipList1, mtch1) =>
            if skipList1.length = options.length then []
            else longestMatchLoopComparisons source ic options n pointer1 value1 skipList1 mtch1
          | Outcome.panic => []
          | Outcome.fuel => []
    else []

/-- The prefix comparisons that a call of `longestMatch` evaluates, in order. -/
def longestMatchComparisons (source : Bytes) (ic : cursor) (options : List Bytes) :
    List Comparison :=
  longestMatchLoopComparisons source ic options (source.length + 1) ic.pointer [] [] []

/-! ## Lemmas on the store -/

theorem get_set_same (mb : MemoryBackend) (name : Bytes) (t : Table) :
    (mb.set name t).get name = some t := by
  cases mb with
  | mk l =>
    simp only [MemoryBackend.set, MemoryBackend.get]
    induction l with
    | nil => simp [setEntry]
    | cons e rest ih =>
      by_cases h : e.1 = name
      · simp [setEntry, h]
      · simp [setEntry, h, List.find?_cons, ih]

theorem get_set_other (mb : MemoryBackend) (name other : Bytes) (t : Table) (h : other ≠ name) :
    (mb.set name t).get other = mb.get other := by
  cases mb with
  | mk l =>
    simp only [MemoryBackend.set, MemoryBackend.get]
    induction l with
    | nil => simp [setEntry, List.find?_cons, Ne.symm h]
    | cons e rest ih =>
      by_cases h1 : e.1 = name
      · have h2 : ¬ e.1 = other := by rw [h1]; exact Ne.symm h
        simp [setEntry, h1, List.find?_cons, Ne.symm h, h2]
      · by_cases h2 : e.1 = other
        · rw [setEntry, if_neg h1]
          simp [List.find?_cons, h2]
        · rw [setEntry, if_neg h1]
          simp [List.find?_cons, h2, ih]

/-! ## Lemmas on `CreateTable` -/

theorem createTableLoop_rows (cols : List ColumnDefinition) (t : Table) :
    (createTableLoop cols t).1.rows = t.rows := by
  induction cols generalizing t with
  | nil => rfl
  | cons c rest ih =>
    simp only [createTableLoop]
    split
    · rw [ih]
    · split
      · rw [ih]
      · rfl

theorem createTableLoop_success (cols : List ColumnDefinition) (t : Table)
    (h : (createTableLoop cols t).2 = none) :
    (createTableLoop cols t).1.columns = t.columns ++ cols.map (fun c => c.Name.value) ∧
    (createTableLoop cols t).1.columnTypes.map some
      = t.columnTypes.map some ++ cols.map (fun c => columnTypeOf c.Datatype.value) := by
  induction cols generalizing t with
  | nil => simp [createTableLoop]
  | cons c rest ih =>
    simp only [createTableLoop] at h ⊢
    split at h
    · rename_i hint
      rw [if_pos hint]
      have hct : columnTypeOf c.Datatype.value = some IntType := by
        unfold columnTypeOf; rw [if_pos hint]
      have := ih _ h
      simp only [this, List.map_cons, List.append_assoc, List.singleton_append, List.map_append,
        List.map_nil, hct, and_self]
    · rename_i hint
      split at h
      · rename_i htext
        rw [if_neg hint, if_pos htext]
        have hct : columnTypeOf c.Datatype.value = some TextType := by
          unfold columnTypeOf; rw [if_neg hint, if_pos htext]
        have := ih _ h
        simp only [this, List.map_cons, List.append_assoc, List.singleton_append, List.map_append,
          List.map_nil, hct, and_self]
      · simp at h

theorem CreateTable_get_other (mb : MemoryBackend) (cts : CreateTableStatement) (other : Bytes)
    (h : other ≠ cts.Name.value) : (CreateTable mb cts).1.get other = mb.get other := by
  unfold CreateTable
  cases hc : cts.Columns <;> simp only [hc] <;> exact get_set_other _ _ _ _ h

theorem CreateTable_success_table (mb : MemoryBackend) (cts : CreateTableStatement)
    (cols : List ColumnDefinition) (hcols : cts.Columns = some cols)
    (h : (CreateTable mb cts).2 = none) :
    ∃ types, types.length = cols.length ∧
      (CreateTable mb cts).1.get cts.Name.value
        = some { columns := cols.map (fun c => c.Name.value), columnTypes := types, rows := [] } := by
  unfold CreateTable at h ⊢
  simp only [hcols] at h ⊢
  have h1 := createTableLoop_success cols _ h
  have h2 := createTableLoop_rows cols { columns := [], columnTypes := [], rows := [] }
  refine ⟨(createTableLoop cols { columns := [], columnTypes := [], rows := [] }).1.columnTypes,
    ?_, ?_⟩
  · have := congrArg List.length h1.2
    simpa using this
  · rw [get_set_same]
    congr 1
    cases hr : createTableLoop cols { columns := [], columnTypes := [], rows := [] } with
    | mk t e =>
      cases t with
      | mk c ty r =>
        rw [hr] at h1 h2
        simp only [List.nil_append] at h1 h2
        simp only [h1.1, h2]

/-! ## Lemmas on `Insert` -/

theorem insertLoop_literal (values : List Expression) (acc row : List MemoryCell)
    (hlit : ∀ v ∈ values, v.Kind = LiteralKind)
    (h : insertLoop values acc = Outcome.ret row) :
    ∃ cells, row = acc ++ cells ∧
      List.Forall₂ (fun v cell => tokenToCell v.Literal = Outcome.ret cell) values cells := by
  induction values generalizing acc with
  | nil =>
    simp only [insertLoop, Outcome.ret.injEq] at h
    exact ⟨[], by simp [h], List.Forall₂.nil⟩
  | cons v rest ih =>
    have hv : v.Kind = LiteralKind := hlit v (List.mem_cons_self _ _)
    have hrest : ∀ x ∈ rest, x.Kind = LiteralKind := fun x hx => hlit x (List.mem_cons_of_mem _ hx)
    simp only [insertLoop, hv, ne_eq, not_true_eq_false, if_false] at h
    cases hc : tokenToCell v.Literal with
    | ret cell =>
      simp only [hc] at h
      obtain ⟨cells, hrow, hall⟩ := ih _ hrest h
      exact ⟨cell :: cells, by simp [hrow], List.Forall₂.cons hc hall⟩
    | panic => simp [hc] at h
    | fuel => simp [hc] at h

theorem Insert_cases (mb mb1 : MemoryBackend) (ins : InsertStatement) (err : Option EngineError)
    (h : Insert mb ins = Outcome.ret (mb1, err)) :
    (mb1 = mb ∧ (ins.Values = none ∨ ∃ e, err = some e)) ∨
    ∃ table values row, mb.get ins.Table.value = some table ∧ ins.Values = some values ∧
      values.length = table.columns.length ∧ insertLoop values [] = Outcome.ret row ∧
      err = none ∧
      mb1 = mb.set ins.Table.value { table with rows := table.rows ++ [row] } := by
  unfold Insert at h
  cases hg : mb.get ins.Table.value with
  | none =>
    simp only [hg, Outcome.ret.injEq, Prod.mk.injEq] at h
    exact Or.inl ⟨h.1.symm, Or.inr ⟨_, h.2.symm⟩⟩
  | some table =>
    cases hv : ins.Values with
    | none =>
      simp only [hg, hv, Outcome.ret.injEq, Prod.mk.injEq] at h
      exact Or.inl ⟨h.1.symm, Or.inl rfl⟩
    | some values =>
      simp only [hg, hv] at h
      by_cases hlen : values.length = table.columns.length
      · simp only [hlen, ne_eq, not_true_eq_false, if_false] at h
        cases hl : insertLoop values [] with
        | ret row =>
          simp only [hl, Outcome.ret.injEq, Prod.mk.injEq] at h
          exact Or.inr ⟨table, values, row, rfl, rfl, hlen, hl, h.2.symm, h.1.symm⟩
        | panic => simp [hl] at h
        | fuel => simp [hl] at h
      · simp only [ne_eq, hlen, not_false_eq_true, if_true, Outcome.ret.injEq,
          Prod.mk.injEq] at h
        exact Or.inl ⟨h.1.symm, Or.inr ⟨_, h.2.symm⟩⟩

/-! ## Lemmas on `Select` -/

theorem findColumn_nodup (name : Bytes) (names : List Bytes) (hnd : names.Nodup)
    (i k : Nat) (hi : names[i]? = some name) : findColumn name names k = some (k + i) := by
  induction names generalizing i k with
  | nil => simp at hi
  | cons n rest ih =>
    cases i with
    | zero =>
      simp only [List.getElem?_cons_zero, Option.some.injEq] at hi
      simp [findColumn, hi]
    | succ j =>
      simp only [List.getElem?_cons_succ] at hi
      have hmem : name ∈ rest := List.getElem?_mem hi
      have hne : ¬ n = name := by
        intro h
        subst h
        exact (List.nodup_cons.mp hnd).1 hmem
      simp only [findColumn, hne, if_false]
      rw [ih (List.nodup_cons.mp hnd).2 j (k + 1) hi]
      congr 1
      omega

theorem selectItems_ok (table : Table) (row : List MemoryCell) (b : Bool)
    (items : List Expression) (cols cols1 : List ResultColumn) (result result1 : List MemoryCell)
    (hlit : ∀ e ∈ items, e.Kind = LiteralKind)
    (h : selectItems table row b items cols result = Outcome.ret (Except.ok (cols1, result1))) :
    cols1.map some = cols.map some ++ (if b then items.map (selectedColumn table) else []) ∧
    result1.map some = result.map some ++ items.map (selectedCell table row) := by
  induction items generalizing cols result with
  | nil =>
    simp only [selectItems, Outcome.ret.injEq, Except.ok.injEq, Prod.mk.injEq] at h
    cases b <;> simp [h.1, h.2]
  | cons e rest ih =>
    have he : e.Kind = LiteralKind := hlit e (List.mem_cons_self _ _)
    have hrest : ∀ x ∈ rest, x.Kind = LiteralKind := fun x hx => hlit x (List.mem_cons_of_mem _ hx)
    simp only [selectItems, he, ne_eq, not_true_eq_false, if_false] at h
    by_cases hk : e.Literal.kind = identifierKind
    · simp only [hk, if_true] at h
      cases hf : findColumn e.Literal.value table.columns 0 with
      | none => simp [hf] at h
      | some i =>
        simp only [hf] at h
        cases hr : row[i]? with
        | none =>
          simp only [hr] at h
          split at h <;> simp at h
        | some cell =>
          cases b with
          | false =>
            simp only [hr, Bool.false_eq_true, if_false] at h
            have := ih _ _ hrest h
            simp only [Bool.false_eq_true, if_false, List.append_nil, List.map_append, List.map_cons,
              List.map_nil, List.append_assoc, List.singleton_append] at this ⊢
            refine ⟨this.1, ?_⟩
            rw [this.2]
            simp [selectedCell, hf, hr]
          | true =>
            cases ht : table.columnTypes[i]? with
            | none => simp [hr, ht] at h
            | some ty =>
              simp only [hr, ht, if_true, Option.map_some'] at h
              have := ih _ _ hrest h
              simp only [if_true, List.map_append, List.map_cons,
                List.map_nil, List.append_assoc, List.singleton_append] at this ⊢
              rw [this.1, this.2]
              simp [selectedCell, selectedColumn, hf, hr, ht]
    · simp [hk] at h

theorem selectRows_ok (table : Table) (items : List Expression)
    (hlit : ∀ e ∈ items, e.Kind = LiteralKind)
    (rows : List (List MemoryCell)) (i : Nat) (cols : List ResultColumn)
    (results : List (List MemoryCell)) (res : Results)
    (h : selectRows table items rows i cols results = Outcome.ret (Except.ok res)) :
    res.Columns.map some
      = cols.map some ++ (if i = 0 ∧ rows ≠ [] then items.map (selectedColumn table) else []) ∧
    res.Rows.map (List.map some)
      = results.map (List.map some)
          ++ rows.map (fun row => items.map (selectedCell table row)) := by
  induction rows generalizing i cols results with
  | nil =>
    simp only [selectRows, Outcome.ret.injEq, Except.ok.injEq] at h
    subst h
    simp
  | cons row rest ih =>
    simp only [selectRows] at h
    cases hs : selectItems table row (decide (i = 0)) items cols [] with
    | panic => simp [hs] at h
    | fuel => simp [hs] at h
    | ret r =>
      cases r with
      | error e => simp [hs] at h
      | ok p =>
        obtain ⟨cols1, result⟩ := p
        simp only [hs] at h
        have h1 := selectItems_ok table row _ items cols cols1 [] result hlit hs
        have h2 := ih _ _ _ h
        simp only [Nat.add_one_ne_zero, false_and, if_false, List.append_nil] at h2
        rw [h2.1, h2.2, h1.1]
        have h3 : result.map some = items.map (selectedCell table row) := by simpa using h1.2
        constructor
        · by_cases hi : i = 0 <;> simp [hi]
        · simp [h3]

theorem selectRows_single (table : Table) (e : Expression) (i : Nat) (ty : ColumnType)
    (hkind : e.Kind = LiteralKind) (hid : e.Literal.kind = identifierKind)
    (hfind : findColumn e.Literal.value table.columns 0 = some i)
    (hty : table.columnTypes[i]? = some ty)
    (rows : List (List MemoryCell)) (cells : List MemoryCell)
    (hcells : List.Forall₂ (fun row cell => row[i]? = some cell) rows cells)
    (k : Nat) (cols : List ResultColumn) (results : List (List MemoryCell)) :
    selectRows table [e] rows k cols results
      = Outcome.ret (Except.ok
          { Columns := cols ++ (if k = 0 ∧ rows ≠ [] then
                                  [{ Typ := ty, Name := e.Literal.value }] else []),
            Rows := results ++ cells.map (fun cell => [cell]) }) := by
  induction hcells generalizing k cols results with
  | nil => simp [selectRows]
  | @cons row cell rows cells hrow _ ih =>
    simp only [selectRows, selectItems, hkind, ne_eq, not_true_eq_false, if_false, hid, if_true,
      hfind, hty, hrow, Option.map_some']
    by_cases hk : k = 0
    · subst hk
      simp only [decide_True, if_true, List.nil_append]
      rw [ih]
      simp
    · simp only [hk, decide_False, Bool.false_eq_true, if_false, List.nil_append]
      rw [ih]
      simp [hk]

/-! ## Lemmas on table histories -/

theorem InsertTrace_table (name : Bytes) (mb0 mb : MemoryBackend) (log : List (List Expression))
    (t0 : Table) (h0 : mb0.get name = some t0) (hrows : t0.rows = [])
    (h : InsertTrace name mb0 mb log) :
    ∃ rows, mb.get name = some { t0 with rows := rows } ∧
      List.Forall₂ (fun values row =>
        values.length = t0.columns.length ∧
        List.Forall₂ (fun v cell => tokenToCell v.Literal = Outcome.ret cell) values row)
        log rows := by
  induction h with
  | start =>
    refine ⟨[], ?_, List.Forall₂.nil⟩
    rw [h0, ← hrows]
  | insert mb mb1 log ins values _ hname hvalues hlit hins ih =>
    obtain ⟨rows, hget, hall⟩ := ih
    rcases Insert_cases mb mb1 ins none hins with
      ⟨_, h1 | ⟨e, h1⟩⟩ | ⟨table, values1, row, hg, hv, hlen, hl, _, h1⟩
    · rw [hvalues] at h1; simp at h1
    · simp at h1
    · rw [hname] at hg h1
      rw [hget] at hg
      simp only [Option.some.injEq] at hg
      subst hg
      rw [hvalues] at hv
      simp only [Option.some.injEq] at hv
      subst hv
      obtain ⟨cells, hrow, hcells⟩ := insertLoop_literal values [] row hlit hl
      simp only [List.nil_append] at hrow
      subst hrow
      refine ⟨rows ++ [row], ?_, ?_⟩
      · rw [h1, get_set_same]
      · exact List.rel_append hall (List.Forall₂.cons ⟨hlen, hcells⟩ List.Forall₂.nil)
  | insertFailed mb mb1 log ins err _ hins ih =>
    rcases Insert_cases mb mb1 ins (some err) hins with ⟨h1, _⟩ | ⟨_, _, _, _, _, _, _, h2, _⟩
    · subst h1; exact ih
    · simp at h2
  | insertOther mb mb1 log ins err _ hne hins ih =>
    rcases Insert_cases mb mb1 ins err hins with ⟨h1, _⟩ | ⟨table, _, row, _, _, _, _, _, h1⟩
    · subst h1; exact ih
    · obtain ⟨rows, hget, hall⟩ := ih
      refine ⟨rows, ?_, hall⟩
      rw [h1, get_set_other _ _ _ _ (Ne.symm hne), hget]
  | createOther mb log cts _ hne ih =>
    obtain ⟨rows, hget, hall⟩ := ih
    refine ⟨rows, ?_, hall⟩
    rw [CreateTable_get_other _ _ _ (Ne.symm hne), hget]

theorem column_cells (n i : Nat) (hi : i < n) (log : List (List Expression))
    (rows : List (List MemoryCell))
    (hall : List.Forall₂ (fun values row =>
        values.length = n ∧
        List.Forall₂ (fun v cell => tokenToCell v.Literal = Outcome.ret cell) values row)
        log rows) :
    ∃ cells, List.Forall₂ (fun (row : List MemoryCell) cell => row[i]? = some cell) rows cells ∧
      List.Forall₂ (fun values cell =>
        ∃ v, values[i]? = some v ∧ tokenToCell v.Literal = Outcome.ret cell) log cells := by
  induction hall with
  | nil => exact ⟨[], List.Forall₂.nil, List.Forall₂.nil⟩
  | @cons values row log rows hrow _ ih =>
    obtain ⟨cells, h1, h2⟩ := ih
    obtain ⟨hlen, hvr⟩ := hrow
    have hiv : i < values.length := by omega
    have hir : i < row.length := by rw [← hvr.length_eq]; exact hiv
    refine ⟨row[i] :: cells, List.Forall₂.cons (List.getElem?_eq_getElem hir) h1,
      List.Forall₂.cons ⟨values[i], List.getElem?_eq_getElem hiv, ?_⟩ h2⟩
    exact (List.forall₂_iff_get.mp hvr).2 i hiv hir

/-! ## Lemmas on the integer encoding -/

theorem digitsValue_map (ds : List Nat) (hds : ∀ d ∈ ds, d < 10) (acc : Nat) :
    digitsValue (ds.map (fun d => d + 48)) acc
      = some (acc * 10 ^ ds.length + Nat.ofDigits 10 ds.reverse) := by
  induction ds generalizing acc with
  | nil => simp [digitsValue]
  | cons d rest ih =>
    have hd : d < 10 := hds d (List.mem_cons_self _ _)
    have hrest : ∀ x ∈ rest, x < 10 := fun x hx => hds x (List.mem_cons_of_mem _ hx)
    have h1 : 48 ≤ d + 48 ∧ d + 48 ≤ 57 := by omega
    simp only [List.map_cons, digitsValue, h1, and_self, if_true]
    rw [ih hrest]
    simp only [List.reverse_cons, Nat.ofDigits_append, List.length_reverse, List.length_cons,
      Nat.ofDigits_singleton, Nat.add_sub_cancel]
    congr 1
    ring

theorem Atoi_digits (ds : List Nat) (hds : ∀ d ∈ ds, d < 10) (hne : ds ≠ [])
    (hn : Nat.ofDigits 10 ds.reverse < 2 ^ 63) :
    Atoi (ds.map (fun d => d + 48)) = some (Int.ofNat (Nat.ofDigits 10 ds.reverse)) := by
  cases ds with
  | nil => exact absurd rfl hne
  | cons d rest =>
    have hd : d < 10 := hds d (List.mem_cons_self _ _)
    have h := digitsValue_map (d :: rest) hds 0
    have h45 : ¬ d + 48 = 45 := by omega
    have h43 : ¬ d + 48 = 43 := by omega
    simp only [List.map_cons] at h
    simp only [Atoi, List.map_cons, List.head?_cons, Option.some.injEq, h45, h43, or_self,
      if_false, decide_False, h, zero_mul, zero_add]
    rw [if_pos hn]
    simp

theorem toInt32_small (n : Nat) (hn : n ≤ 2 ^ 31 - 1) : toInt32 (Int.ofNat n) = Int.ofNat n := by
  unfold toInt32
  simp only [Int.ofNat_eq_coe]
  omega

/-! ## Lemmas on the sample stores -/

theorem usersStore_reachable : Reach literalValues usersStore :=
  Reach.insert (CreateTable NewMemoryBackend usersCreate).1 usersStore usersInsert none
    (Reach.create NewMemoryBackend usersCreate Reach.empty)
    (fun values hv v hmem => by
      have hvals : values = [lit (tk "1" integerKind 26), lit (tk "Alice" textKind 30)] := by
        have h1 : usersInsert.Values
            = some [lit (tk "1" integerKind 26), lit (tk "Alice" textKind 30)] := rfl
        rw [h1] at hv
        exact (Option.some.inj hv).symm
      subst hvals
      simp only [List.mem_cons, List.mem_singleton, List.not_mem_nil, or_false] at hmem
      rcases hmem with h | h <;> subst h <;> rfl)
    (by decide)

/-! ## The claims C1 to C10 -/

/-- C1. After a successful `CreateTable` with pairwise-distinct column names, let the
store evolve by `Insert` calls and by `CreateTable` calls on other names, and let
`log` list the value lists of the successful inserts into the table (present lists
of literal expressions). Then `Select` with the single identifier item naming the
column at position `i` succeeds, returns exactly `log.length` rows, each of one
cell, and the cell of row `j` is `tokenToCell` of the `i`-th value of the `j`-th
insert, in insertion order. (A successful insert has not panicked, so its integer
literals were accepted by `strconv.Atoi`; decimal digit strings are among them.) -/
theorem select_returns_inserted_values (mb0 mb : MemoryBackend) (cts : CreateTableStatement)
    (cols : List ColumnDefinition) (hcols : cts.Columns = some cols)
    (hcreate : (CreateTable mb0 cts).2 = none)
    (hdistinct : (cols.map (fun c => c.Name.value)).Nodup)
    (log : List (List Expression))
    (htrace : InsertTrace cts.Name.value (CreateTable mb0 cts).1 mb log)
    (i : Nat) (c : ColumnDefinition) (hi : cols[i]? = some c)
    (ss : SelectStatement) (e : Expression) (hitem : ss.Item = [e])
    (hkind : e.Kind = LiteralKind) (hid : e.Literal.kind = identifierKind)
    (hname : e.Literal.value = c.Name.value) (hfrom : ss.From.value = cts.Name.value) :
    ∃ res cells, Select mb ss = Outcome.ret (Except.ok res) ∧
      res.Rows = cells.map (fun cell => [cell]) ∧
      res.Rows.length = log.length ∧
      List.Forall₂ (fun values cell =>
        ∃ v, values[i]? = some v ∧ tokenToCell v.Literal = Outcome.ret cell) log cells := by
  obtain ⟨types, htypes, hget0⟩ := CreateTable_success_table mb0 cts cols hcols hcreate
  obtain ⟨rows, hget, hall⟩ := InsertTrace_table _ _ _ _ _ hget0 rfl htrace
  have hilt : i < cols.length := by
    rcases Nat.lt_or_ge i cols.length with h | h
    · exact h
    · rw [List.getElem?_eq_none h] at hi; simp at hi
  have hfind : findColumn e.Literal.value (cols.map (fun c => c.Name.value)) 0 = some i := by
    have := findColumn_nodup e.Literal.value _ hdistinct i 0 (by simp [hi, hname])
    simpa using this
  obtain ⟨ty, hty⟩ : ∃ ty, types[i]? = some ty :=
    ⟨types[i], List.getElem?_eq_getElem (by omega)⟩
  obtain ⟨cells, hc1, hc2⟩ := column_cells cols.length i hilt log rows
    (by simpa using hall)
  unfold Select
  rw [hfrom, hget, hitem]
  simp only
  rw [selectRows_single _ e i ty hkind hid hfind hty rows cells hc1 0 [] []]
  exact ⟨_, cells, rfl, by simp, by simp [hc2.length_eq], hc2⟩

/-- C1, at `CREATE TABLE users (id INT, name TEXT)`, one insert of `(1, 'Alice')` and
the select of column `name` (position 1). -/
theorem select_returns_inserted_values_witness :
    ∃ res cells,
      Select usersStore { Item := [lit (tk "name" identifierKind 7)],
                          From := tk "users" identifierKind 21 }
        = Outcome.ret (Except.ok res) ∧
      res.Rows = cells.map (fun cell => [cell]) ∧
      res.Rows.length = [[lit (tk "1" integerKind 26), lit (tk "Alice" textKind 30)]].length ∧
      List.Forall₂ (fun values cell =>
        ∃ v, values[1]? = some v ∧ tokenToCell v.Literal = Outcome.ret cell)
        [[lit (tk "1" integerKind 26), lit (tk "Alice" textKind 30)]] cells :=
  select_returns_inserted_values NewMemoryBackend usersStore usersCreate
    [{ Name := tk "id" identifierKind 20, Datatype := tk "int" keywordKind 23 },
     { Name := tk "name" identifierKind 28, Datatype := tk "text" keywordKind 33 }]
    rfl (by decide) (by decide)
    [[lit (tk "1" integerKind 26), lit (tk "Alice" textKind 30)]]
    (InsertTrace.insert (CreateTable NewMemoryBackend usersCreate).1 usersStore [] usersInsert
      [lit (tk "1" integerKind 26), lit (tk "Alice" textKind 30)]
      InsertTrace.start (by decide) rfl (by decide) (by decide))
    1 { Name := tk "name" identifierKind 28, Datatype := tk "text" keywordKind 33 } rfl
    { Item := [lit (tk "name" identifierKind 7)], From := tk "users" identifierKind 21 }
    (lit (tk "name" identifierKind 7)) rfl rfl rfl (by decide) (by decide)

/-- C2, as stated, fails: on the store built by the successful `usersCreate` and
`usersInsert`, the select `usersSelectNonLiteral` (two items, the second not of
`LiteralKind`) succeeds on a table holding one row, and its result has one column and
one cell per row, not two. -/
theorem select_skips_nonliteral_item :
    CreateTable NewMemoryBackend usersCreate
        = ({ tables := [(str "users", usersEmptyTable)] }, none) ∧
      Insert { tables := [(str "users", usersEmptyTable)] } usersInsert
        = Outcome.ret (usersStore, none) ∧
      usersStore.get usersSelectNonLiteral.From.value = some usersTable ∧
      usersTable.rows.length = 1 ∧
      usersSelectNonLiteral.Item.length = 2 ∧
      Select usersStore usersSelectNonLiteral
        = Outcome.ret (Except.ok { Columns := [{ Typ := TextType, Name := str "name" }],
                                   Rows := [[str "Alice"]] }) := by
  decide

/-- C2, amended: for every store and every `Select` whose items are all of
`LiteralKind` and that succeeds on a table holding at least one row, `Columns` has
exactly one entry per select item, in select-list order, the k-th being the declared
type of the column named by item k with the name of item k, and there is one result
row per table row, each of exactly `len(items)` cells, the k-th cell being the source
row's cell at the column named by item k. -/
theorem select_projection (mb : MemoryBackend) (ss : SelectStatement) (table : Table)
    (res : Results) (hget : mb.get ss.From.value = some table) (hrows : table.rows ≠ [])
    (hlit : ∀ e ∈ ss.Item, e.Kind = LiteralKind)
    (hsel : Select mb ss = Outcome.ret (Except.ok res)) :
    res.Columns.length = ss.Item.length ∧
      res.Columns.map some = ss.Item.map (selectedColumn table) ∧
      res.Rows.length = table.rows.length ∧
      (∀ r ∈ res.Rows, r.length = ss.Item.length) ∧
      res.Rows.map (List.map some)
        = table.rows.map (fun row => ss.Item.map (selectedCell table row)) := by
  unfold Select at hsel
  rw [hget] at hsel
  have h := selectRows_ok table ss.Item hlit table.rows 0 [] [] res hsel
  simp only [List.map_nil, List.nil_append, true_and, ne_eq, hrows, not_false_eq_true,
    if_true] at h
  have hc : res.Columns.length = ss.Item.length := by
    have := congrArg List.length h.1
    simpa using this
  have hr : res.Rows.length = table.rows.length := by
    have := congrArg List.length h.2
    simpa using this
  refine ⟨hc, h.1, hr, ?_, h.2⟩
  intro r hr1
  have hmem : r.map some ∈ res.Rows.map (List.map some) := List.mem_map_of_mem _ hr1
  rw [h.2] at hmem
  obtain ⟨row, _, hrow⟩ := List.mem_map.mp hmem
  have := congrArg List.length hrow
  simpa using this.symm

/-- C2, the scenario of the specification: parsing `CREATE TABLE users (id INT, name
TEXT);`, `INSERT INTO users VALUES (1, 'Alice');` and `SELECT name, id FROM users;` gives
`usersCreate`, `usersInsert` and `usersSelect`; applying them yields the single row
`("Alice", 1)` with schema `[(TextType, "name"), (IntType, "id")]`. -/
theorem select_projection_witness :
    (Parse (str "CREATE TABLE users (id INT, name TEXT);")
        = Outcome.ret (Except.ok { Statements := [createStatement usersCreate] }) ∧
      Parse (str "INSERT INTO users VALUES (1, 'Alice');")
        = Outcome.ret (Except.ok { Statements := [insertStatement usersInsert] }) ∧
      Parse (str "SELECT name, id FROM users;")
        = Outcome.ret (Except.ok { Statements := [selectStatement usersSelect] }) ∧
      Insert (CreateTable NewMemoryBackend usersCreate).1 usersInsert
        = Outcome.ret (usersStore, none) ∧
      Select usersStore usersSelect = Outcome.ret (Except.ok usersResult) ∧
      usersResult.Columns
        = [{ Typ := TextType, Name := str "name" }, { Typ := IntType, Name := str "id" }] ∧
      usersResult.Rows = [[str "Alice", [0, 0, 0, 1]]] ∧
      AsInt32 [0, 0, 0, 1] = Outcome.ret 1) ∧
    (usersResult.Columns.length = usersSelect.Item.length ∧
      usersResult.Columns.map some = usersSelect.Item.map (selectedColumn usersTable) ∧
      usersResult.Rows.length = usersTable.rows.length ∧
      (∀ r ∈ usersResult.Rows, r.length = usersSelect.Item.length) ∧
      usersResult.Rows.map (List.map some)
        = usersTable.rows.map (fun row => usersSelect.Item.map (selectedCell usersTable row))) :=
  ⟨by decide,
   select_projection usersStore usersSelect usersTable usersResult
     (by decide) (by decide) (by decide) (by decide)⟩

/-- C3, the failing input: `tStore` holds the table `t` with the single column `a` and
no row; `SELECT b FROM t` names no column of `t`, and `Select` returns an empty result
set with no error instead of `ErrColumnDoesNotExists`. -/
theorem select_unknown_column_on_empty_table :
    CreateTable NewMemoryBackend tCreate = (tStore, none) ∧
      Parse (str "SELECT b FROM t")
        = Outcome.ret (Except.ok { Statements := [selectStatement tSelectB] }) ∧
      tStore.get tSelectB.From.value
        = some { columns := [str "a"], columnTypes := [IntType], rows := [] } ∧
      str "b" ∉ [str "a"] ∧
      Select tStore tSelectB = Outcome.ret (Except.ok { Columns := [], Rows := [] }) := by
  decide

/-- C4. When the target table exists and the value list is present with a length
other than the number of columns, `Insert` fails with `ErrMissingValues`; when the
target table is not in the store, it fails with `ErrTableDoesNotExists`. The store is
returned as it was. -/
theorem insert_errors (mb : MemoryBackend) (ins : InsertStatement) :
    (∀ table values, mb.get ins.Table.value = some table → ins.Values = some values →
        values.length ≠ table.columns.length →
        Insert mb ins = Outcome.ret (mb, some ErrMissingValues)) ∧
    (mb.get ins.Table.value = none →
        Insert mb ins = Outcome.ret (mb, some ErrTableDoesNotExists)) := by
  constructor
  · intro table values hg hv hlen
    simp [Insert, hg, hv, hlen]
  · intro hg
    simp [Insert, hg]

/-- C4, at `INSERT INTO users VALUES (1)` on the two-column table `users`, and at
`INSERT INTO t VALUES (1)` on a store without a table `t`. -/
theorem insert_errors_witness :
    Insert usersStore usersInsertShort = Outcome.ret (usersStore, some ErrMissingValues) ∧
      Insert usersStore tInsertOne = Outcome.ret (usersStore, some ErrTableDoesNotExists) :=
  ⟨(insert_errors usersStore usersInsertShort).1 usersTable
      [lit (tk "1" integerKind 26)] (by decide) rfl (by decide),
   (insert_errors usersStore tInsertOne).2 (by decide)⟩

/-- C5, the failing input: `Parse` accepts `INSERT INTO t VALUES (1.5)` as the insert
statement `tInsertDecimal`, whose value is the integer-kind token `1.5` made by
`lexNumber`; `tokenToCell` panics on that token, and so does `Insert` on the store
holding the one-column table `t`. -/
theorem insert_decimal_literal_panics :
    Parse (str "INSERT INTO t VALUES (1.5)")
        = Outcome.ret (Except.ok { Statements := [insertStatement tInsertDecimal] }) ∧
      lexNumber (str "INSERT INTO t VALUES (1.5)")
          { location := { line := 0, column := 22 }, pointer := 22 }
        = Outcome.ret (some (tk "1.5" integerKind 22),
            { location := { line := 0, column := 26 }, pointer := 25 }, true) ∧
      CreateTable NewMemoryBackend tCreate = (tStore, none) ∧
      tokenToCell (tk "1.5" integerKind 22) = Outcome.panic ∧
      Insert tStore tInsertDecimal = Outcome.panic := by
  decide

/-- C6. Integer round trip: for an integer-kind token whose text is the decimal digit
string `ds` (one byte `48 + d` per digit) denoting `n` with `0 ≤ n ≤ 2^31 - 1`,
`tokenToCell` returns exactly the four bytes of `n` in big-endian order and `AsInt32`
of that cell returns `n`. -/
theorem integer_round_trip (ds : List Nat) (hds : ∀ d ∈ ds, d < 10) (hne : ds ≠ [])
    (loc : Location) (n : Nat) (hval : n = Nat.ofDigits 10 ds.reverse) (hn : n ≤ 2 ^ 31 - 1) :
    tokenToCell { value := ds.map (fun d => d + 48), kind := integerKind, location := loc }
        = Outcome.ret [n / 2 ^ 24 % 256, n / 2 ^ 16 % 256, n / 2 ^ 8 % 256, n % 256] ∧
      AsInt32 [n / 2 ^ 24 % 256, n / 2 ^ 16 % 256, n / 2 ^ 8 % 256, n % 256]
        = Outcome.ret (Int.ofNat n) := by
  subst hval
  have hlt : Nat.ofDigits 10 ds.reverse < 2 ^ 63 := by omega
  constructor
  · simp only [tokenToCell, if_true, Atoi_digits ds hds hne hlt, toInt32_small _ hn]
    simp only [bigEndianInt32]
    have h1 : ((Int.ofNat (Nat.ofDigits 10 ds.reverse)) % 2 ^ 32).toNat
        = Nat.ofDigits 10 ds.reverse := by
      simp only [Int.ofNat_eq_coe]
      omega
    rw [h1]
    congr 2
    omega
  · simp only [AsInt32]
    have h2 : Nat.ofDigits 10 ds.reverse / 2 ^ 24 % 256 * 2 ^ 24
        + Nat.ofDigits 10 ds.reverse / 2 ^ 16 % 256 * 2 ^ 16
        + Nat.ofDigits 10 ds.reverse / 2 ^ 8 % 256 * 2 ^ 8
        + Nat.ofDigits 10 ds.reverse % 256 = Nat.ofDigits 10 ds.reverse := by
      omega
    rw [h2, toInt32_small _ hn]

/-- C6, at the literal `42`: the cell is `[0, 0, 0, 42]` and `AsInt32` gives 42. -/
theorem integer_round_trip_witness :
    tokenToCell { value := str "42", kind := integerKind, location := { line := 0, column := 0 } }
        = Outcome.ret [0, 0, 0, 42] ∧
      AsInt32 [0, 0, 0, 42] = Outcome.ret 42 :=
  integer_round_trip [4, 2] (by decide) (by decide) { line := 0, column := 0 } 42
    (by decide) (by decide)

/-- C7. For every store, also one that already holds a table of that name with rows,
and every `CreateTable` statement on which `CreateTable` succeeds: the statement has a
column list, the resulting store maps the statement's name to a table with zero rows
whose column names and column types are exactly the column definitions in order
(`int` gives `IntType`, `text` gives `TextType`), and the table under every other
name is unchanged. -/
theorem createTable_success (mb : MemoryBackend) (cts : CreateTableStatement)
    (h : (CreateTable mb cts).2 = none) :
    ∃ cols t, cts.Columns = some cols ∧
      (CreateTable mb cts).1.get cts.Name.value = some t ∧
      t.rows = [] ∧
      t.columns = cols.map (fun c => c.Name.value) ∧
      t.columnTypes.map some = cols.map (fun c => columnTypeOf c.Datatype.value) ∧
      ∀ other, other ≠ cts.Name.value → (CreateTable mb cts).1.get other = mb.get other := by
  unfold CreateTable at h ⊢
  cases hc : cts.Columns with
  | none => simp [hc] at h
  | some cols =>
    simp only [hc] at h ⊢
    refine ⟨cols, _, rfl, get_set_same _ _ _, ?_, ?_, ?_, ?_⟩
    · rw [createTableLoop_rows]
    · simpa using (createTableLoop_success cols _ h).1
    · simpa using (createTableLoop_success cols _ h).2
    · intro other ho
      exact get_set_other _ _ _ _ ho

/-- C7, at `usersCreate` on the store that already holds `users` with one row. -/
theorem createTable_success_witness :
    usersStore.get (str "users") = some usersTable ∧ usersTable.rows.length = 1 ∧
    ∃ cols t, usersCreate.Columns = some cols ∧
      (CreateTable usersStore usersCreate).1.get usersCreate.Name.value = some t ∧
      t.rows = [] ∧
      t.columns = cols.map (fun c => c.Name.value) ∧
      t.columnTypes.map some = cols.map (fun c => columnTypeOf c.Datatype.value) ∧
      ∀ other, other ≠ usersCreate.Name.value →
        (CreateTable usersStore usersCreate).1.get other = usersStore.get other :=
  ⟨by decide, by decide, createTable_success usersStore usersCreate (by decide)⟩

/-- C8, the failing input: `Parse` turns `CREATE TABLE t ()` into the statement
`tCreateNoColumns`, whose column list is present with zero entries; `CreateTable`
returns no error on it and registers a table without columns. -/
theorem createTable_without_columns_succeeds :
    Parse (str "CREATE TABLE t ()")
        = Outcome.ret (Except.ok { Statements := [createStatement tCreateNoColumns] }) ∧
      tCreateNoColumns.Columns = some [] ∧
      CreateTable NewMemoryBackend tCreateNoColumns
        = ({ tables := [(str "t", { columns := [], columnTypes := [], rows := [] })] }, none) := by
  decide

/-- C9. In every store reachable from the empty store by `CreateTable` and `Insert`
calls, successful or failing, whose insert values are all literal-kind expressions,
every row of every table has exactly as many cells as the table has column names. -/
theorem rows_match_columns (mb : MemoryBackend) (h : Reach literalValues mb) :
    ∀ name t, mb.get name = some t → ∀ row ∈ t.rows, row.length = t.columns.length := by
  induction h with
  | empty => intro name t hg; simp [NewMemoryBackend, MemoryBackend.get] at hg
  | create mb cts _ ih =>
    intro name t hg row hrow
    by_cases hn : name = cts.Name.value
    · subst hn
      unfold CreateTable at hg
      cases hc : cts.Columns with
      | none =>
        simp only [hc, get_set_same, Option.some.injEq] at hg
        subst hg
        simp at hrow
      | some cols =>
        simp only [hc, get_set_same, Option.some.injEq] at hg
        subst hg
        rw [createTableLoop_rows] at hrow
        simp at hrow
    · rw [CreateTable_get_other _ _ _ hn] at hg
      exact ih name t hg row hrow
  | insert mb mb1 ins err _ hok hins ih =>
    intro name t hg row hrow
    rcases Insert_cases mb mb1 ins err hins with
      ⟨h1, _⟩ | ⟨table, values, newRow, hget, hv, hlen, hl, _, h1⟩
    · subst h1; exact ih name t hg row hrow
    · subst h1
      by_cases hn : name = ins.Table.value
      · subst hn
        rw [get_set_same] at hg
        simp only [Option.some.injEq] at hg
        subst hg
        simp only [List.mem_append, List.mem_singleton] at hrow
        rcases hrow with hrow | hrow
        · exact ih _ table hget row hrow
        · subst hrow
          obtain ⟨cells, hrow, hall⟩ := insertLoop_literal values [] _ (hok values hv) hl
          rw [hrow, List.nil_append, ← hlen, hall.length_eq]
      · rw [get_set_other _ _ _ _ hn] at hg
        exact ih name t hg row hrow

/-- C9, at the store reached by `usersCreate` and `usersInsert`: the row of `users`
has two cells, as many as the table has column names. -/
theorem rows_match_columns_witness :
    Reach literalValues usersStore ∧ usersStore.get (str "users") = some usersTable ∧
      usersTable.rows = [[[0, 0, 0, 1], str "Alice"]] ∧
      ([[0, 0, 0, 1], str "Alice"] : List MemoryCell).length = usersTable.columns.length :=
  ⟨usersStore_reachable, by decide, by decide,
   rows_match_columns usersStore usersStore_reachable (str "users") usersTable (by decide)
     [[0, 0, 0, 1], str "Alice"] (by decide)⟩

/-- C10, the failing input: `CREATE TABLE t (a table)` parses to `tCreateBadType`;
`CreateTable` on the empty store fails with `ErrInvalidDatatype` after it has stored
the table and appended the column name, so the reachable store holds `t` with one
column name and no column type. `INSERT INTO t VALUES (1)` then succeeds, and the
read of `columnTypes` in `SELECT a FROM t` is out of range: `Select` panics. -/
theorem failed_createTable_misaligns_columnTypes :
    Parse (str "CREATE TABLE t (a table)")
        = Outcome.ret (Except.ok { Statements := [createStatement tCreateBadType] }) ∧
      CreateTable NewMemoryBackend tCreateBadType
        = ({ tables := [(str "t", tMisaligned)] }, some ErrInvalidDatatype) ∧
      Reach anyInsert { tables := [(str "t", tMisaligned)] } ∧
      tMisaligned.columns.length = 1 ∧ tMisaligned.columnTypes.length = 0 ∧
      Insert { tables := [(str "t", tMisaligned)] } tInsertOne
        = Outcome.ret ({ tables := [(str "t", { tMisaligned with rows := [[[0, 0, 0, 1]]] })] },
            none) ∧
      Select { tables := [(str "t", { tMisaligned with rows := [[[0, 0, 0, 1]]] })] } tSelectA
        = Outcome.panic :=
  ⟨by decide, by decide, Reach.create NewMemoryBackend tCreateBadType Reach.empty,
   by decide, by decide, by decide, by decide⟩

/-! ## Lemmas on `longestMatch` -/

theorem slice_zero (o : Bytes) (n : Nat) (h : n ≤ o.length) : slice o 0 n = some (o.take n) := by
  simp [slice, h]

theorem keep_iff_properPre (V o : Bytes) (n : Nat) (hne : o ≠ V) (hn : n ≤ o.length)
    (hascii : ∀ b ∈ o, b < 128) (hlen : (∀ b ∈ V, b < 128) → V.length = n) :
    ((decide (V.length > o.length) || !decide (V = o.take n)) = false) ↔ properPre V o := by
  simp only [Bool.or_eq_false_iff, decide_eq_false_iff_not, Bool.not_eq_false',
    decide_eq_true_eq, properPre]
  constructor
  · rintro ⟨_, h2⟩
    refine ⟨?_, fun h => hne h.symm⟩
    rw [h2]
    exact List.take_prefix _ _
  · rintro ⟨h1, _⟩
    have hV : ∀ b ∈ V, b < 128 := fun b hb => hascii b (h1.subset hb)
    have hl := hlen hV
    refine ⟨by have := h1.length_le; omega, ?_⟩
    rw [← hl]
    exact List.prefix_iff_eq_take.mp h1

theorem longestMatchInner_spec (V : Bytes) (n : Nat)
    (hlen : (∀ b ∈ V, b < 128) → V.length = n) :
    ∀ (rest : List Bytes) (i : Nat) (S : List Nat) (M : Bytes),
      (∀ o ∈ rest, ∀ b ∈ o, b < 128) →
      (∀ idx o, rest[idx]? = some o → i + idx ∉ S → n ≤ o.length) →
      ∃ S1 M1, longestMatchInner V n rest i S M = Outcome.ret (S1, M1) ∧
        (∀ j, j ∈ S1 ↔ j ∈ S ∨ ∃ idx o, j = i + idx ∧ rest[idx]? = some o ∧ ¬ properPre V o) ∧
        (S.Nodup → S1.Nodup) ∧
        (M1 = M ∨ (M1 = V ∧ V ∈ rest ∧ M.length < V.length)) ∧
        ((∃ idx, rest[idx]? = some V ∧ i + idx ∉ S) → M.length < V.length → M1 = V) := by
  intro rest
  induction rest with
  | nil =>
    intro i S M _ _
    refine ⟨S, M, rfl, ?_, id, Or.inl rfl, ?_⟩
    · intro j; simp
    · rintro ⟨idx, h, _⟩; simp at h
  | cons o rest ih =>
    intro i S M hascii hpre
    have hascii' : ∀ o' ∈ rest, ∀ b ∈ o', b < 128 :=
      fun o' ho' => hascii o' (List.mem_cons_of_mem _ ho')
    have hao : ∀ b ∈ o, b < 128 := hascii o (List.mem_cons_self _ _)
    -- membership bookkeeping shared by the three branches
    have shift : ∀ (S' : List Nat) (j : Nat),
        (∃ idx o', j = i + 1 + idx ∧ rest[idx]? = some o' ∧ ¬ properPre V o') ↔
        (∃ idx o', j = i + (idx + 1) ∧ (o :: rest)[idx + 1]? = some o' ∧ ¬ properPre V o') := by
      intro _ j
      constructor
      · rintro ⟨idx, o', h1, h2, h3⟩
        exact ⟨idx, o', by omega, by simpa using h2, h3⟩
      · rintro ⟨idx, o', h1, h2, h3⟩
        exact ⟨idx, o', by omega, by simpa using h2, h3⟩
    have split : ∀ (j : Nat),
        (∃ idx o', j = i + idx ∧ (o :: rest)[idx]? = some o' ∧ ¬ properPre V o') ↔
        ((j = i ∧ ¬ properPre V o) ∨
          ∃ idx o', j = i + 1 + idx ∧ rest[idx]? = some o' ∧ ¬ properPre V o') := by
      intro j
      constructor
      · rintro ⟨idx, o', h1, h2, h3⟩
        cases idx with
        | zero =>
          simp only [List.getElem?_cons_zero, Option.some.injEq] at h2
          subst h2
          exact Or.inl ⟨by omega, h3⟩
        | succ k =>
          exact Or.inr ⟨k, o', by omega, by simpa using h2, h3⟩
      · rintro (⟨h1, h2⟩ | ⟨idx, o', h1, h2, h3⟩)
        · exact ⟨0, o, by omega, by simp, h2⟩
        · exact ⟨idx + 1, o', by omega, by simpa using h2, h3⟩
    by_cases hi : i ∈ S
    · -- already skipped
      have hpre' : ∀ idx o', rest[idx]? = some o' → i + 1 + idx ∉ S → n ≤ o'.length := by
        intro idx o' h1 h2
        exact hpre (idx + 1) o' (by simpa using h1) (by rwa [show i + (idx + 1) = i + 1 + idx by omega])
      obtain ⟨S1, M1, hrun, hmem, hnd, hM, hM2⟩ := ih (i + 1) S M hascii' hpre'
      refine ⟨S1, M1, ?_, ?_, hnd, ?_, ?_⟩
      · simp only [longestMatchInner, hi, if_true]; exact hrun
      · intro j
        rw [hmem j, split j]
        constructor
        · rintro (h | h)
          · exact Or.inl h
          · exact Or.inr (Or.inr h)
        · rintro (h | ⟨h1, _⟩ | h)
          · exact Or.inl h
          · exact Or.inl (h1 ▸ hi)
          · exact Or.inr h
      · rcases hM with h | ⟨h1, h2, h3⟩
        · exact Or.inl h
        · exact Or.inr ⟨h1, List.mem_cons_of_mem _ h2, h3⟩
      · rintro ⟨idx, h1, h2⟩ hlt
        cases idx with
        | zero => exact absurd hi (by simpa using h2)
        | succ k =>
          exact hM2 ⟨k, by simpa using h1, by rwa [show i + (k + 1) = i + 1 + k by omega] at h2⟩ hlt
    · by_cases hov : o = V
      · -- the option is the value: it is skipped and becomes the match if longer
        have hpre' : ∀ idx o', rest[idx]? = some o' → i + 1 + idx ∉ S ++ [i] → n ≤ o'.length := by
          intro idx o' h1 h2
          refine hpre (idx + 1) o' (by simpa using h1) ?_
          rw [show i + (idx + 1) = i + 1 + idx by omega]
          intro h
          exact h2 (List.mem_append_left _ h)
        obtain ⟨S1, M1, hrun, hmem, hnd, hM, hM2⟩ :=
          ih (i + 1) (S ++ [i]) (if o.length > M.length then o else M) hascii' hpre'
        refine ⟨S1, M1, ?_, ?_, ?_, ?_, ?_⟩
        · simp only [longestMatchInner, hi, if_false, hov, if_true]
          rw [hov] at hrun
          exact hrun
        · intro j
          rw [hmem j, split j]
          have hnp : ¬ properPre V o := fun h => h.2 hov.symm
          simp only [List.mem_append, List.mem_singleton]
          constructor
          · rintro ((h | h) | h)
            · exact Or.inl h
            · exact Or.inr (Or.inl ⟨h, hnp⟩)
            · exact Or.inr (Or.inr h)
          · rintro (h | ⟨h, _⟩ | h)
            · exact Or.inl (Or.inl h)
            · exact Or.inl (Or.inr h)
            · exact Or.inr h
        · intro hS
          apply hnd
          rw [List.nodup_append]
          refine ⟨hS, List.nodup_singleton _, ?_⟩
          intro a ha hb
          simp only [List.mem_singleton] at hb
          exact hi (hb ▸ ha)
        · subst hov
          by_cases hlt : o.length > M.length
          · simp only [hlt, if_true] at hM hM2
            rcases hM with h | ⟨h1, _, h3⟩
            · exact Or.inr ⟨h, List.mem_cons_self _ _, hlt⟩
            · exact absurd h3 (Nat.lt_irrefl _)
          · simp only [hlt, if_false] at hM hM2
            rcases hM with h | ⟨h1, h2, h3⟩
            · exact Or.inl h
            · exact h3.elim
        · rintro _ hlt
          subst hov
          simp only [gt_iff_lt, hlt, if_true] at hM
          rcases hM with h | ⟨h1, _, _⟩
          · exact h
          · exact h1
      · -- compare with the slice
        have hn : n ≤ o.length := hpre 0 o (by simp) (by simpa using hi)
        have hkeep := keep_iff_properPre V o n hov hn hao hlen
        by_cases hk : (decide (V.length > o.length) || !decide (V = o.take n)) = true
        · have hnp : ¬ properPre V o := by
            intro h
            have := hkeep.mpr h
            rw [hk] at this
            exact absurd this (by simp)
          have hpre' : ∀ idx o', rest[idx]? = some o' → i + 1 + idx ∉ S ++ [i] →
              n ≤ o'.length := by
            intro idx o' h1 h2
            refine hpre (idx + 1) o' (by simpa using h1) ?_
            rw [show i + (idx + 1) = i + 1 + idx by omega]
            intro h
            exact h2 (List.mem_append_left _ h)
          obtain ⟨S1, M1, hrun, hmem, hnd, hM, hM2⟩ := ih (i + 1) (S ++ [i]) M hascii' hpre'
          refine ⟨S1, M1, ?_, ?_, ?_, ?_, ?_⟩
          · simp only [longestMatchInner, hi, if_false, hov, slice_zero o n hn]
            rw [if_pos hk]
            exact hrun
          · intro j
            rw [hmem j, split j]
            simp only [List.mem_append, List.mem_singleton]
            constructor
            · rintro ((h | h) | h)
              · exact Or.inl h
              · exact Or.inr (Or.inl ⟨h, hnp⟩)
              · exact Or.inr (Or.inr h)
            · rintro (h | ⟨h, _⟩ | h)
              · exact Or.inl (Or.inl h)
              · exact Or.inl (Or.inr h)
              · exact Or.inr h
          · intro hS
            apply hnd
            rw [List.nodup_append]
            refine ⟨hS, List.nodup_singleton _, ?_⟩
            intro a ha hb
            simp only [List.mem_singleton] at hb
            exact hi (hb ▸ ha)
          · rcases hM with h | ⟨h1, h2, h3⟩
            · exact Or.inl h
            · exact Or.inr ⟨h1, List.mem_cons_of_mem _ h2, h3⟩
          · rintro ⟨idx, h1, h2⟩ hlt
            cases idx with
            | zero =>
              simp only [List.getElem?_cons_zero, Option.some.injEq] at h1
              exact absurd h1 hov
            | succ k =>
              refine hM2 ⟨k, by simpa using h1, ?_⟩ hlt
              rw [show i + (k + 1) = i + 1 + k by omega] at h2
              simp only [List.mem_append, List.mem_singleton, not_or]
              exact ⟨h2, by omega⟩
        · have hk' : (decide (V.length > o.length) || !decide (V = o.take n)) = false := by
            simpa using hk
          have hp : properPre V o := hkeep.mp hk'
          have hpre' : ∀ idx o', rest[idx]? = some o' → i + 1 + idx ∉ S → n ≤ o'.length := by
            intro idx o' h1 h2
            exact hpre (idx + 1) o' (by simpa using h1)
              (by rwa [show i + (idx + 1) = i + 1 + idx by omega])
          obtain ⟨S1, M1, hrun, hmem, hnd, hM, hM2⟩ := ih (i + 1) S M hascii' hpre'
          refine ⟨S1, M1, ?_, ?_, hnd, ?_, ?_⟩
          · simp only [longestMatchInner, hi, if_false, hov, slice_zero o n hn]
            rw [if_neg hk]
            exact hrun
          · intro j
            rw [hmem j, split j]
            constructor
            · rintro (h | h)
              · exact Or.inl h
              · exact Or.inr (Or.inr h)
            · rintro (h | ⟨_, h2⟩ | h)
              · exact Or.inl h
              · exact absurd hp h2
              · exact Or.inr h
          · rcases hM with h | ⟨h1, h2, h3⟩
            · exact Or.inl h
            · exact Or.inr ⟨h1, List.mem_cons_of_mem _ h2, h3⟩
          · rintro ⟨idx, h1, h2⟩ hlt
            cases idx with
            | zero =>
              simp only [List.getElem?_cons_zero, Option.some.injEq] at h1
              exact absurd h1 hov
            | succ k =>
              exact hM2 ⟨k, by simpa using h1,
                by rwa [show i + (k + 1) = i + 1 + k by omega] at h2⟩ hlt

theorem toLowerByteString_ascii (b : Nat) (hb : b < 128) :
    toLowerByteString b = [if 65 ≤ b ∧ b ≤ 90 then b + 32 else b] := by
  unfold toLowerByteString toLowerRune utf8EncodeRune
  by_cases h : 65 ≤ b ∧ b ≤ 90
  · have : b + 32 < 128 := by omega
    simp [h, this]
  · have h2 : ¬ (192 ≤ b ∧ b ≤ 222 ∧ b ≠ 215) := by omega
    simp [h, h2, hb]

theorem toLowerByteString_head (b : Nat) :
    ∃ x xs, toLowerByteString b = x :: xs ∧ (x < 128 → b < 128 ∧ xs = []) := by
  by_cases hb : b < 128
  · exact ⟨_, [], toLowerByteString_ascii b hb, fun _ => ⟨hb, rfl⟩⟩
  · have hr : ¬ toLowerRune b < 128 := by
      unfold toLowerRune
      split
      · omega
      · split <;> omega
    unfold toLowerByteString utf8EncodeRune
    have hr' : ¬ toLowerRune b < 0x80 := hr
    simp only [hr', if_false]
    split
    · exact ⟨_, _, rfl, fun h => by omega⟩
    · split
      · exact ⟨_, _, rfl, fun h => by omega⟩
      · exact ⟨_, _, rfl, fun h => by omega⟩

theorem mem_of_nodup_length (l : List Nat) (n : Nat) (hnd : l.Nodup) (hlt : ∀ x ∈ l, x < n)
    (hlen : l.length = n) (j : Nat) (hj : j < n) : j ∈ l := by
  have hsub : l ⊆ List.range n := fun x hx => List.mem_range.mpr (hlt x hx)
  have hperm : l.Perm (List.range n) :=
    (List.subperm_of_subset hnd hsub).perm_of_length_le (by simp [hlen])
  exact hperm.mem_iff.mpr (List.mem_range.mpr hj)

theorem longestMatchLoop_spec (source : Bytes) (ic : cursor) (opts : List Bytes)
    (hascii : ∀ o ∈ opts, ∀ b ∈ o, b < 128) :
    ∀ (fuel pointer : Nat) (V : Bytes) (S : List Nat) (M : Bytes),
      source.length - pointer < fuel → ic.pointer ≤ pointer →
      S.Nodup → (∀ j ∈ S, j < opts.length) →
      (∀ j o, opts[j]? = some o → (j ∉ S ↔ properPre V o)) →
      ((∀ b ∈ V, b < 128) → V.length = pointer - ic.pointer) →
      V ++ (source.drop pointer).flatMap toLowerByteString
        = (source.drop ic.pointer).flatMap toLowerByteString →
      (M = [] ∨ M ∈ opts) → M <+: V → (∀ o ∈ opts, o <+: V → o.length ≤ M.length) →
      ∃ m, longestMatchLoop source ic opts fuel pointer V S M = Outcome.ret m ∧
        (m = [] ∨ m ∈ opts) ∧
        m <+: (source.drop ic.pointer).flatMap toLowerByteString ∧
        ∀ o ∈ opts, o <+: (source.drop ic.pointer).flatMap toLowerByteString →
          o.length ≤ m.length := by
  intro fuel
  induction fuel with
  | zero => intro pointer V S M h; omega
  | succ f ih =>
    intro pointer V S M hfuel hp hnd hbound halive hlen htext hM1 hM2 hM3
    by_cases hlt : pointer < source.length
    · have hget : source[pointer]? = some source[pointer] := List.getElem?_eq_getElem hlt
      have hdrop : source.drop pointer = source[pointer] :: source.drop (pointer + 1) :=
        List.drop_eq_getElem_cons hlt
      obtain ⟨x, xs, hchunk, hx⟩ := toLowerByteString_head source[pointer]
      -- the new value
      have hV1len : (∀ b ∈ V ++ toLowerByteString source[pointer], b < 128) →
          (V ++ toLowerByteString source[pointer]).length = pointer + 1 - ic.pointer := by
        intro h
        have hV : ∀ b ∈ V, b < 128 := fun b hb => h b (List.mem_append_left _ hb)
        have hx128 : x < 128 := h x (List.mem_append_right _ (by rw [hchunk]; simp))
        have := (hx hx128).2
        rw [List.length_append, hlen hV, hchunk, this]
        simp only [List.length_singleton]
        omega
      have htext1 : (V ++ toLowerByteString source[pointer])
            ++ (source.drop (pointer + 1)).flatMap toLowerByteString
          = (source.drop ic.pointer).flatMap toLowerByteString := by
        rw [← htext, List.append_assoc]
        congr 1
        conv_rhs => rw [hdrop]
        rw [List.flatMap_cons]
      have hpreI : ∀ idx o, opts[idx]? = some o → 0 + idx ∉ S → pointer + 1 - ic.pointer ≤ o.length := by
        intro idx o ho hidx
        rw [Nat.zero_add] at hidx
        have hpp := (halive idx o ho).mp hidx
        have hVo : ∀ b ∈ V, b < 128 :=
          fun b hb => hascii o (List.getElem?_mem ho) b (hpp.1.subset hb)
        have h1 := hlen hVo
        have h2 : V.length < o.length := by
          rcases Nat.lt_or_ge V.length o.length with h | h
          · exact h
          · exact absurd (List.IsPrefix.eq_of_length_le hpp.1 h) hpp.2
        omega
      obtain ⟨S1, M1, hrun, hmem, hnd1, hMa, hMb⟩ :=
        longestMatchInner_spec (V ++ toLowerByteString source[pointer]) (pointer + 1 - ic.pointer)
          hV1len opts 0 S M hascii hpreI
      have hVV1 : V <+: V ++ toLowerByteString source[pointer] := List.prefix_append _ _
      have hVlt : V.length < (V ++ toLowerByteString source[pointer]).length := by
        rw [List.length_append, hchunk]; simp
      -- candidates after the step
      have halive1 : ∀ j o, opts[j]? = some o →
          (j ∉ S1 ↔ properPre (V ++ toLowerByteString source[pointer]) o) := by
        intro j o ho
        rw [hmem j]
        constructor
        · intro h
          by_contra hnp
          exact h (Or.inr ⟨j, o, by omega, ho, hnp⟩)
        · intro hpp
          rintro (h | ⟨idx, o', h1, h2, h3⟩)
          · have : properPre V o := by
              refine ⟨hVV1.trans hpp.1, ?_⟩
              intro heq
              have := hpp.1.length_le
              rw [← heq] at this
              omega
            exact ((halive j o ho).mpr this) h
          · have : idx = j := by omega
            subst this
            rw [ho] at h2
            exact h3 ((Option.some.inj h2) ▸ hpp)
      have hbound1 : ∀ j ∈ S1, j < opts.length := by
        intro j hj
        rcases (hmem j).mp hj with h | ⟨idx, o', h1, h2, _⟩
        · exact hbound j h
        · have := (List.getElem?_eq_some_iff.mp h2).1
          omega
      have hM1' : M1 = [] ∨ M1 ∈ opts := by
        rcases hMa with h | ⟨h1, h2, _⟩
        · rw [h]; exact hM1
        · rw [h1]; exact Or.inr h2
      have hM2' : M1 <+: V ++ toLowerByteString source[pointer] := by
        rcases hMa with h | ⟨h1, _, _⟩
        · rw [h]; exact hM2.trans hVV1
        · rw [h1]
      have hMlen : M.length ≤ M1.length := by
        rcases hMa with h | ⟨h1, _, h3⟩
        · rw [h]
        · rw [h1]; omega
      have hM3' : ∀ o ∈ opts, o <+: V ++ toLowerByteString source[pointer] →
          o.length ≤ M1.length := by
        intro o ho hpre
        obtain ⟨j, hj⟩ := List.mem_iff_getElem?.mp ho
        by_cases hjS : j ∈ S
        · -- not a candidate before the step: a prefix of the old value
          have hnp : ¬ properPre V o := fun h => ((halive j o hj).mpr h) hjS
          have hoV : o <+: V := by
            rcases List.prefix_or_prefix_of_prefix hpre hVV1 with h | h
            · exact h
            · by_cases heq : V = o
              · rw [heq]
              · exact absurd ⟨h, heq⟩ hnp
          exact le_trans (hM3 o ho hoV) hMlen
        · -- a candidate: it is the new value
          have hpp := (halive j o hj).mp hjS
          have hVo : V.length < o.length := by
            rcases Nat.lt_or_ge V.length o.length with h | h
            · exact h
            · exact absurd (List.IsPrefix.eq_of_length_le hpp.1 h) hpp.2
          have hx128 : x < 128 := by
            have hox : o[V.length] = x := by
              rw [List.IsPrefix.getElem hpre hVo]
              have key : ∀ (l : Bytes) (h : V.length < (V ++ l).length), l = x :: xs →
                  (V ++ l)[V.length] = x := by
                intro l h hl
                subst hl
                rw [List.getElem_append_right (le_refl _)]
                simp
              exact key _ _ hchunk
            exact hascii o ho x (hox ▸ List.getElem_mem hVo)
          have hxs := (hx hx128).2
          have hoeq : o = V ++ toLowerByteString source[pointer] := by
            apply List.IsPrefix.eq_of_length_le hpre
            rw [List.length_append, hchunk, hxs]
            simp only [List.length_singleton]
            omega
          have hMV : M.length < (V ++ toLowerByteString source[pointer]).length :=
            lt_of_le_of_lt hM2.length_le hVlt
          have := hMb ⟨j, by rw [hj, hoeq], by simpa using hjS⟩ hMV
          rw [this, hoeq]
      simp only [longestMatchLoop, hlt, if_true, hget, hrun]
      by_cases hall : S1.length = opts.length
      · simp only [hall, if_true]
        refine ⟨M1, rfl, hM1', ?_, ?_⟩
        · rw [← htext1]; exact hM2'.trans (List.prefix_append _ _)
        · intro o ho hpre
          obtain ⟨j, hj⟩ := List.mem_iff_getElem?.mp ho
          have hjlt : j < opts.length := (List.getElem?_eq_some_iff.mp hj).1
          have hjS1 : j ∈ S1 := mem_of_nodup_length S1 _ (hnd1 hnd) hbound1 hall j hjlt
          have hnp : ¬ properPre (V ++ toLowerByteString source[pointer]) o :=
            fun h => ((halive1 j o hj).mpr h) hjS1
          have hV1T : V ++ toLowerByteString source[pointer]
              <+: (source.drop ic.pointer).flatMap toLowerByteString := by
            rw [← htext1]; exact List.prefix_append _ _
          have : o <+: V ++ toLowerByteString source[pointer] := by
            rcases List.prefix_or_prefix_of_prefix hpre hV1T with h | h
            · exact h
            · by_cases heq : V ++ toLowerByteString source[pointer] = o
              · rw [heq]
              · exact absurd ⟨h, heq⟩ hnp
          exact hM3' o ho this
      · simp only [hall, if_false]
        exact ih (pointer + 1) _ S1 M1 (by omega) (by omega) (hnd1 hnd) hbound1 halive1 hV1len
          htext1 hM1' hM2' hM3'
    · refine ⟨M, by simp [longestMatchLoop, hlt], hM1, ?_, ?_⟩
      · rw [← htext]; exact hM2.trans (List.prefix_append _ _)
      · intro o ho hpre
        have hd : source.drop pointer = [] := List.drop_eq_nil_of_le (by omega)
        rw [← htext, hd] at hpre
        simp only [List.flatMap_nil, List.append_nil] at hpre
        exact hM3 o ho hpre

theorem longestMatch_spec (source : Bytes) (ic : cursor) (opts : List Bytes)
    (hascii : ∀ o ∈ opts, ∀ b ∈ o, b < 128) (hne : ∀ o ∈ opts, o ≠ []) :
    ∃ m, longestMatch source ic opts = Outcome.ret m ∧
      (m = [] ∨ m ∈ opts) ∧
      m <+: (source.drop ic.pointer).flatMap toLowerByteString ∧
      ∀ o ∈ opts, o <+: (source.drop ic.pointer).flatMap toLowerByteString →
        o.length ≤ m.length := by
  unfold longestMatch
  apply longestMatchLoop_spec source ic opts hascii
  · omega
  · exact le_refl _
  · exact List.nodup_nil
  · intro j hj; simp at hj
  · intro j o ho
    simp only [List.not_mem_nil, not_false_eq_true, properPre, List.nil_prefix, true_and, true_iff]
    exact fun h => hne o (List.getElem?_mem ho) h.symm
  · intro _; simp
  · simp
  · exact Or.inl rfl
  · exact List.prefix_refl _
  · intro o ho hpre
    exact absurd (List.prefix_nil.mp hpre) (hne o ho)

theorem prefix_lowered (o : Bytes) (hascii : ∀ b ∈ o, b < 128) (xs : Bytes) :
    o <+: xs.flatMap toLowerByteString ↔ o <+: asciiToLower xs := by
  induction xs generalizing o with
  | nil => simp [asciiToLower]
  | cons b rest ih =>
    cases o with
    | nil => simp
    | cons c o' =>
      have hc : c < 128 := hascii c (List.mem_cons_self _ _)
      have ho' : ∀ x ∈ o', x < 128 := fun x hx => hascii x (List.mem_cons_of_mem _ hx)
      by_cases hb : b < 128
      · simp only [List.flatMap_cons, toLowerByteString_ascii b hb, List.singleton_append,
          asciiToLower, List.map_cons, List.cons_prefix_cons]
        rw [ih o' ho']
        simp [asciiToLower]
      · obtain ⟨x, xs', hchunk, hx⟩ := toLowerByteString_head b
        have hx128 : ¬ x < 128 := fun h => hb (hx h).1
        have hb65 : ¬ (65 ≤ b ∧ b ≤ 90) := by omega
        simp only [List.flatMap_cons, hchunk, List.cons_append, asciiToLower, List.map_cons,
          List.cons_prefix_cons, hb65, if_false]
        constructor
        · rintro ⟨h, _⟩; omega
        · rintro ⟨h, _⟩; omega

theorem keywords_ascii : ∀ o ∈ keywords, ∀ b ∈ o, b < 128 := by decide

theorem keywords_nonempty : ∀ o ∈ keywords, o ≠ [] := by decide

theorem symbols_ascii : ∀ o ∈ symbols, ∀ b ∈ o, b < 128 := by decide

theorem symbols_nonempty : ∀ o ∈ symbols, o ≠ [] := by decide

theorem longestMatch_ascii (source : Bytes) (ic : cursor) (opts : List Bytes)
    (hascii : ∀ o ∈ opts, ∀ b ∈ o, b < 128) (hne : ∀ o ∈ opts, o ≠ []) :
    ∃ m, longestMatch source ic opts = Outcome.ret m ∧
      (m = [] ∨ m ∈ opts) ∧
      m <+: asciiToLower (source.drop ic.pointer) ∧
      ∀ o ∈ opts, o <+: asciiToLower (source.drop ic.pointer) → o.length ≤ m.length := by
  obtain ⟨m, h1, h2, h3, h4⟩ := longestMatch_spec source ic opts hascii hne
  have hm : ∀ b ∈ m, b < 128 := by
    rcases h2 with h | h
    · rw [h]; simp
    · exact hascii m h
  refine ⟨m, h1, h2, (prefix_lowered m hm _).mp h3, ?_⟩
  intro o ho hpre
  exact h4 o ho ((prefix_lowered o (hascii o ho) _).mpr hpre)

/-! ## Lemmas on the sub-lexers at a bare word -/

theorem lexIdentifierLoop_all (source : Bytes) :
    ∀ (fuel : Nat) (cur : cursor) (value : Bytes),
      source.length - cur.pointer < fuel →
      (∀ b ∈ source.drop cur.pointer, isIdentByte b = true) →
      lexIdentifierLoop source fuel cur value
        = Outcome.ret
            ({ location := { cur.location with
                             column := cur.location.column + (source.length - cur.pointer) },
               pointer := cur.pointer + (source.length - cur.pointer) },
             value ++ source.drop cur.pointer) := by
  intro fuel
  induction fuel with
  | zero => intro cur value h; omega
  | succ f ih =>
    intro cur value hfuel hall
    by_cases hlt : cur.pointer < source.length
    · have hget : source[cur.pointer]? = some source[cur.pointer] := List.getElem?_eq_getElem hlt
      have hdrop : source.drop cur.pointer
          = source[cur.pointer] :: source.drop (cur.pointer + 1) := List.drop_eq_getElem_cons hlt
      have hb : isIdentByte source[cur.pointer] = true :=
        hall _ (by rw [hdrop]; exact List.mem_cons_self _ _)
      have hall' : ∀ b ∈ source.drop (cur.pointer + 1), isIdentByte b = true :=
        fun b hb' => hall b (by rw [hdrop]; exact List.mem_cons_of_mem _ hb')
      have hb' : (isAlpha source[cur.pointer]
          || (decide (48 ≤ source[cur.pointer]) && decide (source[cur.pointer] ≤ 57))
          || decide (source[cur.pointer] = 95) || decide (source[cur.pointer] = 36)) = true := hb
      simp only [lexIdentifierLoop, hlt, if_true, hget, hb']
      rw [ih _ _ (by simp only; omega) hall']
      simp only [List.append_assoc, List.singleton_append, Outcome.ret.injEq, Prod.mk.injEq,
        cursor.mk.injEq, Location.mk.injEq, true_and]
      refine ⟨⟨by omega, by omega⟩, ?_⟩
      conv_rhs => rw [hdrop]
    · have hd : source.drop cur.pointer = [] := List.drop_eq_nil_of_le (by omega)
      have h0 : source.length - cur.pointer = 0 := by omega
      simp [lexIdentifierLoop, hlt, hd, h0]

theorem symbols_eq : symbols = [[44], [59], [42], [40], [41]] := by decide

theorem isAlpha_range (c : Nat) (h : isAlpha c = true) :
    (65 ≤ c ∧ c ≤ 90) ∨ (97 ≤ c ∧ c ≤ 122) := by
  simpa [isAlpha] using h

theorem lexKeyword_none (source : Bytes)
    (hno : ∀ k ∈ keywords, ¬ k <+: asciiToLower source) :
    lexKeyword source startCursor = Outcome.ret (none, startCursor, false) := by
  obtain ⟨m, h1, h2, h3, _⟩ :=
    longestMatch_ascii source startCursor keywords keywords_ascii keywords_nonempty
  have hm : m = [] := by
    rcases h2 with h | h
    · exact h
    · exact absurd (by simpa [startCursor] using h3) (hno m h)
  simp [lexKeyword, h1, hm]

theorem lexKeyword_whole (source : Bytes) (hne : source ≠ [])
    (hkw : asciiToLower source ∈ keywords) :
    lexKeyword source startCursor
      = Outcome.ret
          (some { value := asciiToLower source, kind := keywordKind,
                  location := { line := 0, column := 0 } },
           { location := { line := 0, column := source.length }, pointer := source.length },
           true) := by
  obtain ⟨m, h1, _, h3, h4⟩ :=
    longestMatch_ascii source startCursor keywords keywords_ascii keywords_nonempty
  have h3' : m <+: asciiToLower source := by simpa [startCursor] using h3
  have hlen : (asciiToLower source).length ≤ m.length :=
    h4 _ hkw (by simp [startCursor])
  have hm : m = asciiToLower source := h3'.eq_of_length_le hlen
  have hl : (asciiToLower source).length = source.length := by simp [asciiToLower]
  have hmne : ¬ m = [] := by
    rw [hm]
    intro h
    have := congrArg List.length h
    rw [hl] at this
    exact hne (List.length_eq_zero.mp this)
  simp only [lexKeyword, h1, hmne, if_false]
  rw [hm, hl]
  simp [startCursor]

theorem lexSymbol_none (c : Nat) (rest : Bytes) (hc : isAlpha c = true) :
    lexSymbol (c :: rest) startCursor = Outcome.ret (none, startCursor, false) := by
  have hr := isAlpha_range c hc
  obtain ⟨m, h1, h2, h3, _⟩ :=
    longestMatch_ascii (c :: rest) startCursor symbols symbols_ascii symbols_nonempty
  have hm : m = [] := by
    rcases h2 with h | h
    · exact h
    · exfalso
      rw [symbols_eq] at h
      simp only [startCursor, List.drop_zero, asciiToLower, List.map_cons] at h3
      simp only [List.mem_cons, List.mem_singleton, List.not_mem_nil, or_false] at h
      rcases h with h | h | h | h | h <;> subst h <;>
        simp only [List.cons_prefix_cons] at h3 <;> obtain ⟨h3, _⟩ := h3 <;>
        split at h3 <;> omega
  have h10 : ¬ c = 10 := by omega
  have h9 : ¬ (c = 9 ∨ c = 32) := by omega
  simp only [lexSymbol, h1, hm]
  simp [startCursor, h10, h9]

theorem lexCharacterDelimited_none (c d : Nat) (rest : Bytes) (h : c ≠ d) :
    lexCharacterDelimited (c :: rest) startCursor d = Outcome.ret (none, startCursor, false) := by
  simp [lexCharacterDelimited, startCursor, h]

theorem lexNumber_none (c : Nat) (rest : Bytes) (hc : isAlpha c = true) :
    lexNumber (c :: rest) startCursor = Outcome.ret (none, startCursor, false) := by
  have hr := isAlpha_range c hc
  have h1 : (decide (48 ≤ c) && decide (c ≤ 57)) = false := by
    simp only [Bool.and_eq_false_iff, decide_eq_false_iff_not]; omega
  have h2 : decide (c = 46) = false := by
    simp only [decide_eq_false_iff_not]; omega
  simp [lexNumber, lexNumberLoop, startCursor, h1, h2]

theorem lexIdentifier_word (c : Nat) (rest : Bytes) (hc : isAlpha c = true)
    (hrest : ∀ b ∈ rest, isIdentByte b = true) :
    lexIdentifier (c :: rest) startCursor
      = Outcome.ret
          (some { value := asciiToLower (c :: rest), kind := identifierKind,
                  location := { line := 0, column := 0 } },
           { location := { line := 0, column := (c :: rest).length },
             pointer := (c :: rest).length },
           true) := by
  have hr := isAlpha_range c hc
  have h34 : c ≠ 34 := by omega
  have hloop := lexIdentifierLoop_all (c :: rest) ((c :: rest).length + 1)
    { location := { line := 0, column := 1 }, pointer := 1 } [c]
    (by simp only [List.length_cons]; omega) (by simpa using hrest)
  simp only [lexIdentifier, lexCharacterDelimited_none c 34 rest h34]
  simp only [startCursor, List.getElem?_cons_zero, hc, Bool.not_true, Bool.false_eq_true,
    if_false, Nat.zero_add, hloop]
  simp only [List.length_cons, List.drop_succ_cons, List.drop_zero, List.singleton_append,
    Outcome.ret.injEq, Prod.mk.injEq, Option.some.injEq, Token.mk.injEq, cursor.mk.injEq,
    Location.mk.injEq, and_true, true_and]
  omega

/-! ## The claims C12 and C14 -/

/-- C12. For every source string and every cursor, `longestMatch` over the nine
keywords returns a value `m` that is the longest keyword `k` such that the source text
from the cursor on, lower-cased (ASCII case folding, byte by byte), begins with `k`; `m`
is the empty string when no keyword is such a start. In particular tokenizing `into`
yields exactly one token, Keyword `into`. -/
theorem longestMatch_longest_keyword (source : Bytes) (ic : cursor) :
    (∃ m, longestMatch source ic keywords = Outcome.ret m ∧
      (m = [] ∨ m ∈ keywords) ∧
      m <+: asciiToLower (source.drop ic.pointer) ∧
      (∀ k ∈ keywords, k <+: asciiToLower (source.drop ic.pointer) → k.length ≤ m.length) ∧
      ((∀ k ∈ keywords, ¬ k <+: asciiToLower (source.drop ic.pointer)) → m = [])) ∧
    lex (str "into")
      = Outcome.ret (Except.ok [Token.mk (str "into") keywordKind { line := 0, column := 0 }]) := by
  refine ⟨?_, by decide⟩
  obtain ⟨m, h1, h2, h3, h4⟩ :=
    longestMatch_ascii source ic keywords keywords_ascii keywords_nonempty
  refine ⟨m, h1, h2, h3, h4, ?_⟩
  intro hno
  rcases h2 with h | h
  · exact h
  · exact absurd h3 (hno m h)

/-- C12, at the source `x INTO y` with the cursor on the `I`. -/
theorem longestMatch_longest_keyword_witness :
    (∃ m, longestMatch (str "x INTO y") { location := { line := 0, column := 2 }, pointer := 2 }
          keywords = Outcome.ret m ∧
      (m = [] ∨ m ∈ keywords) ∧
      m <+: asciiToLower ((str "x INTO y").drop 2) ∧
      (∀ k ∈ keywords, k <+: asciiToLower ((str "x INTO y").drop 2) → k.length ≤ m.length) ∧
      ((∀ k ∈ keywords, ¬ k <+: asciiToLower ((str "x INTO y").drop 2)) → m = [])) ∧
    lex (str "into")
      = Outcome.ret (Except.ok [Token.mk (str "into") keywordKind { line := 0, column := 0 }]) :=
  longestMatch_longest_keyword (str "x INTO y")
    { location := { line := 0, column := 2 }, pointer := 2 }

/-- C14, as stated, fails: the bare words `integer` and `tables` are each tokenized
into two tokens, the keyword they start with and an identifier for what follows. -/
theorem lex_splits_word_after_keyword :
    isBareWord (str "integer") ∧ isBareWord (str "tables") ∧
      lex (str "integer")
        = Outcome.ret (Except.ok [Token.mk (str "int") keywordKind { line := 0, column := 0 },
            Token.mk (str "eger") identifierKind { line := 0, column := 3 }]) ∧
      lex (str "tables")
        = Outcome.ret (Except.ok [Token.mk (str "table") keywordKind { line := 0, column := 0 },
            Token.mk (str "s") identifierKind { line := 0, column := 5 }]) :=
  ⟨⟨105, str "nteger", by decide, by decide, by decide⟩,
   ⟨116, str "ables", by decide, by decide, by decide⟩, by decide, by decide⟩

/-- C14, amended: for every bare word `[A-Za-z][A-Za-z0-9_$]*`, if its lower-cased form
is one of the nine keywords, tokenizing succeeds with exactly one token, of kind Keyword,
whose value is the lower-cased source; and if no keyword is a start of its lower-cased
form, tokenizing succeeds with exactly one token, of kind Identifier, whose value is the
lower-cased source. -/
theorem lex_bare_word (source : Bytes) (hword : isBareWord source) :
    (asciiToLower source ∈ keywords →
      lex source = Outcome.ret (Except.ok
        [Token.mk (asciiToLower source) keywordKind { line := 0, column := 0 }])) ∧
    ((∀ k ∈ keywords, ¬ k <+: asciiToLower source) →
      lex source = Outcome.ret (Except.ok
        [Token.mk (asciiToLower source) identifierKind { line := 0, column := 0 }])) := by
  obtain ⟨c, rest, hsrc, hc, hrest⟩ := hword
  subst hsrc
  constructor
  · intro hkw
    have h := lexKeyword_whole (c :: rest) (by simp) hkw
    have hs : startCursor = { location := { line := 0, column := 0 }, pointer := 0 } := rfl
    simp only [lex, List.length_cons, lexLoop, Nat.zero_lt_succ, if_true, lexers, lexFirst]
    rw [← hs, h]
    simp [lexLoop]
  · intro hno
    have hs : startCursor = { location := { line := 0, column := 0 }, pointer := 0 } := rfl
    simp only [lex, List.length_cons, lexLoop, Nat.zero_lt_succ, if_true, lexers, lexFirst]
    rw [← hs, lexKeyword_none _ hno, lexSymbol_none c rest hc]
    simp only [lexString, lexCharacterDelimited_none c 39 rest
      (by have := isAlpha_range c hc; omega), lexNumber_none c rest hc,
      lexIdentifier_word c rest hc hrest]
    simp [lexLoop]

/-- C14, amended, at the bare words `INTO` (a keyword) and `Users_1` (no keyword
starts it). -/
theorem lex_bare_word_witness :
    lex (str "INTO")
        = Outcome.ret (Except.ok [Token.mk (str "into") keywordKind { line := 0, column := 0 }]) ∧
      lex (str "Users_1")
        = Outcome.ret (Except.ok
            [Token.mk (str "users_1") identifierKind { line := 0, column := 0 }]) :=
  ⟨(lex_bare_word (str "INTO") ⟨73, str "NTO", by decide, by decide, by decide⟩).1 (by decide),
   (lex_bare_word (str "Users_1") ⟨85, str "sers_1", by decide, by decide, by decide⟩).2
     (by decide)⟩

/-! ## Lemmas on the parser: failure returns the starting cursor -/

theorem helpMessage_bind_fail {α : Type} (tokens : List Token) (cur : Nat) (msg : String)
    (ic c : Nat) (node : Option α)
    (h : (helpMessage tokens cur msg).bind (fun _ => Outcome.ret ((none : Option α), ic, false))
      = Outcome.ret (node, c, false)) : node = none ∧ c = ic := by
  cases hm : helpMessage tokens cur msg with
  | ret u =>
    rw [hm] at h
    simp only [Outcome.bind, Outcome.ret.injEq, Prod.mk.injEq] at h
    exact ⟨h.1.symm, h.2.1.symm⟩
  | panic => rw [hm] at h; simp [Outcome.bind] at h
  | fuel => rw [hm] at h; simp [Outcome.bind] at h

theorem parseToken_fail (tokens : List Token) (ic : Nat) (kind : TokenKind)
    (node : Option Token) (c : Nat) (h : parseToken tokens ic kind = (node, c, false)) :
    node = none ∧ c = ic := by
  unfold parseToken at h
  split at h
  · simp only [Prod.mk.injEq] at h; exact ⟨h.1.symm, h.2.1.symm⟩
  · split at h
    · split at h
      · simp at h
      · simp only [Prod.mk.injEq] at h; exact ⟨h.1.symm, h.2.1.symm⟩
    · simp only [Prod.mk.injEq] at h; exact ⟨h.1.symm, h.2.1.symm⟩

theorem parseTokenAnother_fail (tokens : List Token) (ic : Nat) (t : Token)
    (node : Option Token) (c : Nat) (h : parseTokenAnother tokens ic t = (node, c, false)) :
    node = none ∧ c = ic := by
  unfold parseTokenAnother at h
  split at h
  · simp only [Prod.mk.injEq] at h; exact ⟨h.1.symm, h.2.1.symm⟩
  · split at h
    · split at h
      · simp at h
      · simp only [Prod.mk.injEq] at h; exact ⟨h.1.symm, h.2.1.symm⟩
    · simp only [Prod.mk.injEq] at h; exact ⟨h.1.symm, h.2.1.symm⟩

theorem parseExpressionKinds_fail (tokens : List Token) (ic : Nat) (kinds : List TokenKind)
    (node : Option Expression) (c : Nat)
    (h : parseExpressionKinds tokens ic kinds = (node, c, false)) : node = none ∧ c = ic := by
  induction kinds with
  | nil =>
    simp only [parseExpressionKinds, Prod.mk.injEq] at h; exact ⟨h.1.symm, h.2.1.symm⟩
  | cons k rest ih =>
    unfold parseExpressionKinds at h
    split at h
    · simp at h
    · exact ih h

theorem parseExpression_fail (tokens : List Token) (ic : Nat) (t : Token)
    (node : Option Expression) (c : Nat)
    (h : parseExpression tokens ic t = (node, c, false)) : node = none ∧ c = ic :=
  parseExpressionKinds_fail tokens ic _ node c h

theorem parseExpressionsLoop_fail (tokens : List Token) (ic : Nat) (delimiters : List Token) :
    ∀ (fuel cur : Nat) (exps : List Expression) (node : Option (List Expression)) (c : Nat),
      parseExpressionsLoop tokens ic delimiters fuel cur exps = Outcome.ret (node, c, false) →
      node = none ∧ c = ic := by
  intro fuel
  induction fuel with
  | zero => intro cur exps node c h; simp [parseExpressionsLoop] at h
  | succ n ih =>
    intro cur exps node c h
    unfold parseExpressionsLoop at h
    simp only at h
    repeat' split at h
    all_goals first
      | exact helpMessage_bind_fail _ _ _ _ _ _ h
      | exact ih _ _ _ _ h
      | (simp only [Outcome.ret.injEq, Prod.mk.injEq] at h; exact ⟨h.1.symm, h.2.1.symm⟩)
      | (simp at h)

theorem parseExpressions_fail (tokens : List Token) (ic : Nat) (delimiters : List Token)
    (node : Option (List Expression)) (c : Nat)
    (h : parseExpressions tokens ic delimiters = Outcome.ret (node, c, false)) :
    node = none ∧ c = ic :=
  parseExpressionsLoop_fail tokens ic delimiters _ _ _ node c h

theorem parseSelectStatement_fail (tokens : List Token) (ic : Nat) (delimiter : Token)
    (node : Option SelectStatement) (c : Nat)
    (h : parseSelectStatement tokens ic delimiter = Outcome.ret (node, c, false)) :
    node = none ∧ c = ic := by
  unfold parseSelectStatement at h
  try simp only at h
  repeat' split at h
  all_goals first
    | exact helpMessage_bind_fail _ _ _ _ _ _ h
    | (simp only [Outcome.ret.injEq, Prod.mk.injEq] at h; exact ⟨h.1.symm, h.2.1.symm⟩)
    | (simp at h)

theorem parseInsertStatement_fail (tokens : List Token) (ic : Nat) (delimiter : Token)
    (node : Option InsertStatement) (c : Nat)
    (h : parseInsertStatement tokens ic delimiter = Outcome.ret (node, c, false)) :
    node = none ∧ c = ic := by
  unfold parseInsertStatement at h
  try simp only at h
  repeat' split at h
  all_goals first
    | exact helpMessage_bind_fail _ _ _ _ _ _ h
    | (simp only [Outcome.ret.injEq, Prod.mk.injEq] at h; exact ⟨h.1.symm, h.2.1.symm⟩)
    | (simp at h)

theorem parseColumnDefinitionsLoop_fail (tokens : List Token) (ic : Nat) (delimiter : Token) :
    ∀ (fuel cur : Nat) (cds : List ColumnDefinition) (node : Option (List ColumnDefinition))
      (c : Nat),
      parseColumnDefinitionsLoop tokens ic delimiter fuel cur cds = Outcome.ret (node, c, false) →
      node = none ∧ c = ic := by
  intro fuel
  induction fuel with
  | zero => intro cur cds node c h; simp [parseColumnDefinitionsLoop] at h
  | succ n ih =>
    intro cur cds node c h
    unfold parseColumnDefinitionsLoop at h
    simp only at h
    repeat' split at h
    all_goals first
      | exact helpMessage_bind_fail _ _ _ _ _ _ h
      | exact ih _ _ _ _ h
      | (simp only [Outcome.ret.injEq, Prod.mk.injEq] at h; exact ⟨h.1.symm, h.2.1.symm⟩)
      | (simp at h)

theorem parseColumnDefinitions_fail (tokens : List Token) (ic : Nat) (delimiter : Token)
    (node : Option (List ColumnDefinition)) (c : Nat)
    (h : parseColumnDefinitions tokens ic delimiter = Outcome.ret (node, c, false)) :
    node = none ∧ c = ic :=
  parseColumnDefinitionsLoop_fail tokens ic delimiter _ _ _ node c h

theorem parseCreateTableStatement_fail (tokens : List Token) (ic : Nat) (t : Token)
    (node : Option CreateTableStatement) (c : Nat)
    (h : parseCreateTableStatement tokens ic t = Outcome.ret (node, c, false)) :
    node = none ∧ c = ic := by
  unfold parseCreateTableStatement at h
  try simp only at h
  repeat' split at h
  all_goals first
    | exact helpMessage_bind_fail _ _ _ _ _ _ h
    | (simp only [Outcome.ret.injEq, Prod.mk.injEq] at h; exact ⟨h.1.symm, h.2.1.symm⟩)
    | (simp at h)

theorem parseStatement_fail (tokens : List Token) (ic : Nat) (t : Token)
    (node : Option Statement) (c : Nat)
    (h : parseStatement tokens ic t = Outcome.ret (node, c, false)) :
    node = none ∧ c = ic := by
  unfold parseStatement at h
  try simp only at h
  repeat' split at h
  all_goals first
    | exact helpMessage_bind_fail _ _ _ _ _ _ h
    | (simp only [Outcome.ret.injEq, Prod.mk.injEq] at h; exact ⟨h.1.symm, h.2.1.symm⟩)
    | (simp at h)

/-! ## The claims C13, C17 to C20 -/

/-- C13, the failing input: the source `'it''s'` tokenizes to one text token whose
value is `it''s`, bytes `105 116 39 39 115`: the doubled quote is kept as two quote
characters, not replaced by one. -/
theorem lex_keeps_doubled_quote :
    lex (str "'it''s'")
        = Outcome.ret (Except.ok
            [Token.mk [105, 116, 39, 39, 115] textKind { line := 0, column := 0 }]) ∧
      str "it's" = [105, 116, 39, 115] := by
  decide

/-- C17, the failing inputs: `1e+` tokenizes to the single integer-kind token `1e+`,
and `1e;` to the integer-kind token `1e` followed by `;`: an exponent marker with no
digit after it. -/
theorem lexNumber_accepts_exponent_without_digit :
    lex (str "1e+")
        = Outcome.ret (Except.ok [Token.mk (str "1e+") integerKind { line := 0, column := 0 }]) ∧
      lex (str "1e;")
        = Outcome.ret (Except.ok [Token.mk (str "1e") integerKind { line := 0, column := 0 },
            Token.mk (str ";") symbolKind { line := 0, column := 3 }]) := by
  decide

/-- C18, the failing input: in the source `1 a` the identifier `a` is the byte at
position 2 of line 0, and its token carries column 3: `lexNumber` has counted the
blank that ends the number. -/
theorem lex_column_after_number :
    (str "1 a")[2]? = some 97 ∧
      lex (str "1 a")
        = Outcome.ret (Except.ok [Token.mk (str "1") integerKind { line := 0, column := 0 },
            Token.mk (str "a") identifierKind { line := 0, column := 3 }]) ∧
      lexNumber (str "1 a") startCursor
        = Outcome.ret (some (Token.mk (str "1") integerKind { line := 0, column := 0 }),
            { location := { line := 0, column := 2 }, pointer := 1 }, true) := by
  decide

/-- C19. For every token sequence and every starting cursor, each of `parseToken`,
`parseTokenAnother`, `parseExpression`, `parseExpressions`, `parseSelectStatement`,
`parseInsertStatement`, `parseColumnDefinitions`, `parseCreateTableStatement` and
`parseStatement` that reports failure (third component `false`) returns no node and
exactly the starting cursor it was given. -/
theorem parse_failure_returns_start_cursor (tokens : List Token) (ic : Nat) :
    (∀ kind node c, parseToken tokens ic kind = (node, c, false) → node = none ∧ c = ic) ∧
    (∀ t node c, parseTokenAnother tokens ic t = (node, c, false) → node = none ∧ c = ic) ∧
    (∀ t node c, parseExpression tokens ic t = (node, c, false) → node = none ∧ c = ic) ∧
    (∀ delimiters node c,
      parseExpressions tokens ic delimiters = Outcome.ret (node, c, false) →
        node = none ∧ c = ic) ∧
    (∀ delimiter node c,
      parseSelectStatement tokens ic delimiter = Outcome.ret (node, c, false) →
        node = none ∧ c = ic) ∧
    (∀ delimiter node c,
      parseInsertStatement tokens ic delimiter = Outcome.ret (node, c, false) →
        node = none ∧ c = ic) ∧
    (∀ delimiter node c,
      parseColumnDefinitions tokens ic delimiter = Outcome.ret (node, c, false) →
        node = none ∧ c = ic) ∧
    (∀ t node c,
      parseCreateTableStatement tokens ic t = Outcome.ret (node, c, false) →
        node = none ∧ c = ic) ∧
    (∀ t node c,
      parseStatement tokens ic t = Outcome.ret (node, c, false) → node = none ∧ c = ic) :=
  ⟨fun kind node c h => parseToken_fail tokens ic kind node c h,
   fun t node c h => parseTokenAnother_fail tokens ic t node c h,
   fun t node c h => parseExpression_fail tokens ic t node c h,
   fun delimiters node c h => parseExpressions_fail tokens ic delimiters node c h,
   fun delimiter node c h => parseSelectStatement_fail tokens ic delimiter node c h,
   fun delimiter node c h => parseInsertStatement_fail tokens ic delimiter node c h,
   fun delimiter node c h => parseColumnDefinitions_fail tokens ic delimiter node c h,
   fun t node c h => parseCreateTableStatement_fail tokens ic t node c h,
   fun t node c h => parseStatement_fail tokens ic t node c h⟩

/-- C19, at the tokens of `; INSERT INTO t x` and the starting cursor 1:
`parseInsertStatement` consumes `INSERT INTO t`, fails on `x`, and returns no node with
the cursor 1; so does `parseStatement`. -/
theorem parse_failure_returns_start_cursor_witness :
    lex (str "; INSERT INTO t x") = Outcome.ret (Except.ok brokenInsertTokens) ∧
      parseInsertStatement brokenInsertTokens 1 semicolonToken = Outcome.ret (none, 1, false) ∧
      parseStatement brokenInsertTokens 1 semicolonToken = Outcome.ret (none, 1, false) ∧
      ((none : Option InsertStatement) = none ∧ 1 = 1) ∧
      ((none : Option Statement) = none ∧ 1 = 1) :=
  ⟨by decide, by decide, by decide,
   (parse_failure_returns_start_cursor brokenInsertTokens 1).2.2.2.2.2.1 semicolonToken none 1
     (by decide),
   (parse_failure_returns_start_cursor brokenInsertTokens 1).2.2.2.2.2.2.2.2 semicolonToken none 1
     (by decide)⟩

/-- C20. `Insert` is atomic and local. If it returns an error, the error is
`ErrTableDoesNotExists` or `ErrMissingValues` and the store is unchanged. If it
succeeds with a present value list, the target table keeps its columns, column types
and rows, exactly one row is appended at the end, and the table under every other
name is unchanged. -/
theorem insert_atomic_and_local (mb mb1 : MemoryBackend) (ins : InsertStatement)
    (err : Option EngineError) (h : Insert mb ins = Outcome.ret (mb1, err)) :
    (∀ e, err = some e →
      mb1 = mb ∧ (e = ErrTableDoesNotExists ∨ e = ErrMissingValues)) ∧
    (err = none → ∀ values, ins.Values = some values →
      ∃ table row, mb.get ins.Table.value = some table ∧
        mb1.get ins.Table.value = some { table with rows := table.rows ++ [row] } ∧
        ∀ other, other ≠ ins.Table.value → mb1.get other = mb.get other) := by
  unfold Insert at h
  cases hg : mb.get ins.Table.value with
  | none =>
    simp only [hg, Outcome.ret.injEq, Prod.mk.injEq] at h
    obtain ⟨h1, h2⟩ := h
    subst h1 h2
    exact ⟨fun e he => ⟨rfl, Or.inl (Option.some.inj he).symm⟩, fun he => by simp at he⟩
  | some table =>
    cases hv : ins.Values with
    | none =>
      simp only [hg, hv, Outcome.ret.injEq, Prod.mk.injEq] at h
      obtain ⟨h1, h2⟩ := h
      subst h1 h2
      exact ⟨fun e he => by simp at he, fun _ values hvs => by simp at hvs⟩
    | some values =>
      simp only [hg, hv] at h
      by_cases hlen : values.length = table.columns.length
      · simp only [hlen, ne_eq, not_true_eq_false, if_false] at h
        cases hl : insertLoop values [] with
        | ret row =>
          simp only [hl, Outcome.ret.injEq, Prod.mk.injEq] at h
          obtain ⟨h1, h2⟩ := h
          subst h1 h2
          refine ⟨fun e he => by simp at he, fun _ values' _ => ⟨table, row, rfl, ?_, ?_⟩⟩
          · exact get_set_same _ _ _
          · intro other ho
            exact get_set_other _ _ _ _ ho
        | panic => simp [hl] at h
        | fuel => simp [hl] at h
      · simp only [ne_eq, hlen, not_false_eq_true, if_true, Outcome.ret.injEq,
          Prod.mk.injEq] at h
        obtain ⟨h1, h2⟩ := h
        subst h1 h2
        exact ⟨fun e he => ⟨rfl, Or.inr (Option.some.inj he).symm⟩, fun he => by simp at he⟩

/-- C20, at the failing `INSERT INTO users VALUES (1)` on `usersStore`, and at the
successful `INSERT INTO t VALUES (1)` on `tStore`. -/
theorem insert_atomic_and_local_witness :
    (usersStore = usersStore ∧
      (ErrMissingValues = ErrTableDoesNotExists ∨ ErrMissingValues = ErrMissingValues)) ∧
    ∃ table row, tStore.get tInsertOne.Table.value = some table ∧
      tStoreOne.get tInsertOne.Table.value = some { table with rows := table.rows ++ [row] } ∧
      ∀ other, other ≠ tInsertOne.Table.value → tStoreOne.get other = tStore.get other :=
  ⟨(insert_atomic_and_local usersStore usersStore usersInsertShort (some ErrMissingValues)
      (by decide)).1 ErrMissingValues rfl,
   (insert_atomic_and_local tStore tStoreOne tInsertOne none (by decide)).2 rfl
      [lit (tk "1" integerKind 22)] rfl⟩

/-! ## Lemmas on the parser: expression lists -/

theorem helpMessage_bind_eq {α : Type} (tokens : List Token) (cur : Nat) (msg : String)
    (r r1 : α) (h : (helpMessage tokens cur msg).bind (fun _ => Outcome.ret r) = Outcome.ret r1) :
    r1 = r := by
  cases hm : helpMessage tokens cur msg with
  | ret u =>
    rw [hm] at h
    simp only [Outcome.bind, Outcome.ret.injEq] at h
    exact h.symm
  | panic => rw [hm] at h; simp [Outcome.bind] at h
  | fuel => rw [hm] at h; simp [Outcome.bind] at h

theorem parseToken_kind (tokens : List Token) (ic : Nat) (kind : TokenKind) (t : Token)
    (c : Nat) (h : parseToken tokens ic kind = (some t, c, true)) : t.kind = kind := by
  unfold parseToken at h
  repeat' split at h
  all_goals first
    | (simp only [Prod.mk.injEq, Option.some.injEq] at h
       obtain ⟨h1, _⟩ := h
       subst h1
       assumption)
    | (simp at h)

theorem parseExpression_literal (tokens : List Token) (ic : Nat) (t : Token) (e : Expression)
    (c : Nat) (h : parseExpression tokens ic t = (some e, c, true)) : isLiteralExpression e := by
  unfold parseExpression at h
  simp only [parseExpressionKinds] at h
  repeat' split at h
  all_goals first
    | (simp only [Prod.mk.injEq, Option.some.injEq] at h
       obtain ⟨h1, _⟩ := h
       subst h1
       have hk := parseToken_kind _ _ _ _ _ (by assumption)
       exact ⟨rfl, by simp [hk]⟩)
    | (simp at h)

theorem parseExpressionsLoop_literal (tokens : List Token) (ic : Nat) (delimiters : List Token) :
    ∀ (fuel cur : Nat) (exps es : List Expression) (c : Nat),
      (∀ e ∈ exps, isLiteralExpression e) →
      parseExpressionsLoop tokens ic delimiters fuel cur exps = Outcome.ret (some es, c, true) →
      ∀ e ∈ es, isLiteralExpression e := by
  intro fuel
  induction fuel with
  | zero => intro cur exps es c _ h; simp [parseExpressionsLoop] at h
  | succ n ih =>
    intro cur exps es c hgood h
    unfold parseExpressionsLoop at h
    simp only at h
    repeat' split at h
    all_goals first
      | exact absurd (helpMessage_bind_eq _ _ _ _ _ h) (by simp)
      | (refine ih _ _ _ _ ?_ h
         intro e he
         rcases List.mem_append.mp he with h1 | h1
         · exact hgood e h1
         · simp only [List.mem_singleton] at h1
           subst h1
           exact parseExpression_literal _ _ _ _ _ (by assumption))
      | (simp only [Outcome.ret.injEq, Prod.mk.injEq, Option.some.injEq] at h
         obtain ⟨h1, _⟩ := h
         subst h1
         exact hgood)
      | (simp at h)

theorem parseExpressions_literal (tokens : List Token) (ic : Nat) (delimiters : List Token)
    (es : List Expression) (c : Nat)
    (h : parseExpressions tokens ic delimiters = Outcome.ret (some es, c, true)) :
    ∀ e ∈ es, isLiteralExpression e :=
  parseExpressionsLoop_literal tokens ic delimiters _ _ _ _ _ (by simp) h

theorem parseSelectStatement_literal (tokens : List Token) (ic : Nat) (delimiter : Token)
    (ss : SelectStatement) (c : Nat)
    (h : parseSelectStatement tokens ic delimiter = Outcome.ret (some ss, c, true)) :
    ∀ e ∈ ss.Item, isLiteralExpression e := by
  unfold parseSelectStatement at h
  repeat' split at h
  all_goals first
    | exact absurd (helpMessage_bind_eq _ _ _ _ _ h) (by simp)
    | (simp only [Outcome.ret.injEq, Prod.mk.injEq, Option.some.injEq] at h
       obtain ⟨h1, _⟩ := h
       subst h1
       exact parseExpressions_literal _ _ _ _ _ (by assumption))
    | (simp at h)

theorem parseInsertStatement_literal (tokens : List Token) (ic : Nat) (delimiter : Token)
    (ins : InsertStatement) (c : Nat)
    (h : parseInsertStatement tokens ic delimiter = Outcome.ret (some ins, c, true)) :
    ∃ values, ins.Values = some values ∧ ∀ e ∈ values, isLiteralExpression e := by
  unfold parseInsertStatement at h
  repeat' split at h
  all_goals first
    | exact absurd (helpMessage_bind_eq _ _ _ _ _ h) (by simp)
    | (simp only [Outcome.ret.injEq, Prod.mk.injEq, Option.some.injEq] at h
       obtain ⟨h1, _⟩ := h
       subst h1
       exact ⟨_, rfl, parseExpressions_literal _ _ _ _ _ (by assumption)⟩)
    | (simp at h)

theorem parseStatement_literal (tokens : List Token) (ic : Nat) (t : Token)
    (stmt : Statement) (c : Nat)
    (h : parseStatement tokens ic t = Outcome.ret (some stmt, c, true)) :
    literalLists stmt := by
  unfold parseStatement at h
  simp only at h
  repeat' split at h
  all_goals first
    | (simp only [Outcome.ret.injEq, Prod.mk.injEq, Option.some.injEq] at h
       obtain ⟨h1, _⟩ := h
       subst h1
       refine ⟨?_, ?_⟩
       · intro ss hss
         simp only [Option.some.injEq] at hss
         subst hss
         exact parseSelectStatement_literal _ _ _ _ _ (by assumption)
       · intro ins hins
         simp at hins)
    | (simp only [Outcome.ret.injEq, Prod.mk.injEq, Option.some.injEq] at h
       obtain ⟨h1, _⟩ := h
       subst h1
       refine ⟨?_, ?_⟩
       · intro ss hss
         simp at hss
       · intro ins hins
         simp only [Option.some.injEq] at hins
         subst hins
         exact parseInsertStatement_literal _ _ _ _ _ (by assumption))
    | (simp only [Outcome.ret.injEq, Prod.mk.injEq, Option.some.injEq] at h
       obtain ⟨h1, _⟩ := h
       subst h1
       exact ⟨fun ss hss => by simp at hss, fun ins hins => by simp at hins⟩)
    | (simp at h)

theorem parseLoop_literal (tokens : List Token) :
    ∀ (fuel cur : Nat) (stmts : List Statement) (ast : Ast),
      (∀ s ∈ stmts, literalLists s) →
      parseLoop tokens fuel cur stmts = Outcome.ret (Except.ok ast) →
      ∀ s ∈ ast.Statements, literalLists s := by
  intro fuel
  induction fuel with
  | zero => intro cur stmts ast _ h; simp [parseLoop] at h
  | succ n ih =>
    intro cur stmts ast hgood h
    unfold parseLoop at h
    repeat' split at h
    all_goals first
      | exact absurd (helpMessage_bind_eq _ _ _ _ _ h) (by simp)
      | (refine ih _ _ _ ?_ h
         intro s hs
         rcases List.mem_append.mp hs with h1 | h1
         · exact hgood s h1
         · simp only [List.mem_singleton] at h1
           subst h1
           exact parseStatement_literal _ _ _ _ _ (by assumption))
      | (simp only [Outcome.ret.injEq, Except.ok.injEq] at h
         subst h
         exact hgood)
      | (simp at h)

/-! ## The claim C16 -/

/-- C16, as stated, fails: `Parse` accepts `SELECT FROM t` as a select statement with no
item and `INSERT INTO t VALUES ()` as an insert statement with a present, empty value
list. -/
theorem parse_accepts_empty_expression_list :
    Parse (str "SELECT FROM t")
        = Outcome.ret (Except.ok { Statements := [selectStatement tSelectNoItems] }) ∧
      tSelectNoItems.Item = [] ∧
      Parse (str "INSERT INTO t VALUES ()")
        = Outcome.ret (Except.ok { Statements := [insertStatement tInsertNoValues] }) ∧
      tInsertNoValues.Values = some [] := by
  decide

/-- C16, amended: for every source, in every statement that `Parse` returns, the items
of a select statement are literal expressions (each wrapping an identifier, text or
integer token), and an insert statement has a present value list of literal
expressions; either list may be empty. -/
theorem parse_expression_lists_literal (source : Bytes) (ast : Ast)
    (h : Parse source = Outcome.ret (Except.ok ast)) :
    ∀ stmt ∈ ast.Statements, literalLists stmt := by
  unfold Parse at h
  repeat' split at h
  all_goals first
    | exact parseLoop_literal _ _ _ _ _ (by simp) h
    | (simp at h)

/-- C16, amended, at `INSERT INTO users VALUES (1, 'Alice');`. -/
theorem parse_expression_lists_literal_witness :
    Parse (str "INSERT INTO users VALUES (1, 'Alice');")
        = Outcome.ret (Except.ok { Statements := [insertStatement usersInsert] }) ∧
      literalLists (insertStatement usersInsert) :=
  ⟨by decide,
   parse_expression_lists_literal (str "INSERT INTO users VALUES (1, 'Alice');")
     { Statements := [insertStatement usersInsert] } (by decide)
     (insertStatement usersInsert) (List.mem_singleton.mpr rfl)⟩

/-! ## Lemmas on the statement loop of `Parse` -/

theorem parseSemicolons_stop (tokens : List Token) (n cur : Nat) (b : Bool) (t : Token)
    (ht : tokens[cur]? = some t) (hne : semicolonToken.equals t = false) :
    parseSemicolons tokens (n + 1) cur b = Outcome.ret (cur, b) := by
  have hlt : ¬ cur ≥ tokens.length := by
    have := (List.getElem?_eq_some_iff.mp ht).1
    omega
  have hne' : (tokenFromSymbol (str ";")).equals t = false := hne
  simp [parseSemicolons, parseTokenAnother, hlt, ht, hne']

theorem semicolonsFrom_le (tokens : List Token) (cur : Nat) :
    semicolonsFrom tokens cur ≤ tokens.length - cur := by
  unfold semicolonsFrom
  have h1 : ((tokens.drop cur).takeWhile (fun t => semicolonToken.equals t)).length
      ≤ (tokens.drop cur).length := (List.takeWhile_sublist _).length_le
  simpa using h1

theorem parseSemicolons_count (tokens : List Token) :
    ∀ (fuel cur : Nat) (b : Bool), semicolonsFrom tokens cur < fuel →
      parseSemicolons tokens fuel cur b
        = Outcome.ret (cur + semicolonsFrom tokens cur,
            b || decide (0 < semicolonsFrom tokens cur)) := by
  intro fuel
  induction fuel with
  | zero => intro cur b h; omega
  | succ n ih =>
    intro cur b hfuel
    by_cases hlt : cur < tokens.length
    · have hget : tokens[cur]? = some tokens[cur] := List.getElem?_eq_getElem hlt
      have hdrop : tokens.drop cur = tokens[cur] :: tokens.drop (cur + 1) :=
        List.drop_eq_getElem_cons hlt
      by_cases heq : semicolonToken.equals tokens[cur] = true
      · have hcount : semicolonsFrom tokens cur = semicolonsFrom tokens (cur + 1) + 1 := by
          unfold semicolonsFrom
          rw [hdrop, List.takeWhile_cons_of_pos heq, List.length_cons]
        have heq' : (tokenFromSymbol (str ";")).equals tokens[cur] = true := heq
        have hge : ¬ cur ≥ tokens.length := by omega
        simp only [parseSemicolons, parseTokenAnother, hge, if_false, hget, heq', if_true]
        rw [ih (cur + 1) true (by omega), hcount]
        simp only [Bool.true_or, Nat.zero_lt_succ, decide_True, Bool.or_true, Outcome.ret.injEq,
          Prod.mk.injEq, and_true]
        omega
      · have heq2 : semicolonToken.equals tokens[cur] = false := by simpa using heq
        have hcount : semicolonsFrom tokens cur = 0 := by
          unfold semicolonsFrom
          rw [hdrop, List.takeWhile_cons_of_neg heq, List.length_nil]
        rw [parseSemicolons_stop tokens n cur b _ hget heq2, hcount]
        simp
    · have hcount : semicolonsFrom tokens cur = 0 := by
        have := semicolonsFrom_le tokens cur
        omega
      have hge : cur ≥ tokens.length := by omega
      simp [parseSemicolons, parseTokenAnother, hge, hcount]

theorem ParseLoopState_run (tokens : List Token) (n cur : Nat) (stmts : List Statement)
    (h : ParseLoopState tokens n cur stmts) :
    parseLoop tokens (tokens.length + 1) 0 [] = parseLoop tokens n cur stmts := by
  induction h with
  | start => rfl
  | next n cur newCursor cur1 stmts stmt _ hcur hstmt hsemi ih =>
    rw [ih]
    have hstmt' : parseStatement tokens cur (tokenFromSymbol (str ";"))
        = Outcome.ret (some stmt, newCursor, true) := hstmt
    simp only [parseLoop, hcur, if_true, hstmt', hsemi]

theorem Parse_eq_parseLoop (source : Bytes) (tokens : List Token)
    (hlex : lex source = Outcome.ret (Except.ok tokens)) :
    Parse source
      = parseLoop (withTerminator tokens) ((withTerminator tokens).length + 1) 0 [] := by
  simp only [Parse, hlex]
  rfl

/-! ## Lemmas on the cursor of a successful parse -/

theorem expectToken_lt (tokens : List Token) (cur : Nat) (t : Token)
    (h : ¬ expectToken tokens cur t = false) : cur < tokens.length := by
  unfold expectToken at h
  split at h
  · simp at h
  · omega

theorem parseToken_bounds (tokens : List Token) (ic : Nat) (kind : TokenKind)
    (node : Option Token) (c : Nat) (h : parseToken tokens ic kind = (node, c, true)) :
    c = ic + 1 ∧ ic < tokens.length := by
  unfold parseToken at h
  split at h
  · simp at h
  · split at h
    · split at h
      · simp only [Prod.mk.injEq, and_true] at h
        exact ⟨h.2.symm, by omega⟩
      · simp at h
    · simp at h

theorem parseTokenAnother_bounds (tokens : List Token) (ic : Nat) (t : Token)
    (node : Option Token) (c : Nat) (h : parseTokenAnother tokens ic t = (node, c, true)) :
    c = ic + 1 ∧ ic < tokens.length := by
  unfold parseTokenAnother at h
  split at h
  · simp at h
  · split at h
    · split at h
      · simp only [Prod.mk.injEq, and_true] at h
        exact ⟨h.2.symm, by omega⟩
      · simp at h
    · simp at h

theorem parseExpressionKinds_bounds (tokens : List Token) (ic : Nat) (kinds : List TokenKind)
    (node : Option Expression) (c : Nat)
    (h : parseExpressionKinds tokens ic kinds = (node, c, true)) :
    c = ic + 1 ∧ ic < tokens.length := by
  induction kinds with
  | nil => simp [parseExpressionKinds] at h
  | cons k rest ih =>
    unfold parseExpressionKinds at h
    split at h
    · rename_i hp
      simp only [Prod.mk.injEq, and_true] at h
      have := parseToken_bounds _ _ _ _ _ hp
      exact ⟨by omega, this.2⟩
    · exact ih h

theorem parseExpression_bounds (tokens : List Token) (ic : Nat) (t : Token)
    (node : Option Expression) (c : Nat)
    (h : parseExpression tokens ic t = (node, c, true)) :
    c = ic + 1 ∧ ic < tokens.length :=
  parseExpressionKinds_bounds tokens ic _ node c h

theorem parseExpressionsLoop_bounds (tokens : List Token) (ic : Nat) (delimiters : List Token) :
    ∀ (fuel cur : Nat) (exps : List Expression) (node : Option (List Expression)) (c : Nat),
      parseExpressionsLoop tokens ic delimiters fuel cur exps = Outcome.ret (node, c, true) →
      cur ≤ c ∧ c < tokens.length := by
  intro fuel
  induction fuel with
  | zero => intro cur exps node c h; simp [parseExpressionsLoop] at h
  | succ n ih =>
    intro cur exps node c h
    unfold parseExpressionsLoop at h
    simp only at h
    split at h
    · simp at h
    · rename_i hlt
      split at h
      · simp at h
      · split at h
        · simp only [Outcome.ret.injEq, Prod.mk.injEq, and_true] at h
          omega
        · split at h
          · exact absurd (helpMessage_bind_eq _ _ _ _ _ h) (by simp)
          · split at h
            · rename_i hp
              have h1 := parseExpression_bounds _ _ _ _ _ hp
              have h2 := ih _ _ _ _ h
              split at h1 <;> omega
            · exact absurd (helpMessage_bind_eq _ _ _ _ _ h) (by simp)

theorem parseExpressions_bounds (tokens : List Token) (ic : Nat) (delimiters : List Token)
    (node : Option (List Expression)) (c : Nat)
    (h : parseExpressions tokens ic delimiters = Outcome.ret (node, c, true)) :
    ic ≤ c ∧ c < tokens.length :=
  parseExpressionsLoop_bounds tokens ic delimiters _ _ _ node c h

theorem parseColumnDefinitionsLoop_bounds (tokens : List Token) (ic : Nat) (delimiter : Token) :
    ∀ (fuel cur : Nat) (cds : List ColumnDefinition) (node : Option (List ColumnDefinition))
      (c : Nat),
      parseColumnDefinitionsLoop tokens ic delimiter fuel cur cds = Outcome.ret (node, c, true) →
      cur ≤ c ∧ c < tokens.length := by
  intro fuel
  induction fuel with
  | zero => intro cur cds node c h; simp [parseColumnDefinitionsLoop] at h
  | succ n ih =>
    intro cur cds node c h
    unfold parseColumnDefinitionsLoop at h
    simp only at h
    split at h
    · simp at h
    · rename_i hlt
      split at h
      · simp at h
      · split at h
        · simp only [Outcome.ret.injEq, Prod.mk.injEq, and_true] at h
          omega
        · generalize hc : (if cds.length > 0
              then parseTokenAnother tokens cur (tokenFromSymbol (str ","))
              else (none, cur, true)) = comma at h
          have h4 : cur ≤ comma.2.1 := by
            rw [← hc]
            split
            · rcases hx : parseTokenAnother tokens cur (tokenFromSymbol (str ","))
                with ⟨a, c1, ok⟩
              cases ok with
              | true =>
                have := parseTokenAnother_bounds _ _ _ _ _ hx
                simp only
                omega
              | false =>
                have := parseTokenAnother_fail _ _ _ _ _ hx
                simp only
                omega
            · exact le_refl _
          split at h
          · exact absurd (helpMessage_bind_eq _ _ _ _ _ h) (by simp)
          · split at h
            · rename_i hid
              split at h
              · rename_i hty
                have h1 := parseToken_bounds _ _ _ _ _ hid
                have h2 := parseToken_bounds _ _ _ _ _ hty
                have h3 := ih _ _ _ _ h
                omega
              · exact absurd (helpMessage_bind_eq _ _ _ _ _ h) (by simp)
            · exact absurd (helpMessage_bind_eq _ _ _ _ _ h) (by simp)

theorem parseColumnDefinitions_bounds (tokens : List Token) (ic : Nat) (delimiter : Token)
    (node : Option (List ColumnDefinition)) (c : Nat)
    (h : parseColumnDefinitions tokens ic delimiter = Outcome.ret (node, c, true)) :
    ic ≤ c ∧ c < tokens.length :=
  parseColumnDefinitionsLoop_bounds tokens ic delimiter _ _ _ node c h

theorem parseSelectStatement_bounds (tokens : List Token) (ic : Nat) (delimiter : Token)
    (node : Option SelectStatement) (c : Nat)
    (h : parseSelectStatement tokens ic delimiter = Outcome.ret (node, c, true)) :
    ic < c ∧ c ≤ tokens.length := by
  unfold parseSelectStatement at h
  split at h
  · simp at h
  · split at h
    · simp at h
    · simp at h
    · rename_i hexps
      have h1 := parseExpressions_bounds _ _ _ _ _ hexps
      split at h
      · split at h
        · rename_i hfr
          have h2 := parseToken_bounds _ _ _ _ _ hfr
          simp only [Outcome.ret.injEq, Prod.mk.injEq, and_true] at h
          omega
        · exact absurd (helpMessage_bind_eq _ _ _ _ _ h) (by simp)
      · simp only [Outcome.ret.injEq, Prod.mk.injEq, and_true] at h
        omega
    · simp at h

theorem parseInsertStatement_bounds (tokens : List Token) (ic : Nat) (delimiter : Token)
    (node : Option InsertStatement) (c : Nat)
    (h : parseInsertStatement tokens ic delimiter = Outcome.ret (node, c, true)) :
    ic < c ∧ c ≤ tokens.length := by
  unfold parseInsertStatement at h
  split at h
  · simp at h
  · split at h
    · exact absurd (helpMessage_bind_eq _ _ _ _ _ h) (by simp)
    · split at h
      · rename_i htable
        have h1 := parseToken_bounds _ _ _ _ _ htable
        split at h
        · exact absurd (helpMessage_bind_eq _ _ _ _ _ h) (by simp)
        · split at h
          · exact absurd (helpMessage_bind_eq _ _ _ _ _ h) (by simp)
          · split at h
            · simp at h
            · simp at h
            · rename_i hvalues
              have h2 := parseExpressions_bounds _ _ _ _ _ hvalues
              split at h
              · exact absurd (helpMessage_bind_eq _ _ _ _ _ h) (by simp)
              · rename_i hparen
                have h3 := expectToken_lt _ _ _ hparen
                simp only [Outcome.ret.injEq, Prod.mk.injEq, and_true] at h
                omega
            · simp at h
      · exact absurd (helpMessage_bind_eq _ _ _ _ _ h) (by simp)

theorem parseCreateTableStatement_bounds (tokens : List Token) (ic : Nat) (t : Token)
    (node : Option CreateTableStatement) (c : Nat)
    (h : parseCreateTableStatement tokens ic t = Outcome.ret (node, c, true)) :
    ic < c ∧ c ≤ tokens.length := by
  unfold parseCreateTableStatement at h
  split at h
  · simp at h
  · rename_i h1
    have b1 := parseTokenAnother_bounds _ _ _ _ _ h1
    split at h
    · simp at h
    · rename_i h2
      have b2 := parseTokenAnother_bounds _ _ _ _ _ h2
      split at h
      · rename_i h3
        have b3 := parseToken_bounds _ _ _ _ _ h3
        split at h
        · exact absurd (helpMessage_bind_eq _ _ _ _ _ h) (by simp)
        · rename_i h4
          have b4 := parseTokenAnother_bounds _ _ _ _ _ h4
          split at h
          · simp at h
          · simp at h
          · rename_i h5
            have b5 := parseColumnDefinitions_bounds _ _ _ _ _ h5
            split at h
            · exact absurd (helpMessage_bind_eq _ _ _ _ _ h) (by simp)
            · rename_i h6
              have b6 := parseTokenAnother_bounds _ _ _ _ _ h6
              simp only [Outcome.ret.injEq, Prod.mk.injEq, and_true] at h
              omega
          · simp at h
      · exact absurd (helpMessage_bind_eq _ _ _ _ _ h) (by simp)

theorem parseStatement_bounds (tokens : List Token) (ic : Nat) (t : Token)
    (node : Option Statement) (c : Nat)
    (h : parseStatement tokens ic t = Outcome.ret (node, c, true)) :
    ic < c ∧ c ≤ tokens.length := by
  unfold parseStatement at h
  simp only at h
  split at h
  · simp at h
  · simp at h
  · rename_i h1
    simp only [Outcome.ret.injEq, Prod.mk.injEq, and_true] at h
    have := parseSelectStatement_bounds _ _ _ _ _ h1
    omega
  · split at h
    · simp at h
    · simp at h
    · rename_i h1
      simp only [Outcome.ret.injEq, Prod.mk.injEq, and_true] at h
      have := parseInsertStatement_bounds _ _ _ _ _ h1
      omega
    · split at h
      · simp at h
      · simp at h
      · rename_i h1
        simp only [Outcome.ret.injEq, Prod.mk.injEq, and_true] at h
        have := parseCreateTableStatement_bounds _ _ _ _ _ h1
        omega
      · simp at h

theorem ParseLoopState_budget (tokens : List Token) (n cur : Nat) (stmts : List Statement)
    (h : ParseLoopState tokens n cur stmts) :
    cur ≤ tokens.length ∧ tokens.length + 1 ≤ n + cur := by
  induction h with
  | start => omega
  | next n cur newCursor cur1 stmts stmt _ hcur hstmt hsemi ih =>
    have h1 := parseStatement_bounds _ _ _ _ _ hstmt
    have h2 := parseSemicolons_count tokens (tokens.length + 1) newCursor false
      (by have := semicolonsFrom_le tokens newCursor; omega)
    rw [h2] at hsemi
    simp only [Outcome.ret.injEq, Prod.mk.injEq] at hsemi
    have h3 := semicolonsFrom_le tokens newCursor
    omega

/-! ## The claim C15 -/

/-- C15. For every source that tokenizes, whenever the statement loop of `Parse` (on
the tokens with the implicit terminator) has parsed a statement, in any state the loop
comes to: if the token
immediately after the statement is not a `;` terminator, `Parse` fails with the error
"Missing semicolon between statements" (and returns no statement list); and if one or
more `;` follow, they are all consumed: the loop goes on right after the last of the
consecutive `;` tokens with the statement recorded. -/
theorem parse_missing_semicolon (source : Bytes) (tokens : List Token)
    (hlex : lex source = Outcome.ret (Except.ok tokens))
    (n cur newCursor : Nat) (stmts : List Statement) (stmt : Statement)
    (hstate : ParseLoopState (withTerminator tokens) n cur stmts)
    (hcur : cur < (withTerminator tokens).length)
    (hstmt : parseStatement (withTerminator tokens) cur semicolonToken
      = Outcome.ret (some stmt, newCursor, true)) :
    (∀ t, (withTerminator tokens)[newCursor]? = some t → semicolonToken.equals t = false →
      Parse source = Outcome.ret (Except.error ParseError.missingSemicolon)) ∧
    (0 < semicolonsFrom (withTerminator tokens) newCursor →
      ParseLoopState (withTerminator tokens) (n - 1)
        (newCursor + semicolonsFrom (withTerminator tokens) newCursor) (stmts ++ [stmt]) ∧
      Parse source
        = parseLoop (withTerminator tokens) (n - 1)
            (newCursor + semicolonsFrom (withTerminator tokens) newCursor) (stmts ++ [stmt])) := by
  obtain ⟨m, rfl⟩ : ∃ m, n = m + 1 :=
    ⟨n - 1, by have := ParseLoopState_budget _ _ _ _ hstate; omega⟩
  rw [Nat.add_sub_cancel]
  have hstmt' : parseStatement (withTerminator tokens) cur (tokenFromSymbol (str ";"))
      = Outcome.ret (some stmt, newCursor, true) := hstmt
  constructor
  · intro t ht hne
    rw [Parse_eq_parseLoop source tokens hlex, ParseLoopState_run _ _ _ _ hstate]
    have hlt : newCursor < (withTerminator tokens).length := (List.getElem?_eq_some_iff.mp ht).1
    simp only [parseLoop, hcur, if_true, hstmt',
      parseSemicolons_stop _ _ newCursor false t ht hne]
    simp [helpMessage, hlt, ht, Outcome.bind]
  · intro hpos
    have hsemi := parseSemicolons_count (withTerminator tokens)
      ((withTerminator tokens).length + 1) newCursor false
      (by have := semicolonsFrom_le (withTerminator tokens) newCursor; omega)
    simp only [Bool.false_or, hpos, decide_True] at hsemi
    have hnext := ParseLoopState.next m cur newCursor _ stmts stmt hstate hcur hstmt hsemi
    exact ⟨hnext, by
      rw [Parse_eq_parseLoop source tokens hlex, ParseLoopState_run _ _ _ _ hnext]⟩

/-- C15, at `SELECT a FROM t SELECT b FROM t;`, where the second `SELECT` follows the
first statement: `Parse` fails with the missing-semicolon error; and at `SELECT a FROM
t;;`, where both `;` are consumed. -/
theorem parse_missing_semicolon_witness :
    lex (str "SELECT a FROM t SELECT b FROM t;") = Outcome.ret (Except.ok twoSelectTokens) ∧
      Parse (str "SELECT a FROM t SELECT b FROM t;")
        = Outcome.ret (Except.error ParseError.missingSemicolon) ∧
      lex (str "SELECT a FROM t;;") = Outcome.ret (Except.ok selectTwiceTerminated) ∧
      ParseLoopState (withTerminator selectTwiceTerminated) 6 (4 + 2)
        ([] ++ [selectStatement tSelectA]) :=
  ⟨by decide,
   (parse_missing_semicolon (str "SELECT a FROM t SELECT b FROM t;") twoSelectTokens (by decide)
      10 0 4 [] (selectStatement tSelectA) ParseLoopState.start (by decide) (by decide)).1
      (tk "select" keywordKind 16) (by decide) (by decide),
   by decide,
   ((parse_missing_semicolon (str "SELECT a FROM t;;") selectTwiceTerminated (by decide)
      7 0 4 [] (selectStatement tSelectA) ParseLoopState.start (by decide) (by decide)).2
      (by decide)).1⟩

/-! ## Lemmas on typed cells -/

theorem tokenToCell_integer_length (token : Token) (cell : MemoryCell)
    (hk : token.kind = integerKind) (h : tokenToCell token = Outcome.ret cell) :
    cell.length = 4 := by
  unfold tokenToCell at h
  simp only [hk, if_true] at h
  split at h
  · simp at h
  · simp only [Outcome.ret.injEq] at h
    rw [← h]
    simp [bigEndianInt32]

theorem AsInt32_defined (cell : MemoryCell) (h : cell.length = 4) :
    ∃ v, AsInt32 cell = Outcome.ret v := by
  match cell, h with
  | [b0, b1, b2, b3], _ => exact ⟨_, rfl⟩

theorem selectItems_literalItems (table : Table) (row : List MemoryCell) (b : Bool)
    (items : List Expression) (cols : List ResultColumn) (result : List MemoryCell) :
    selectItems table row b items cols result
      = selectItems table row b (literalItems items) cols result := by
  induction items generalizing cols result with
  | nil => rfl
  | cons e rest ih =>
    by_cases he : e.Kind = LiteralKind
    · have hl : literalItems (e :: rest) = e :: literalItems rest := by
        simp [literalItems, he]
      rw [hl]
      simp only [selectItems, he, ne_eq, not_true_eq_false, if_false]
      split
      · split
        · rfl
        · split
          · rfl
          · split
            · rfl
            · exact ih _ _
      · rfl
    · have hl : literalItems (e :: rest) = literalItems rest := by
        simp [literalItems, he]
      rw [hl]
      simp only [selectItems, ne_eq, he, not_false_eq_true, if_true]
      exact ih _ _

theorem selectRows_literalItems (table : Table) (items : List Expression)
    (rows : List (List MemoryCell)) (i : Nat) (cols : List ResultColumn)
    (results : List (List MemoryCell)) :
    selectRows table items rows i cols results
      = selectRows table (literalItems items) rows i cols results := by
  induction rows generalizing i cols results with
  | nil => rfl
  | cons row rest ih =>
    simp only [selectRows, ← selectItems_literalItems]
    split
    · exact ih _ _ _
    · rfl
    · rfl
    · rfl

theorem ReachTyped_encoded (mb : MemoryBackend) (h : ReachTyped mb) : intCellsEncoded mb := by
  induction h with
  | empty => intro name t hg; simp [NewMemoryBackend, MemoryBackend.get] at hg
  | create mb cts _ _ ih =>
    intro name t hg row hrow
    by_cases hn : name = cts.Name.value
    · subst hn
      unfold CreateTable at hg
      cases hc : cts.Columns with
      | none =>
        simp only [hc, get_set_same, Option.some.injEq] at hg
        subst hg
        simp at hrow
      | some cols =>
        simp only [hc, get_set_same, Option.some.injEq] at hg
        subst hg
        rw [createTableLoop_rows] at hrow
        simp at hrow
    · rw [CreateTable_get_other _ _ _ hn] at hg
      exact ih name t hg row hrow
  | insert mb mb1 ins _ hok hins ih =>
    intro name t hg row hrow i cell hty hcell
    rcases Insert_cases mb mb1 ins none hins with
      ⟨h1, _⟩ | ⟨table, values, newRow, hget, hv, hlen, hl, _, h1⟩
    · subst h1; exact ih name t hg row hrow i cell hty hcell
    · subst h1
      by_cases hn : name = ins.Table.value
      · subst hn
        rw [get_set_same] at hg
        simp only [Option.some.injEq] at hg
        subst hg
        simp only [List.mem_append, List.mem_singleton] at hrow
        rcases hrow with hrow | hrow
        · exact ih _ table hget row hrow i cell hty hcell
        · subst hrow
          obtain ⟨hlit, hint⟩ := hok table values hget hv
          obtain ⟨cells, hrow, hall⟩ := insertLoop_literal values [] _ hlit hl
          simp only [List.nil_append] at hrow
          subst hrow
          have hi : i < row.length := (List.getElem?_eq_some_iff.mp hcell).1
          have hiv : i < values.length := by rw [hall.length_eq]; exact hi
          have hkind := hint i values[i] hty (List.getElem?_eq_getElem hiv)
          have htok := (List.forall₂_iff_get.mp hall).2 i hiv hi
          have hce : row[i] = cell := by
            have := List.getElem?_eq_getElem hi
            rw [this] at hcell
            exact Option.some.inj hcell
          simp only [List.get_eq_getElem] at htok
          rw [hce] at htok
          exact tokenToCell_integer_length _ _ hkind htok
      · rw [get_set_other _ _ _ _ hn] at hg
        exact ih name t hg row hrow i cell hty hcell

theorem tStoreOne_reachable : ReachTyped tStoreOne := by
  have h1 : ReachTyped tStore :=
    ReachTyped.create NewMemoryBackend tCreate ReachTyped.empty (by decide)
  refine ReachTyped.insert tStore tStoreOne tInsertOne h1 ?_ (by decide)
  intro table values hg hv
  have hg' : tStore.get tInsertOne.Table.value
      = some { columns := [str "a"], columnTypes := [IntType], rows := [] } := by decide
  rw [hg'] at hg
  have hv' : tInsertOne.Values = some [lit (tk "1" integerKind 22)] := rfl
  rw [hv'] at hv
  have ht := (Option.some.inj hg).symm
  have hvs := (Option.some.inj hv).symm
  subst ht hvs
  refine ⟨?_, ?_⟩
  · intro v hmem
    simp only [List.mem_singleton] at hmem
    subst hmem
    rfl
  · intro i v _ hvi
    cases i with
    | zero =>
      simp only [List.getElem?_cons_zero, Option.some.injEq] at hvi
      subst hvi
      rfl
    | succ j => simp at hvi

/-! ## The claim C11 -/

/-- C11, as stated, fails: after `CREATE TABLE t (a int)` and the successful `INSERT INTO
t VALUES ('ab')`, both produced by `Parse`, the cell stored under the column `a`
declared `int` is the two bytes of `ab`; `SELECT a FROM t` returns it under a result
column of type `IntType`, and `AsInt32` panics on it. -/
theorem text_cell_in_int_column :
    Parse (str "CREATE TABLE t (a int)")
        = Outcome.ret (Except.ok { Statements := [createStatement tCreate] }) ∧
      Parse (str "INSERT INTO t VALUES ('ab')")
        = Outcome.ret (Except.ok { Statements := [insertStatement tInsertText] }) ∧
      CreateTable NewMemoryBackend tCreate = (tStore, none) ∧
      Insert tStore tInsertText = Outcome.ret (tStoreText, none) ∧
      Select tStoreText tSelectA
        = Outcome.ret (Except.ok { Columns := [{ Typ := IntType, Name := str "a" }],
                                   Rows := [[str "ab"]] }) ∧
      AsInt32 (str "ab") = Outcome.panic := by
  decide

/-- C11, amended: in every store reachable from the empty store by successful
`CreateTable` calls and successful `Insert` calls whose values are literal expressions
and, at the position of every column declared `int`, integer-kind tokens, every cell
stored at the position of a column declared `int` is a 4-byte encoding; so `AsInt32`
is defined (does not panic) on every cell that `Select` returns under a result column
of type `IntType`. -/
theorem int_cells_decodable (mb : MemoryBackend) (h : ReachTyped mb) :
    intCellsEncoded mb ∧
    ∀ (ss : SelectStatement) (res : Results), Select mb ss = Outcome.ret (Except.ok res) →
      ∀ (k : Nat) (col : ResultColumn), res.Columns[k]? = some col → col.Typ = IntType →
        ∀ r ∈ res.Rows, ∀ (cell : MemoryCell), r[k]? = some cell →
          ∃ v, AsInt32 cell = Outcome.ret v := by
  have henc := ReachTyped_encoded mb h
  refine ⟨henc, ?_⟩
  intro ss res hsel k col hcol htyp r hr cell hcell
  unfold Select at hsel
  cases hget : mb.get ss.From.value with
  | none => simp [hget] at hsel
  | some table =>
    simp only [hget] at hsel
    rw [selectRows_literalItems] at hsel
    have hlit : ∀ e ∈ literalItems ss.Item, e.Kind = LiteralKind := by
      intro e he
      have := (List.mem_filter.mp he).2
      simpa using this
    obtain ⟨hC, hR⟩ := selectRows_ok table (literalItems ss.Item) hlit table.rows 0 [] [] res hsel
    simp only [List.map_nil, List.nil_append, true_and] at hC hR
    -- the source row of `r`
    have hmem : r.map some ∈ res.Rows.map (List.map some) := List.mem_map_of_mem _ hr
    rw [hR] at hmem
    obtain ⟨row, hrow, hrowr⟩ := List.mem_map.mp hmem
    have hne : table.rows ≠ [] := List.ne_nil_of_mem hrow
    simp only [ne_eq, hne, not_false_eq_true, if_true] at hC
    -- the item at position `k`
    have hck : (res.Columns.map some)[k]? = some (some col) := by
      rw [List.getElem?_map, hcol]; rfl
    rw [hC, List.getElem?_map] at hck
    cases he : (literalItems ss.Item)[k]? with
    | none => rw [he] at hck; simp at hck
    | some e =>
      rw [he] at hck
      simp only [Option.map_some', Option.some.injEq] at hck
      have hrk : (r.map some)[k]? = some (some cell) := by
        rw [List.getElem?_map, hcell]; rfl
      rw [← hrowr, List.getElem?_map, he] at hrk
      simp only [Option.map_some', Option.some.injEq] at hrk
      unfold selectedColumn at hck
      unfold selectedCell at hrk
      cases hf : findColumn e.Literal.value table.columns 0 with
      | none => rw [hf] at hck; simp at hck
      | some i =>
        rw [hf] at hck hrk
        simp only [Option.some_bind] at hck hrk
        cases hty : table.columnTypes[i]? with
        | none => rw [hty] at hck; simp at hck
        | some ty =>
          rw [hty] at hck
          simp only [Option.map_some', Option.some.injEq] at hck
          have htyInt : ty = IntType := by
            rw [← htyp, ← hck]
          rw [htyInt] at hty
          exact AsInt32_defined cell (henc _ table hget row hrow i cell hty hrk)

/-- C11, amended, at the store reached by `CREATE TABLE t (a int)` and `INSERT INTO t VALUES
(1)`: `SELECT a FROM t` returns the cell `[0, 0, 0, 1]` under an `IntType` column and
`AsInt32` is defined on it. -/
theorem int_cells_decodable_witness :
    ReachTyped tStoreOne ∧
      Select tStoreOne tSelectA
        = Outcome.ret (Except.ok { Columns := [{ Typ := IntType, Name := str "a" }],
                                   Rows := [[[0, 0, 0, 1]]] }) ∧
      ∃ v, AsInt32 [0, 0, 0, 1] = Outcome.ret v :=
  ⟨tStoreOne_reachable, by decide,
   (int_cells_decodable tStoreOne tStoreOne_reachable).2 tSelectA
     { Columns := [{ Typ := IntType, Name := str "a" }], Rows := [[[0, 0, 0, 1]]] }
     (by decide) 0 { Typ := IntType, Name := str "a" } rfl rfl [[0, 0, 0, 1]]
     (List.mem_singleton.mpr rfl) [0, 0, 0, 1] rfl⟩

/-! ## Lemmas on `helpMessage` and the parser: every call returns -/

theorem helpMessage_ok (tokens : List Token) (cur : Nat) (msg : String)
    (h1 : cur ≤ tokens.length) (h2 : 0 < tokens.length) :
    helpMessage tokens cur msg = Outcome.ret () := by
  unfold helpMessage
  split
  · rename_i hlt
    rw [List.getElem?_eq_getElem hlt]
  · have hcur : cur = tokens.length := by omega
    have hidx : (cur + 2 ^ 64 - 1) % 2 ^ 64 < tokens.length := by
      have h3 : cur + 2 ^ 64 - 1 = (cur - 1) + 2 ^ 64 := by omega
      rw [h3, Nat.add_mod_right]
      exact lt_of_le_of_lt (Nat.mod_le _ _) (by omega)
    rw [List.getElem?_eq_getElem hidx]

theorem helpMessage_iff (tokens : List Token) (cur : Nat) (msg : String) (hcur : cur < 2 ^ 64) :
    helpMessage tokens cur msg = Outcome.ret () ↔ cur ≤ tokens.length ∧ 0 < tokens.length := by
  constructor
  · intro h
    unfold helpMessage at h
    split at h
    · omega
    · rename_i hge
      split at h
      · rename_i heq
        have hlt := (List.getElem?_eq_some_iff.mp heq).1
        by_cases h0 : cur = 0
        · subst h0
          have : (0 + 2 ^ 64 - 1) % 2 ^ 64 = 2 ^ 64 - 1 := by norm_num
          rw [this] at hlt
          omega
        · have h3 : cur + 2 ^ 64 - 1 = (cur - 1) + 2 ^ 64 := by omega
          rw [h3, Nat.add_mod_right, Nat.mod_eq_of_lt (by omega)] at hlt
          omega
      · simp at h
  · rintro ⟨h1, h2⟩
    exact helpMessage_ok tokens cur msg h1 h2

theorem parseExpressionsLoop_total (tokens : List Token) (ic : Nat) (delimiters : List Token) :
    ∀ (fuel cur : Nat) (exps : List Expression), tokens.length - cur < fuel →
      ∃ r, parseExpressionsLoop tokens ic delimiters fuel cur exps = Outcome.ret r := by
  intro fuel
  induction fuel with
  | zero => intro cur exps h; omega
  | succ n ih =>
    intro cur exps hfuel
    unfold parseExpressionsLoop
    simp only
    split
    · exact ⟨_, rfl⟩
    · rename_i hge
      have hlt : cur < tokens.length := by omega
      rw [List.getElem?_eq_getElem hlt]
      simp only
      split
      · exact ⟨_, rfl⟩
      · split
        · rw [helpMessage_ok _ _ _ (by omega) (by omega)]
          exact ⟨_, rfl⟩
        · split
          · rename_i hp
            have hb := parseExpression_bounds _ _ _ _ _ hp
            apply ih
            split at hb <;> omega
          · rw [helpMessage_ok _ _ _ (by split <;> omega) (by omega)]
            exact ⟨_, rfl⟩

theorem parseExpressions_total (tokens : List Token) (ic : Nat) (delimiters : List Token) :
    ∃ r, parseExpressions tokens ic delimiters = Outcome.ret r :=
  parseExpressionsLoop_total tokens ic delimiters _ _ _ (by omega)

theorem parseColumnDefinitionsLoop_total (tokens : List Token) (ic : Nat) (delimiter : Token) :
    ∀ (fuel cur : Nat) (cds : List ColumnDefinition), tokens.length - cur < fuel →
      ∃ r, parseColumnDefinitionsLoop tokens ic delimiter fuel cur cds = Outcome.ret r := by
  intro fuel
  induction fuel with
  | zero => intro cur cds h; omega
  | succ n ih =>
    intro cur cds hfuel
    unfold parseColumnDefinitionsLoop
    simp only
    split
    · exact ⟨_, rfl⟩
    · rename_i hge
      have hlt : cur < tokens.length := by omega
      rw [List.getElem?_eq_getElem hlt]
      simp only
      split
      · exact ⟨_, rfl⟩
      · generalize hc : (if cds.length > 0
            then parseTokenAnother tokens cur (tokenFromSymbol (str ","))
            else (none, cur, true)) = comma
        have h4 : cur ≤ comma.2.1 ∧ comma.2.1 ≤ tokens.length := by
          rw [← hc]
          split
          · rcases hx : parseTokenAnother tokens cur (tokenFromSymbol (str ","))
              with ⟨a, c1, ok⟩
            cases ok with
            | true =>
              have := parseTokenAnother_bounds _ _ _ _ _ hx
              simp only
              omega
            | false =>
              have := parseTokenAnother_fail _ _ _ _ _ hx
              simp only
              omega
          · simp only
            omega
        split
        · rw [helpMessage_ok _ _ _ h4.2 (by omega)]
          exact ⟨_, rfl⟩
        · split
          · rename_i hid
            have h1 := parseToken_bounds _ _ _ _ _ hid
            split
            · rename_i hty
              have h2 := parseToken_bounds _ _ _ _ _ hty
              apply ih
              omega
            · rw [helpMessage_ok _ _ _ (by omega) (by omega)]
              exact ⟨_, rfl⟩
          · rw [helpMessage_ok _ _ _ h4.2 (by omega)]
            exact ⟨_, rfl⟩

theorem parseColumnDefinitions_total (tokens : List Token) (ic : Nat) (delimiter : Token) :
    ∃ r, parseColumnDefinitions tokens ic delimiter = Outcome.ret r :=
  parseColumnDefinitionsLoop_total tokens ic delimiter _ _ _ (by omega)

theorem parseSelectStatement_total (tokens : List Token) (ic : Nat) (delimiter : Token) :
    ∃ r, parseSelectStatement tokens ic delimiter = Outcome.ret r := by
  unfold parseSelectStatement
  split
  · exact ⟨_, rfl⟩
  · obtain ⟨r, hr⟩ := parseExpressions_total tokens (ic + 1)
      [tokenFromKeyword (str "from"), delimiter]
    rw [hr]
    split
    · simp at *
    · simp at *
    · split
      · rename_i hfrom
        have h1 := expectToken_lt _ _ _ (by rw [hfrom]; simp)
        split
        · exact ⟨_, rfl⟩
        · rw [helpMessage_ok _ _ _ (by omega) (by omega)]
          exact ⟨_, rfl⟩
      · exact ⟨_, rfl⟩
    · exact ⟨_, rfl⟩

theorem parseInsertStatement_total (tokens : List Token) (ic : Nat) (delimiter : Token) :
    ∃ r, parseInsertStatement tokens ic delimiter = Outcome.ret r := by
  unfold parseInsertStatement
  split
  · exact ⟨_, rfl⟩
  · rename_i h0
    have b0 := expectToken_lt _ _ _ h0
    split
    · rw [helpMessage_ok _ _ _ (by omega) (by omega)]
      exact ⟨_, rfl⟩
    · rename_i h1
      have b1 := expectToken_lt _ _ _ h1
      split
      · rename_i htable
        have b2 := parseToken_bounds _ _ _ _ _ htable
        split
        · rw [helpMessage_ok _ _ _ (by omega) (by omega)]
          exact ⟨_, rfl⟩
        · rename_i h3
          have b3 := expectToken_lt _ _ _ h3
          split
          · rw [helpMessage_ok _ _ _ (by omega) (by omega)]
            exact ⟨_, rfl⟩
          · obtain ⟨r, hr⟩ := parseExpressions_total tokens (_ + 2) [tokenFromSymbol (str ")")]
            rw [hr]
            split
            · simp at *
            · simp at *
            · rename_i hvalues
              simp only [Outcome.ret.injEq] at hvalues
              subst hvalues
              have b4 := parseExpressions_bounds _ _ _ _ _ hr
              split
              · rw [helpMessage_ok _ _ _ (by omega) (by omega)]
                exact ⟨_, rfl⟩
              · exact ⟨_, rfl⟩
            · exact ⟨_, rfl⟩
      · rw [helpMessage_ok _ _ _ (by omega) (by omega)]
        exact ⟨_, rfl⟩

theorem parseCreateTableStatement_total (tokens : List Token) (ic : Nat) (t : Token) :
    ∃ r, parseCreateTableStatement tokens ic t = Outcome.ret r := by
  unfold parseCreateTableStatement
  split
  · exact ⟨_, rfl⟩
  · rename_i h1
    have b1 := parseTokenAnother_bounds _ _ _ _ _ h1
    split
    · exact ⟨_, rfl⟩
    · rename_i h2
      have b2 := parseTokenAnother_bounds _ _ _ _ _ h2
      split
      · rename_i h3
        have b3 := parseToken_bounds _ _ _ _ _ h3
        split
        · rename_i h4
          have b4 := parseTokenAnother_fail _ _ _ _ _ h4
          rw [helpMessage_ok _ _ _ (by omega) (by omega)]
          exact ⟨_, rfl⟩
        · rename_i h4
          have b4 := parseTokenAnother_bounds _ _ _ _ _ h4
          obtain ⟨r, hr⟩ := parseColumnDefinitions_total tokens _ (tokenFromSymbol (str ")"))
          rw [hr]
          split
          · simp at *
          · simp at *
          · rename_i hcols
            simp only [Outcome.ret.injEq] at hcols
            subst hcols
            have b5 := parseColumnDefinitions_bounds _ _ _ _ _ hr
            split
            · rename_i h6
              have b6 := parseTokenAnother_fail _ _ _ _ _ h6
              rw [helpMessage_ok _ _ _ (by omega) (by omega)]
              exact ⟨_, rfl⟩
            · exact ⟨_, rfl⟩
          · exact ⟨_, rfl⟩
      · rw [helpMessage_ok _ _ _ (by omega) (by omega)]
        exact ⟨_, rfl⟩

theorem parseStatement_total (tokens : List Token) (ic : Nat) (t : Token) :
    ∃ r, parseStatement tokens ic t = Outcome.ret r := by
  unfold parseStatement
  simp only
  obtain ⟨r1, hr1⟩ := parseSelectStatement_total tokens ic (tokenFromSymbol (str ";"))
  obtain ⟨r2, hr2⟩ := parseInsertStatement_total tokens ic (tokenFromSymbol (str ";"))
  obtain ⟨r3, hr3⟩ := parseCreateTableStatement_total tokens ic (tokenFromSymbol (str ";"))
  rw [hr1, hr2, hr3]
  split
  · simp at *
  · simp at *
  · exact ⟨_, rfl⟩
  · split
    · simp at *
    · simp at *
    · exact ⟨_, rfl⟩
    · split
      · simp at *
      · simp at *
      · exact ⟨_, rfl⟩
      · exact ⟨_, rfl⟩

theorem parseLoop_total (tokens : List Token) :
    ∀ (fuel cur : Nat) (stmts : List Statement), tokens.length - cur < fuel →
      ∃ r, parseLoop tokens fuel cur stmts = Outcome.ret r := by
  intro fuel
  induction fuel with
  | zero => intro cur stmts h; omega
  | succ n ih =>
    intro cur stmts hfuel
    unfold parseLoop
    split
    · rename_i hlt
      obtain ⟨r, hr⟩ := parseStatement_total tokens cur (tokenFromSymbol (str ";"))
      rw [hr]
      split
      · simp at *
      · simp at *
      · rename_i hstmt
        simp only [Outcome.ret.injEq] at hstmt
        subst hstmt
        have b1 := parseStatement_bounds _ _ _ _ _ hr
        have hle := semicolonsFrom_le tokens ‹Nat›
        rw [parseSemicolons_count tokens (tokens.length + 1) _ false (by omega)]
        split
        · simp at *
        · simp at *
        · rename_i hs
          simp only [Outcome.ret.injEq, Prod.mk.injEq] at hs
          apply ih
          omega
        · rename_i hs
          simp only [Outcome.ret.injEq, Prod.mk.injEq] at hs
          rw [helpMessage_ok _ _ _ (by omega) (by omega)]
          exact ⟨_, rfl⟩
      · rw [helpMessage_ok _ _ _ (by omega) (by omega)]
        exact ⟨_, rfl⟩
    · exact ⟨_, rfl⟩

/-! ## Lemmas on the sub-lexers: the cursor moves on -/

theorem lexNumberLoop_cursor (source : Bytes) (ic : cursor) :
    ∀ (fuel : Nat) (cur : cursor) (pf ef : Bool),
      source.length - cur.pointer < fuel → cur.pointer ≤ source.length →
      ∃ r, lexNumberLoop source ic fuel cur pf ef = Outcome.ret r ∧
        ∀ c, r = some c → cur.pointer ≤ c.pointer ∧ c.pointer ≤ source.length := by
  intro fuel
  induction fuel with
  | zero => intro cur pf ef h; omega
  | succ n ih =>
    intro cur pf ef hfuel hle
    have step : ∀ (cur1 : cursor) (pf1 ef1 : Bool), cur.pointer < cur1.pointer →
        cur1.pointer ≤ source.length →
        ∃ r, lexNumberLoop source ic n cur1 pf1 ef1 = Outcome.ret r ∧
          ∀ c, r = some c → cur.pointer ≤ c.pointer ∧ c.pointer ≤ source.length := by
      intro cur1 pf1 ef1 h1 h2
      obtain ⟨r, hr, hc⟩ := ih cur1 pf1 ef1 (by omega) h2
      exact ⟨r, hr, fun c h => ⟨by have := hc c h; omega, (hc c h).2⟩⟩
    unfold lexNumberLoop
    split
    · rename_i hlt
      rw [List.getElem?_eq_getElem hlt]
      simp only
      split
      · split
        · exact ⟨none, rfl, by simp⟩
        · exact step _ _ _ (by simp only; omega) (by simp only; omega)
      · split
        · split
          · exact ⟨none, rfl, by simp⟩
          · exact step _ _ _ (by simp only; omega) (by simp only; omega)
        · split
          · split
            · exact ⟨none, rfl, by simp⟩
            · split
              · exact ⟨none, rfl, by simp⟩
              · rename_i hlast
                have hnext : cur.pointer + 1 < source.length := by omega
                rw [List.getElem?_eq_getElem hnext]
                simp only
                apply step
                · simp only
                  split <;> simp only <;> omega
                · simp only
                  split <;> simp only <;> omega
          · split
            · refine ⟨_, rfl, fun c h => ?_⟩
              simp only [Option.some.injEq] at h
              subst h
              simp only
              omega
            · exact step _ _ _ (by simp only; omega) (by simp only; omega)
    · refine ⟨_, rfl, fun c h => ?_⟩
      simp only [Option.some.injEq] at h
      subst h
      omega

theorem lexNumber_cursor (source : Bytes) (ic : cursor) (hic : ic.pointer ≤ source.length) :
    Advances source ic (lexNumber source ic) := by
  obtain ⟨r, hr, hc⟩ := lexNumberLoop_cursor source ic (source.length + 1) ic false false
    (by omega) hic
  unfold lexNumber
  rw [hr]
  cases r with
  | none => exact ⟨none, ic, false, rfl, by simp, fun _ => rfl⟩
  | some cur =>
    have hb := hc cur rfl
    simp only
    split
    · exact ⟨none, ic, false, rfl, by simp, fun _ => rfl⟩
    · rename_i hne
      rw [show slice source ic.pointer cur.pointer
          = some ((source.take cur.pointer).drop ic.pointer) by simp [slice, hb]]
      exact ⟨_, cur, true, rfl, fun _ => ⟨by omega, hb.2⟩, by simp⟩

theorem lexCharacterDelimitedLoop_cursor (source : Bytes) (ic : cursor) (delimiter : Nat) :
    ∀ (fuel : Nat) (cur : cursor) (value : Bytes),
      source.length - cur.pointer < fuel → ic.pointer < cur.pointer →
      ∃ t c ok, lexCharacterDelimitedLoop source ic delimiter fuel cur value
          = Outcome.ret (t, c, ok) ∧
        (ok = true → t ≠ none ∧ ic.pointer < c.pointer ∧ c.pointer ≤ source.length) ∧
        (ok = false → c = ic) := by
  intro fuel
  induction fuel with
  | zero => intro cur value h; omega
  | succ n ih =>
    intro cur value hfuel hic
    unfold lexCharacterDelimitedLoop
    split
    · rename_i hlt
      rw [List.getElem?_eq_getElem hlt]
      simp only
      split
      · split
        · exact ⟨_, _, true, rfl, fun _ => ⟨by simp, by simp only; omega, by simp only; omega⟩,
            by simp⟩
        · rename_i hesc
          have hnext : cur.pointer + 1 < source.length := by
            by_contra hcon
            exact hesc (Or.inl (by omega))
          exact ih _ _ (by simp only; omega) (by simp only; omega)
      · exact ih _ _ (by simp only; omega) (by simp only; omega)
    · exact ⟨none, ic, false, rfl, by simp, fun _ => rfl⟩

theorem lexCharacterDelimited_cursor (source : Bytes) (ic : cursor) (delimiter : Nat)
    (hic : ic.pointer ≤ source.length) :
    ∃ t c ok, lexCharacterDelimited source ic delimiter = Outcome.ret (t, c, ok) ∧
      (ok = true → t ≠ none ∧ ic.pointer < c.pointer ∧ c.pointer ≤ source.length) ∧
      (ok = false → c = ic) := by
  unfold lexCharacterDelimited
  split
  · omega
  · split
    · exact ⟨none, ic, false, rfl, by simp, fun _ => rfl⟩
    · rename_i hne
      have hlt : ic.pointer < source.length := by omega
      rw [List.getElem?_eq_getElem hlt]
      simp only
      split
      · exact ⟨none, ic, false, rfl, by simp, fun _ => rfl⟩
      · exact lexCharacterDelimitedLoop_cursor source ic delimiter _ _ _
          (by simp only; omega) (by simp only; omega)

theorem lexString_cursor (source : Bytes) (ic : cursor) (hic : ic.pointer ≤ source.length) :
    Advances source ic (lexString source ic) := by
  obtain ⟨t, c, ok, h1, h2, h3⟩ := lexCharacterDelimited_cursor source ic 39 hic
  exact ⟨t, c, ok, h1, fun h => (h2 h).2, h3⟩

theorem lexIdentifierLoop_cursor (source : Bytes) :
    ∀ (fuel : Nat) (cur : cursor) (value : Bytes),
      source.length - cur.pointer < fuel → cur.pointer ≤ source.length →
      ∃ c v, lexIdentifierLoop source fuel cur value = Outcome.ret (c, v) ∧
        cur.pointer ≤ c.pointer ∧ c.pointer ≤ source.length := by
  intro fuel
  induction fuel with
  | zero => intro cur value h; omega
  | succ n ih =>
    intro cur value hfuel hle
    unfold lexIdentifierLoop
    split
    · rename_i hlt
      rw [List.getElem?_eq_getElem hlt]
      simp only
      split
      · obtain ⟨c, v, h1, h2, h3⟩ := ih
          { location := { line := cur.location.line, column := cur.location.column + 1 },
            pointer := cur.pointer + 1 } (value ++ [source[cur.pointer]])
          (by simp only; omega) (by simp only; omega)
        exact ⟨c, v, h1, by simp only at h2; omega, h3⟩
      · exact ⟨_, _, rfl, le_refl _, hle⟩
    · exact ⟨_, _, rfl, le_refl _, hle⟩

theorem lexIdentifier_cursor (source : Bytes) (ic : cursor) (hic : ic.pointer < source.length) :
    Advances source ic (lexIdentifier source ic) := by
  obtain ⟨t, c, ok, h1, h2, h3⟩ := lexCharacterDelimited_cursor source ic 34 (by omega)
  unfold lexIdentifier
  rw [h1]
  cases ok with
  | true =>
    obtain ⟨hsome, hb⟩ := h2 rfl
    cases t with
    | none => exact absurd rfl hsome
    | some tok => exact ⟨_, c, true, rfl, fun _ => hb, by simp⟩
  | false =>
    simp only
    rw [List.getElem?_eq_getElem hic]
    simp only
    split
    · exact ⟨none, ic, false, rfl, by simp, fun _ => rfl⟩
    · obtain ⟨c1, v, hl, hb1, hb2⟩ := lexIdentifierLoop_cursor source (source.length + 1)
        { location := { line := ic.location.line, column := ic.location.column + 1 },
          pointer := ic.pointer + 1 } [source[ic.pointer]]
        (by simp only; omega) (by simp only; omega)
      rw [hl]
      exact ⟨_, c1, true, rfl, fun _ => ⟨by simp only at hb1; omega, hb2⟩, by simp⟩

theorem longestMatch_length (source : Bytes) (ic : cursor) (opts : List Bytes)
    (hascii : ∀ o ∈ opts, ∀ b ∈ o, b < 128) (hne : ∀ o ∈ opts, o ≠ []) :
    ∃ m, longestMatch source ic opts = Outcome.ret m ∧
      ic.pointer + m.length ≤ max ic.pointer source.length := by
  obtain ⟨m, h1, _, h3, _⟩ := longestMatch_ascii source ic opts hascii hne
  refine ⟨m, h1, ?_⟩
  have := h3.length_le
  simp only [asciiToLower, List.length_map, List.length_drop] at this
  omega

theorem lexKeyword_cursor (source : Bytes) (ic : cursor) (hic : ic.pointer ≤ source.length) :
    Advances source ic (lexKeyword source ic) := by
  obtain ⟨m, h1, h2⟩ := longestMatch_length source ic keywords keywords_ascii keywords_nonempty
  unfold lexKeyword
  rw [h1]
  simp only
  split
  · exact ⟨none, ic, false, rfl, by simp, fun _ => rfl⟩
  · rename_i hm
    have : 0 < m.length := List.length_pos.mpr hm
    exact ⟨_, _, true, rfl, fun _ => ⟨by simp only; omega, by simp only; omega⟩, by simp⟩

theorem lexSymbol_cursor (source : Bytes) (ic : cursor) (hic : ic.pointer < source.length) :
    Advances source ic (lexSymbol source ic) := by
  obtain ⟨m, h1, h2⟩ := longestMatch_length source ic symbols symbols_ascii symbols_nonempty
  unfold lexSymbol
  rw [List.getElem?_eq_getElem hic, h1]
  simp only
  split
  · exact ⟨_, _, true, rfl, fun _ => ⟨by simp only; omega, by simp only; omega⟩, by simp⟩
  · split
    · exact ⟨_, _, true, rfl, fun _ => ⟨by simp only; omega, by simp only; omega⟩, by simp⟩
    · split
      · exact ⟨none, ic, false, rfl, by simp, fun _ => rfl⟩
      · rename_i hm
        have : 0 < m.length := List.length_pos.mpr hm
        exact ⟨_, _, true, rfl, fun _ => ⟨by simp only; omega, by simp only; omega⟩, by simp⟩

theorem lexers_advance (source : Bytes) (ic : cursor) (hic : ic.pointer < source.length) :
    ∀ l ∈ lexers, Advances source ic (l source ic) := by
  intro l hl
  simp only [lexers, List.mem_cons, List.mem_singleton, List.not_mem_nil, or_false] at hl
  rcases hl with h | h | h | h | h <;> subst h
  · exact lexKeyword_cursor source ic (by omega)
  · exact lexSymbol_cursor source ic hic
  · exact lexString_cursor source ic (by omega)
  · exact lexNumber_cursor source ic (by omega)
  · exact lexIdentifier_cursor source ic hic

theorem lexFirst_cursor (source : Bytes) (cur : cursor) :
    ∀ (ls : List (Bytes → cursor → Outcome LexResult)),
      (∀ l ∈ ls, Advances source cur (l source cur)) →
      ∃ r, lexFirst source cur ls = Outcome.ret r ∧
        ∀ t c, r = some (t, c) → cur.pointer < c.pointer ∧ c.pointer ≤ source.length := by
  intro ls
  induction ls with
  | nil => intro _; exact ⟨none, rfl, by simp⟩
  | cons l rest ih =>
    intro h
    obtain ⟨t, c, ok, h1, h2, h3⟩ := h l (List.mem_cons_self _ _)
    unfold lexFirst
    rw [h1]
    cases ok with
    | true =>
      refine ⟨_, rfl, fun t1 c1 heq => ?_⟩
      simp only [Option.some.injEq, Prod.mk.injEq] at heq
      rw [← heq.2]
      exact h2 rfl
    | false => exact ih (fun l1 hl1 => h l1 (List.mem_cons_of_mem _ hl1))

theorem lexLoop_total (source : Bytes) :
    ∀ (fuel : Nat) (cur : cursor) (tokens : List Token), source.length - cur.pointer < fuel →
      ∃ r, lexLoop source fuel cur tokens = Outcome.ret r := by
  intro fuel
  induction fuel with
  | zero => intro cur tokens h; omega
  | succ n ih =>
    intro cur tokens hfuel
    unfold lexLoop
    split
    · rename_i hlt
      obtain ⟨r, hr, hc⟩ := lexFirst_cursor source cur lexers (lexers_advance source cur hlt)
      rw [hr]
      match r, hc with
      | none, _ => exact ⟨_, rfl⟩
      | some (none, c), hc =>
        have := hc none c rfl
        exact ih _ _ (by omega)
      | some (some t, c), hc =>
        have := hc (some t) c rfl
        exact ih _ _ (by omega)
    · exact ⟨_, rfl⟩

theorem lex_total (source : Bytes) : ∃ r, lex source = Outcome.ret r :=
  lexLoop_total source _ _ _ (by simp only; omega)

theorem Parse_total (source : Bytes) : ∃ r, Parse source = Outcome.ret r := by
  obtain ⟨r, hr⟩ := lex_total source
  unfold Parse
  rw [hr]
  cases r with
  | error e => exact ⟨_, rfl⟩
  | ok tokens => exact parseLoop_total _ _ _ _ (by omega)

/-! ## The claims C21 and C22 -/

/-- C21. For every token sequence and every cursor `ic < len(tokens)`, `parseStatement`
returns, and if it succeeds the cursor it returns is strictly greater than `ic` and at
most `len(tokens)`. `helpMessage` returns (does not index out of range) exactly when
its cursor is at most `len(tokens)` and `tokens` is not empty; the statement loop of
`Parse` returns on every token sequence, within its budget and without a panic, so
every cursor it passes to `helpMessage` is such; and `Parse` returns on every source,
with a syntax tree or with an error. -/
theorem parse_terminates (source : Bytes) (tokens : List Token) :
    (∀ ic, ic < tokens.length →
      ∃ node c ok, parseStatement tokens ic semicolonToken = Outcome.ret (node, c, ok) ∧
        (ok = true → ic < c ∧ c ≤ tokens.length)) ∧
    (∀ cur msg, cur < 2 ^ 64 →
      (helpMessage tokens cur msg = Outcome.ret () ↔
        cur ≤ tokens.length ∧ 0 < tokens.length)) ∧
    (∃ r, parseLoop tokens (tokens.length + 1) 0 [] = Outcome.ret r) ∧
    ((∃ ast, Parse source = Outcome.ret (Except.ok ast)) ∨
      ∃ err, Parse source = Outcome.ret (Except.error err)) := by
  refine ⟨?_, fun cur msg hcur => helpMessage_iff tokens cur msg hcur,
    parseLoop_total tokens _ _ _ (by omega), ?_⟩
  · intro ic _
    obtain ⟨⟨node, c, ok⟩, hr⟩ := parseStatement_total tokens ic semicolonToken
    refine ⟨node, c, ok, hr, fun hok => ?_⟩
    subst hok
    exact parseStatement_bounds _ _ _ _ _ hr
  · obtain ⟨r, hr⟩ := Parse_total source
    cases r with
    | error err => exact Or.inr ⟨err, hr⟩
    | ok ast => exact Or.inl ⟨ast, hr⟩

/-- C21, at the source `SELECT a FROM t SELECT b FROM t;` and its tokens: at the cursor
0 `parseStatement` succeeds with the cursor 4. -/
theorem parse_terminates_witness :
    (∃ node c ok, parseStatement twoSelectTokens 0 semicolonToken = Outcome.ret (node, c, ok) ∧
        (ok = true → 0 < c ∧ c ≤ twoSelectTokens.length)) ∧
    parseStatement twoSelectTokens 0 semicolonToken
      = Outcome.ret (some (selectStatement tSelectA), 4, true) ∧
    ((∃ ast, Parse (str "SELECT a FROM t SELECT b FROM t;") = Outcome.ret (Except.ok ast)) ∨
      ∃ err, Parse (str "SELECT a FROM t SELECT b FROM t;")
        = Outcome.ret (Except.error err)) :=
  ⟨(parse_terminates (str "SELECT a FROM t SELECT b FROM t;") twoSelectTokens).1 0 (by decide),
   by decide,
   (parse_terminates (str "SELECT a FROM t SELECT b FROM t;") twoSelectTokens).2.2.2⟩

/-- C22. For every source string and every cursor whose pointer is less than
`len(source)`, each of the five sub-lexers (`lexKeyword`, `lexSymbol`, `lexString`,
`lexNumber`, `lexIdentifier`) returns without an out-of-range index; when it reports a
match the pointer of the cursor it returns is strictly greater than the input pointer
and at most `len(source)`, and when it reports no match it returns the input cursor
unchanged. And `lex` returns on every source, with a token list or with an error. -/
theorem lex_terminates (source : Bytes) :
    (∀ ic : cursor, ic.pointer < source.length → ∀ l ∈ lexers,
      ∃ t c ok, l source ic = Outcome.ret (t, c, ok) ∧
        (ok = true → ic.pointer < c.pointer ∧ c.pointer ≤ source.length) ∧
        (ok = false → c = ic)) ∧
    ((∃ tokens, lex source = Outcome.ret (Except.ok tokens)) ∨
      ∃ err, lex source = Outcome.ret (Except.error err)) := by
  refine ⟨fun ic hic l hl => lexers_advance source ic hic l hl, ?_⟩
  obtain ⟨r, hr⟩ := lex_total source
  cases r with
  | error err => exact Or.inr ⟨err, hr⟩
  | ok tokens => exact Or.inl ⟨tokens, hr⟩

/-- C22, at the source `1e+ 'a''b' x`: `lexNumber` at the cursor 0 reports a match and
returns the pointer 3, and `lexString` at the cursor 0 reports no match. -/
theorem lex_terminates_witness :
    (∃ t c ok, lexNumber (str "1e+ 'a''b' x") startCursor = Outcome.ret (t, c, ok) ∧
        (ok = true → startCursor.pointer < c.pointer ∧ c.pointer ≤ (str "1e+ 'a''b' x").length) ∧
        (ok = false → c = startCursor)) ∧
    lexNumber (str "1e+ 'a''b' x") startCursor
      = Outcome.ret (some (Token.mk (str "1e+") integerKind { line := 0, column := 0 }),
          { location := { line := 0, column := 4 }, pointer := 3 }, true) ∧
    lexString (str "1e+ 'a''b' x") startCursor = Outcome.ret (none, startCursor, false) ∧
    ((∃ tokens, lex (str "1e+ 'a''b' x") = Outcome.ret (Except.ok tokens)) ∨
      ∃ err, lex (str "1e+ 'a''b' x") = Outcome.ret (Except.error err)) :=
  ⟨(lex_terminates (str "1e+ 'a''b' x")).1 startCursor (by decide) lexNumber (by simp [lexers]),
   by decide, by decide, (lex_terminates (str "1e+ 'a''b' x")).2⟩

/-! ## Lemmas on the prefix comparisons of `longestMatch` -/

theorem longestMatchInner_total (V : Bytes) (n : Nat) :
    ∀ (rest : List Bytes) (i : Nat) (S : List Nat) (M : Bytes),
      (∀ idx o, rest[idx]? = some o → i + idx ∉ S → n ≤ o.length) →
      ∃ S1 M1, longestMatchInner V n rest i S M = Outcome.ret (S1, M1) ∧
        (∀ j ∈ S, j ∈ S1) ∧
        (∀ idx o, rest[idx]? = some o → i + idx ∉ S1 → V = o.take n ∧ o ≠ V) := by
  intro rest
  induction rest with
  | nil =>
    intro i S M _
    exact ⟨S, M, rfl, fun _ h => h, by simp⟩
  | cons o rest ih =>
    intro i S M hpre
    -- the options after the head, under a skip list that extends `S`
    have tail : ∀ (S2 : List Nat) (M2 : Bytes), (∀ j ∈ S, j ∈ S2) →
        (i ∉ S2 → V = o.take n ∧ o ≠ V) →
        ∃ S1 M1, longestMatchInner V n rest (i + 1) S2 M2 = Outcome.ret (S1, M1) ∧
          (∀ j ∈ S, j ∈ S1) ∧
          (∀ idx o1, (o :: rest)[idx]? = some o1 → i + idx ∉ S1 → V = o1.take n ∧ o1 ≠ V) := by
      intro S2 M2 hsub hhead
      obtain ⟨S1, M1, h1, h2, h3⟩ := ih (i + 1) S2 M2 (by
        intro idx o1 ho1 hnot
        refine hpre (idx + 1) o1 (by simpa using ho1) ?_
        intro hmem
        exact hnot (by rw [show i + 1 + idx = i + (idx + 1) by omega]; exact hsub _ hmem))
      refine ⟨S1, M1, h1, fun j hj => h2 j (hsub j hj), ?_⟩
      intro idx o1 ho1 hnot
      cases idx with
      | zero =>
        simp only [List.getElem?_cons_zero, Option.some.injEq] at ho1
        subst ho1
        exact hhead (fun hmem => hnot (h2 _ hmem))
      | succ k =>
        exact h3 k o1 (by simpa using ho1) (by rwa [show i + (k + 1) = i + 1 + k by omega] at hnot)
    unfold longestMatchInner
    split
    · rename_i hi
      exact tail S M (fun _ h => h) (fun h => absurd hi h)
    · rename_i hi
      split
      · exact tail _ _ (fun j hj => List.mem_append_left _ hj) (fun h => absurd (by simp) h)
      · rename_i hne
        have hn : n ≤ o.length := hpre 0 o (by simp) hi
        rw [slice_zero o n hn]
        simp only
        split
        · exact tail _ _ (fun j hj => List.mem_append_left _ hj) (fun h => absurd (by simp) h)
        · rename_i hkeep
          simp only [Bool.or_eq_true, decide_eq_true_eq, Bool.not_eq_true', decide_eq_false_iff_not,
            not_or, not_not] at hkeep
          exact tail S M (fun _ h => h) (fun _ => ⟨hkeep.2, hne⟩)

theorem longestMatchInnerComparisons_spec (V : Bytes) (n : Nat) :
    ∀ (rest : List Bytes) (i : Nat) (S : List Nat),
      ∀ e ∈ longestMatchInnerComparisons V n rest i S,
        e.bound = n ∧ e.value = V ∧ ∃ idx, rest[idx]? = some e.option ∧ i + idx ∉ S := by
  intro rest
  induction rest with
  | nil => intro i S e he; simp [longestMatchInnerComparisons] at he
  | cons o rest ih =>
    intro i S e he
    have tail : ∀ (S2 : List Nat), (∀ j ∈ S, j ∈ S2) →
        e ∈ longestMatchInnerComparisons V n rest (i + 1) S2 →
        e.bound = n ∧ e.value = V ∧ ∃ idx, (o :: rest)[idx]? = some e.option ∧ i + idx ∉ S := by
      intro S2 hsub hmem
      obtain ⟨h1, h2, idx, h3, h4⟩ := ih (i + 1) S2 e hmem
      refine ⟨h1, h2, idx + 1, by simpa using h3, fun hin => h4 ?_⟩
      rw [show i + 1 + idx = i + (idx + 1) by omega]
      exact hsub _ hin
    unfold longestMatchInnerComparisons at he
    split at he
    · exact tail S (fun _ h => h) he
    · rename_i hi
      split at he
      · exact tail _ (fun j hj => List.mem_append_left _ hj) he
      · rcases List.mem_cons.mp he with h | h
        · subst h
          exact ⟨rfl, rfl, 0, by simp, hi⟩
        · split at h
          · simp at h
          · simp only at h
            split at h
            · exact tail _ (fun j hj => List.mem_append_left _ hj) h
            · exact tail S (fun _ h => h) h

theorem longestMatchLoop_total (source : Bytes) (ic : cursor) (opts : List Bytes) :
    ∀ (fuel pointer : Nat) (V : Bytes) (S : List Nat) (M : Bytes),
      source.length - pointer < fuel → ic.pointer ≤ pointer →
      (∀ j o, opts[j]? = some o → j ∉ S → pointer - ic.pointer < o.length) →
      ((∀ b ∈ source, b < 128) → V.length = pointer - ic.pointer) →
      (∃ m, longestMatchLoop source ic opts fuel pointer V S M = Outcome.ret m) ∧
      ∀ e ∈ longestMatchLoopComparisons source ic opts fuel pointer V S M,
        e.bound ≤ e.option.length ∧ ((∀ b ∈ source, b < 128) → e.value.length = e.bound) := by
  intro fuel
  induction fuel with
  | zero => intro pointer V S M h; omega
  | succ f ih =>
    intro pointer V S M hfuel hp halive hlen
    by_cases hlt : pointer < source.length
    · have hget : source[pointer]? = some source[pointer] := List.getElem?_eq_getElem hlt
      have hn : pointer + 1 - ic.pointer = pointer - ic.pointer + 1 := by omega
      have hV1 : (∀ b ∈ source, b < 128) →
          (V ++ toLowerByteString source[pointer]).length = pointer + 1 - ic.pointer := by
        intro hascii
        rw [List.length_append, hlen hascii,
          toLowerByteString_ascii _ (hascii _ (List.getElem_mem hlt))]
        simp only [List.length_singleton]
        omega
      obtain ⟨S1, M1, hinner, hsub, hsurv⟩ := longestMatchInner_total
        (V ++ toLowerByteString source[pointer]) (pointer + 1 - ic.pointer) opts 0 S M (by
          intro idx o ho hnot
          have := halive idx o ho (by simpa using hnot)
          omega)
      have hevents : ∀ e ∈ longestMatchInnerComparisons (V ++ toLowerByteString source[pointer])
          (pointer + 1 - ic.pointer) opts 0 S,
          e.bound ≤ e.option.length ∧ ((∀ b ∈ source, b < 128) → e.value.length = e.bound) := by
        intro e he
        obtain ⟨h1, h2, idx, h3, h4⟩ := longestMatchInnerComparisons_spec _ _ _ _ _ e he
        have := halive idx e.option h3 (by simpa using h4)
        refine ⟨by omega, fun hascii => ?_⟩
        rw [h1, h2]
        exact hV1 hascii
      have hnext := ih (pointer + 1) (V ++ toLowerByteString source[pointer]) S1 M1
        (by omega) (by omega) (by
          intro j o ho hnot
          obtain ⟨h1, h2⟩ := hsurv j o ho (by simpa using hnot)
          by_contra hcon
          apply h2
          rw [h1, List.take_of_length_le (by omega)]) hV1
      constructor
      · simp only [longestMatchLoop, hlt, if_true, hget, hinner]
        split
        · exact ⟨_, rfl⟩
        · exact hnext.1
      · intro e he
        simp only [longestMatchLoopComparisons, hlt, if_true, hget, hinner] at he
        rcases List.mem_append.mp he with h | h
        · exact hevents e h
        · split at h
          · simp at h
          · exact hnext.2 e h
    · constructor
      · simp only [longestMatchLoop, hlt, if_false]
        exact ⟨_, rfl⟩
      · intro e he
        simp [longestMatchLoopComparisons, hlt] at he

theorem longestMatch_total (source : Bytes) (ic : cursor) (opts : List Bytes)
    (hne : ∀ o ∈ opts, o ≠ []) :
    (∃ m, longestMatch source ic opts = Outcome.ret m) ∧
    ∀ e ∈ longestMatchComparisons source ic opts,
      e.bound ≤ e.option.length ∧ ((∀ b ∈ source, b < 128) → e.value.length = e.bound) := by
  unfold longestMatch longestMatchComparisons
  apply longestMatchLoop_total source ic opts
  · omega
  · exact le_refl _
  · intro j o ho _
    have := List.length_pos.mpr (hne o (List.getElem?_mem ho))
    omega
  · intro _
    simp

/-! ## The claim C23 -/

/-- C23, as stated, fails in its clause on `tooLong`: at the source `é` (the bytes 195,
169) `lexSymbol` calls `longestMatch` with the five one-byte symbols; the first byte is
lower-cased to the two bytes 195, 163, so at each of the five comparisons the value has
two bytes, the option one, and `tooLong` is true. -/
theorem longestMatch_tooLong_reached :
    longestMatchComparisons (str "é") startCursor symbols
      = [⟨[44], 1, [195, 163]⟩, ⟨[59], 1, [195, 163]⟩, ⟨[42], 1, [195, 163]⟩,
         ⟨[40], 1, [195, 163]⟩, ⟨[41], 1, [195, 163]⟩] ∧
    (∃ e ∈ longestMatchComparisons (str "é") startCursor symbols, e.tooLong = true) ∧
    longestMatch (str "é") startCursor symbols = Outcome.ret [] := by
  decide

/-- C23, amended. For every source string (any byte content), every cursor and every
list of non-empty option strings, `longestMatch` returns without a panic, and whenever
the prefix comparison `option[:n]` is evaluated for an option not yet in the skip list,
`n <= len(option)`. The test `tooLong` can be true, but only where the prefix comparison
fails as well, and never when all the bytes of the source are ASCII. -/
theorem longestMatch_slices_in_range (source : Bytes) (ic : cursor) (options : List Bytes)
    (hne : ∀ o ∈ options, o ≠ []) :
    (∃ m, longestMatch source ic options = Outcome.ret m) ∧
    ∀ e ∈ longestMatchComparisons source ic options,
      e.bound ≤ e.option.length ∧
      slice e.option 0 e.bound = some (e.option.take e.bound) ∧
      (e.tooLong = true → e.value ≠ e.option.take e.bound) ∧
      ((∀ b ∈ source, b < 128) → e.tooLong = false) := by
  obtain ⟨h1, h2⟩ := longestMatch_total source ic options hne
  refine ⟨h1, fun e he => ?_⟩
  obtain ⟨hb, hascii⟩ := h2 e he
  refine ⟨hb, slice_zero _ _ hb, ?_, ?_⟩
  · intro hlong heq
    simp only [Comparison.tooLong, decide_eq_true_eq] at hlong
    have hlen : e.value.length = (e.option.take e.bound).length := by rw [← heq]
    rw [List.length_take] at hlen
    omega
  · intro hsrc
    have := hascii hsrc
    simp only [Comparison.tooLong, decide_eq_false_iff_not]
    omega

/-- C23, amended, at the source `é;` with the five symbols as options. -/
theorem longestMatch_slices_in_range_witness :
    (∀ o ∈ symbols, o ≠ []) ∧
    (∃ m, longestMatch (str "é;") startCursor symbols = Outcome.ret m) ∧
    ∀ e ∈ longestMatchComparisons (str "é;") startCursor symbols,
      e.bound ≤ e.option.length ∧
      slice e.option 0 e.bound = some (e.option.take e.bound) ∧
      (e.tooLong = true → e.value ≠ e.option.take e.bound) ∧
      ((∀ b ∈ str "é;", b < 128) → e.tooLong = false) :=
  ⟨by decide, longestMatch_slices_in_range (str "é;") startCursor symbols (by decide)⟩

end MemSql
